import Mathlib

/-!
# TriTriAgainAgain: a verification development

Shallow embedding of `src/TriTriAgainAgain.cpp`.

Modelling conventions.

* `Point` carries `float` coordinates in the source. The development has two layers.
  The first computes in exact integer arithmetic (`orientation`, `do_intersect`, `sign`,
  `is_inside_triangle`, `translate`, `create_dimensions`, the four vertex functions); it is
  what the source computes as long as no `float` operation rounds and no `int` overflows,
  which is the case on the board of `main` (coordinates in `0 .. 17`, areas at most 20,
  hence bases and heights below 40).
  The second layer (names ending in `_f32`) repeats the same functions in machine
  arithmetic: every `float` operation is rounded to binary32 (round to nearest, ties to
  even, each operation on its own), `int` arithmetic wraps at 32 bits, and a `float` is
  converted to `int` by `to_int32`. A `float` holding an integer value is represented by
  that integer. The two layers agree on coordinates of magnitude at most 2047
  (`orientation_f32_eq`, `do_intersect_f32_eq`, `is_inside_triangle_f32_eq`,
  `translate_f32_eq`, `vertices_f32_eq`, `create_dimensions_f32_eq_exact`); statements
  about arbitrary coordinates are made on the second layer.
* The source keeps triangles in a flat `vector<Point>` whose length is always a
  multiple of three ("each three points is one triangle"). Such a vector is
  modelled as a list of vertex triples `Tri`; the flat index `3 * t` is the
  list index `t`.
* `while` loops run under an iteration budget and return `none` when it is
  exhausted; `for` loops over a fixed range are recursions on the number of
  remaining iterations or list traversals.
* `exit(0)` after `print_solution` is modelled by returning the printed vector.
* `sign_rat` and `is_inside_triangle_rat` are the sign test read in exact rational
  arithmetic. They belong to the vocabulary of the statements (they link the integer test
  to the closed triangle) and are no model of the source's `float` computation; on
  integer points they agree with the exact integer test (`is_inside_triangle_rat_cast`).
-/

namespace TriTri

/-- Board coordinates run from 0 to `MAX_LEN`. -/
def MAX_LEN : Int := 17

/-- A planar point (source: `struct Point`). -/
structure Point where
  x : Int
  y : Int
deriving DecidableEq, Repr

/-- A (base, height) pair with its valid offsets (source: `struct valid_translations`). -/
structure valid_translations where
  _dimensions : Point
  _translations : List Point
deriving DecidableEq, Repr

/-- Three consecutive entries of a flat vertex vector: one triangle. -/
structure Tri where
  a : Point
  b : Point
  c : Point
deriving DecidableEq, Repr

/-- A board cell (source: `class Triangle`). -/
structure Triangle where
  _x : Int
  _y : Int
  _area : Int
  _combinations : List valid_translations
  all_triangles : List Tri
deriving DecidableEq, Repr

/-! ## Point comparison functions -/

/-- Source: `is_on_same_line`. -/
def is_on_same_line (p q r : Point) : Bool :=
  decide (q.x ≤ max p.x r.x) && decide (q.x ≥ min p.x r.x) &&
    decide (q.y ≤ max p.y r.y) && decide (q.y ≥ min p.y r.y)

/-- The value `val` computed by `orientation`, in exact arithmetic. -/
def orientation_val (p q r : Point) : Int :=
  (q.y - p.y) * (r.x - q.x) - (q.x - p.x) * (r.y - q.y)

/-- Source: `orientation` (0 colinear, 1 clockwise, 2 counter-clockwise), in exact
arithmetic; `orientation_f32` is the same function in machine arithmetic. -/
def orientation (p q r : Point) : Nat :=
  let val := orientation_val p q r
  if val = 0 then 0 else if val > 0 then 1 else 2

/-- Source: `do_intersect`, statement by statement, on the exact `orientation`. -/
def do_intersect (p1 q1 p2 q2 : Point) : Bool :=
  let o1 := orientation p1 q1 p2
  let o2 := orientation p1 q1 q2
  let o3 := orientation p2 q2 p1
  let o4 := orientation p2 q2 q1
  if o1 = 0 ∨ o2 = 0 ∨ o3 = 0 ∨ o4 = 0 then false
  else if o1 ≠ o2 ∧ o3 ≠ o4 then true
  else if o1 = 0 ∧ is_on_same_line p1 p2 q1 = true then false
  else if o2 = 0 ∧ is_on_same_line p1 q2 q1 = true then false
  else if o3 = 0 ∧ is_on_same_line p2 p1 q2 = true then false
  else if o4 = 0 ∧ is_on_same_line p2 q1 q2 = true then false
  else false

/-- Source: `sign`, in exact arithmetic; `sign_f32` is the same function in machine
arithmetic. -/
def sign (p1 p2 p3 : Point) : Int :=
  (p1.x - p3.x) * (p2.y - p3.y) - (p2.x - p3.x) * (p1.y - p3.y)

/-- Source: `is_inside_triangle`, on the exact `sign`. -/
def is_inside_triangle (pt v1 v2 v3 : Point) : Bool :=
  let d1 := sign pt v1 v2
  let d2 := sign pt v2 v3
  let d3 := sign pt v3 v1
  let has_neg := decide (d1 < 0) || decide (d2 < 0) || decide (d3 < 0)
  let has_pos := decide (d1 > 0) || decide (d2 > 0) || decide (d3 > 0)
  !(has_neg && has_pos)

/-- Source: `is_triangle_contained_in_another_triangle`. -/
def is_triangle_contained_in_another_triangle (triangle_vertices : List Tri)
    (p q r : Point) : Bool :=
  triangle_vertices.any fun t =>
    is_inside_triangle p t.a t.b t.c && is_inside_triangle q t.a t.b t.c &&
      is_inside_triangle r t.a t.b t.c

/-- Source: `triangle_contains_another_triangle`. -/
def triangle_contains_another_triangle (triangle_vertices : List Tri)
    (p q r : Point) : Bool :=
  triangle_vertices.any fun t =>
    is_inside_triangle t.a p q r && is_inside_triangle t.b p q r &&
      is_inside_triangle t.c p q r

/-! ## Candidate generation -/

/-- The local variables of `Triangle::translate`: the `int` variables `shiftX`, `shiftY`,
the three vertices and the result vector. -/
structure TranslateState where
  shiftX : Int
  shiftY : Int
  v1 : Point
  v2 : Point
  v3 : Point
  results : List Point
deriving DecidableEq, Repr

/-- The inner `while` loop of `translate` in exact arithmetic, at most `n` tests of its
condition. -/
def translate_inner (q1 : Point) : Nat → TranslateState → Option TranslateState
  | 0, _ => none
  | n + 1, s =>
    if is_inside_triangle q1 s.v1 s.v2 s.v3 then
      translate_inner q1 n
        { s with
          results := s.results ++ [⟨s.shiftX, s.shiftY⟩]
          shiftY := s.shiftY - 1
          v2 := ⟨s.v2.x, s.v2.y - 1⟩
          v3 := ⟨s.v3.x, s.v3.y - 1⟩ }
    else some s

/-- The outer `while` loop of `translate` in exact arithmetic, at most `n` tests of its
condition; every run of the inner loop gets the budget `fuel`. -/
def translate_outer (q1 : Point) (maxHeight : Int) (fuel : Nat) :
    Nat → TranslateState → Option TranslateState
  | 0, _ => none
  | n + 1, s =>
    if is_inside_triangle q1 s.v1 s.v2 s.v3 then
      match translate_inner q1 fuel { s with shiftY := 0, v1 := ⟨s.shiftX, 0⟩ } with
      | none => none
      | some s1 =>
        translate_outer q1 maxHeight fuel n
          { s1 with
            v2 := ⟨s1.v2.x - 1, maxHeight⟩
            v3 := ⟨s1.v3.x - 1, 0⟩
            shiftX := s1.shiftX - 1 }
    else some s

/-- Source: `Triangle::translate` in exact arithmetic, every loop under the iteration budget
`fuel`. -/
def translate_fuel (fuel : Nat) (dimensions : Point) : Option (List Point) :=
  let q1 : Point := ⟨1, 1⟩
  let s0 : TranslateState :=
    { shiftX := 0, shiftY := 0, v1 := ⟨0, 0⟩, v2 := ⟨0, dimensions.y⟩,
      v3 := ⟨dimensions.x, 0⟩, results := [] }
  (translate_outer q1 dimensions.y fuel fuel s0).map fun s => s.results

/-- Source: `Triangle::translate` in exact arithmetic. The budget `base + height + 2` is
never exhausted, whatever the dimension (see `translate_fuel_total`). -/
def translate (dimensions : Point) : List Point :=
  (translate_fuel ((dimensions.x + dimensions.y).toNat + 2) dimensions).getD []

/-- The `for` loop of `create_dimensions` in exact arithmetic: `n` iterations remain, `base`
is the loop variable. -/
def create_dimensions_loop (effectiveArea : Int) :
    Nat → Int → List valid_translations → List valid_translations
  | 0, _, combinations => combinations
  | n + 1, base, combinations =>
    if base < effectiveArea then
      if effectiveArea % base = 0 then
        let height := effectiveArea / base
        create_dimensions_loop effectiveArea n (base + 1)
          (combinations ++ [⟨⟨base, height⟩, translate ⟨base, height⟩⟩])
      else create_dimensions_loop effectiveArea n (base + 1) combinations
    else combinations

/-- Source: `Triangle::create_dimensions` in exact arithmetic; the loop variable runs over
`2 .. 2 * area - 1`, that is `2 * area - 2` iterations. -/
def create_dimensions (area : Int) (combinations : List valid_translations) :
    List valid_translations :=
  let effectiveArea := 2 * area
  create_dimensions_loop effectiveArea (effectiveArea - 2).toNat 2 combinations

/-- The value of `std::abs` on an integer-valued coordinate. -/
def abs_coord (v : Int) : Int := (Int.natAbs v : Int)

/-- Vertices computed by the first loop of `make_combinations` (upward direction), in exact
arithmetic. -/
def upright_vertices (X Y : Int) (dim off : Point) : Tri :=
  let aX := X + off.x
  let aY := Y + off.y
  ⟨⟨aX, aY⟩, ⟨aX + dim.x, aY⟩, ⟨aX, aY + dim.y⟩⟩

/-- Vertices computed by the second loop of `make_combinations` (right direction), in
exact arithmetic. -/
def right_vertices (X Y : Int) (dim off : Point) : Tri :=
  let aX := X + off.y
  let aY := Y + abs_coord off.x + 1
  ⟨⟨aX, aY⟩, ⟨aX, aY - dim.x⟩, ⟨aX + dim.y, aY⟩⟩

/-- Vertices computed by the third loop of `make_combinations` (downward direction), in
exact arithmetic. -/
def down_vertices (X Y : Int) (dim off : Point) : Tri :=
  let aX := X + abs_coord off.x + 1
  let aY := Y + abs_coord off.y + 1
  ⟨⟨aX, aY⟩, ⟨aX - dim.x, aY⟩, ⟨aX, aY - dim.y⟩⟩

/-- Vertices computed by the fourth loop of `make_combinations` (left direction), in exact
arithmetic. -/
def left_vertices (X Y : Int) (dim off : Point) : Tri :=
  let aX := X + abs_coord off.y + 1
  let aY := Y + off.x
  ⟨⟨aX, aY⟩, ⟨aX, aY + dim.x⟩, ⟨aX - dim.y, aY⟩⟩

/-- The bounds test of `make_combinations`: true when some vertex lies off the board. -/
def off_board (t : Tri) : Bool :=
  decide (t.a.x < 0) || decide (t.a.x > MAX_LEN) || decide (t.b.x < 0) ||
    decide (t.b.x > MAX_LEN) || decide (t.c.x < 0) || decide (t.c.x > MAX_LEN) ||
    decide (t.a.y < 0) || decide (t.a.y > MAX_LEN) || decide (t.b.y < 0) ||
    decide (t.b.y > MAX_LEN) || decide (t.c.y < 0) || decide (t.c.y > MAX_LEN)

/-- One of the four double loops of `make_combinations`: for every dimension `i` and every
offset `j`, in order, the triple `vertices dim off` is appended unless it is off the board. -/
def combinations_pass (vertices : Point → Point → Tri)
    (combinations : List valid_translations) : List Tri :=
  combinations.flatMap fun cmb =>
    (cmb._translations.map (vertices cmb._dimensions)).filter fun t => !off_board t

/-- Source: `Triangle::make_combinations`: the four double loops, one after the other. -/
def make_combinations (X Y : Int) (combinations : List valid_translations)
    (allTriangles : List Tri) : List Tri :=
  allTriangles ++ combinations_pass (upright_vertices X Y) combinations ++
    combinations_pass (right_vertices X Y) combinations ++
    combinations_pass (down_vertices X Y) combinations ++
    combinations_pass (left_vertices X Y) combinations

/-- Source: the constructor `Triangle(int area, int x, int y)`. -/
def Triangle.new (area x y : Int) : Triangle :=
  let combinations := create_dimensions area []
  { _x := x, _y := y, _area := area, _combinations := combinations,
    all_triangles := make_combinations x y combinations [] }

/-! ## Preprocessing -/

/-- The 18-term disjunction of `pre_process_valid_triangles`, for the candidate `p q r` and
the cell with anchor `(xc, yc)`, term by term as written in the source. -/
def square_test (p q r : Point) (xc yc : Int) : Bool :=
  let a : Point := ⟨xc, yc⟩
  let b : Point := ⟨xc, yc + 1⟩
  let c : Point := ⟨xc + 1, yc + 1⟩
  let d : Point := ⟨xc + 1, yc⟩
  do_intersect p q a b || do_intersect p q a c || do_intersect p q a d ||
    do_intersect p q b c || do_intersect p q b d || do_intersect p q c d ||
    do_intersect p r a b || do_intersect p r a c || do_intersect p q a d ||
    do_intersect p r b c || do_intersect p r b d || do_intersect p r c d ||
    do_intersect q r a b || do_intersect q r a c || do_intersect q q a d ||
    do_intersect q r b c || do_intersect q r b d || do_intersect q r c d

/-- The `k` loop of `pre_process_valid_triangles`: does the candidate get erased? -/
def hits_other_cell (board : List Triangle) (i : Nat) (t : Tri) : Bool :=
  (List.range board.length).any fun k =>
    k != i && (match board[k]? with
      | some cell => square_test t.a t.b t.c cell._x cell._y
      | none => false)

/-- The `j` loop of `pre_process_valid_triangles` over one candidate list: `j` counts
triangles (flat index `3 * j`); after an erase the loop still advances `j`. At most `n`
iterations remain. -/
def sweep_candidates (erase : Tri → Bool) : Nat → Nat → List Tri → List Tri
  | 0, _, l => l
  | n + 1, j, l =>
    match l[j]? with
    | none => l
    | some t =>
      if erase t then sweep_candidates erase n (j + 1) (l.eraseIdx j)
      else sweep_candidates erase n (j + 1) l

/-- The body of the `i` loop of `pre_process_valid_triangles`. -/
def pre_process_cell (board : List Triangle) (i : Nat) : List Triangle :=
  match board[i]? with
  | none => board
  | some cell =>
    board.set i
      { cell with
        all_triangles :=
          sweep_candidates (hits_other_cell board i) cell.all_triangles.length 0
            cell.all_triangles }

/-- Source: `pre_process_valid_triangles`. -/
def pre_process_valid_triangles (board : List Triangle) : List Triangle :=
  (List.range board.length).foldl pre_process_cell board

/-! ## Backtracking search -/

/-- The nine tests of the `j` loop body of `solution` against one placed triangle
`s = (solution_vector[j], solution_vector[j+1], solution_vector[j+2])`. -/
def crosses_placed (p q r : Point) (s : Tri) : Bool :=
  do_intersect p q s.a s.b || do_intersect p q s.a s.c || do_intersect p q s.c s.b ||
    do_intersect p r s.a s.b || do_intersect p r s.a s.c || do_intersect p r s.c s.b ||
    do_intersect q r s.a s.b || do_intersect q r s.a s.c || do_intersect q r s.c s.b

/-- The value of `is_triangle_valid` when `solution` reaches its last test of it. -/
def is_triangle_valid (solution_vector : List Tri) (p q r : Point) : Bool :=
  let v0 := !(solution_vector.any (crosses_placed p q r))
  let v1 := if v0 && is_triangle_contained_in_another_triangle solution_vector p q r
    then false else v0
  let v2 := if v0 && triangle_contains_another_triangle solution_vector p q r
    then false else v1
  v2

/-- Source: `solution`, on the cells `board[index ..]` still to be placed. The result is the
vector handed to `print_solution` before `exit(0)`, or `none` when the call returns. -/
def solution_from : List Triangle → List Tri → Option (List Tri)
  | [], solution_vector => some solution_vector
  | cell :: rest, solution_vector =>
    cell.all_triangles.findSome? fun t =>
      if is_triangle_valid solution_vector t.a t.b t.c then
        solution_from rest (solution_vector ++ [⟨t.b, t.a, t.c⟩])
      else none

/-- Source: `solution(board, index, solution_vector)`. -/
def solution (board : List Triangle) (index : Nat) (solution_vector : List Tri) :
    Option (List Tri) :=
  solution_from (board.drop index) solution_vector

/-! ## Vocabulary of the specification -/

/-- The three edges of a triangle, each as a pair of endpoints. -/
def tri_edges (t : Tri) : List (Point × Point) :=
  [(t.a, t.b), (t.a, t.c), (t.b, t.c)]

/-- Some edge of `s`, taken as first segment, and some edge of `t`, taken as second segment,
satisfy `do_intersect` (nine pairs). -/
def edges_cross (s t : Tri) : Prop :=
  ∃ e ∈ tri_edges s, ∃ f ∈ tri_edges t, do_intersect e.1 e.2 f.1 f.2 = true

/-- All three vertices of `s` pass `is_inside_triangle` for the triangle `t`. -/
def all_inside (s t : Tri) : Prop :=
  is_inside_triangle s.a t.a t.b t.c = true ∧ is_inside_triangle s.b t.a t.b t.c = true ∧
    is_inside_triangle s.c t.a t.b t.c = true

/-- Two triangles may stand in one solution: no crossing among their nine edge pairs, in
either argument order, and neither has all its vertices inside the other. -/
def compatible (s t : Tri) : Prop :=
  ¬ edges_cross s t ∧ ¬ edges_cross t s ∧ ¬ all_inside s t ∧ ¬ all_inside t s

/-- The two triangles have the same three vertices, in any order. -/
def same_vertices (s t : Tri) : Prop :=
  List.Perm [s.a, s.b, s.c] [t.a, t.b, t.c]

/-- One candidate picked from each cell's list, every two picked triangles compatible. -/
def is_assignment (board : List Triangle) (picks : List Tri) : Prop :=
  List.Forall₂ (fun cell t => t ∈ cell.all_triangles) board picks ∧
    picks.Pairwise compatible

/-- An assignment given with positions: entry `(i, t)` for a cell says that `t` is the
candidate at position `i` of that cell's list. -/
def is_indexed_assignment (board : List Triangle) (choice : List (Nat × Tri)) : Prop :=
  List.Forall₂ (fun cell it => cell.all_triangles[it.1]? = some it.2) board choice ∧
    (choice.map Prod.snd).Pairwise compatible

/-- Lexicographic comparison of position lists, the head being the most significant. -/
def lex_le : List Nat → List Nat → Prop
  | [], _ => True
  | _ :: _, [] => False
  | i :: is, j :: js => i < j ∨ (i = j ∧ lex_le is js)

/-- The vertex order in which `solution` stores an accepted candidate. -/
def stored (t : Tri) : Tri := ⟨t.b, t.a, t.c⟩

/-- Cross product of the direction vectors `q1 - p1` and `q2 - p2`. -/
def dir_cross (p1 q1 p2 q2 : Point) : Int :=
  (q1.x - p1.x) * (q2.y - p2.y) - (q1.y - p1.y) * (q2.x - p2.x)

/-- A point with its coordinates read as rationals. -/
def Point.toRat (p : Point) : ℚ × ℚ := ((p.x : ℚ), (p.y : ℚ))

/-- The point `p + t * (q - p)` of the line through `p` and `q`; it lies on the segment
when `0 ≤ t ≤ 1`. -/
def seg_point (p q : Point) (t : ℚ) : ℚ × ℚ :=
  ((p.x : ℚ) + t * ((q.x : ℚ) - (p.x : ℚ)), (p.y : ℚ) + t * ((q.y : ℚ) - (p.y : ℚ)))

/-- The two segments share a point that is an endpoint of neither of them. -/
def share_inner_point (p1 q1 p2 q2 : Point) : Prop :=
  ∃ t s : ℚ, 0 ≤ t ∧ t ≤ 1 ∧ 0 ≤ s ∧ s ≤ 1 ∧ seg_point p1 q1 t = seg_point p2 q2 s ∧
    seg_point p1 q1 t ≠ p1.toRat ∧ seg_point p1 q1 t ≠ q1.toRat ∧
    seg_point p1 q1 t ≠ p2.toRat ∧ seg_point p1 q1 t ≠ q2.toRat

/-- All four corners of the unit square anchored at `(X, Y)` pass the exact
`is_inside_triangle` for the triangle `t`. -/
def unit_square_inside (X Y : Int) (t : Tri) : Prop :=
  is_inside_triangle ⟨X, Y⟩ t.a t.b t.c = true ∧
    is_inside_triangle ⟨X + 1, Y⟩ t.a t.b t.c = true ∧
    is_inside_triangle ⟨X, Y + 1⟩ t.a t.b t.c = true ∧
    is_inside_triangle ⟨X + 1, Y + 1⟩ t.a t.b t.c = true

/-- The containment inequality of an offset `(sx, sy)` for the dimension `(base, height)`:
the corner `(1, 1)` of the unit square is on or below the hypotenuse of the upright triangle
with right-angle vertex `(sx, sy)`. -/
def offset_ok (base height sx sy : Int) : Prop :=
  (1 - sx) * height + (1 - sy) * base ≤ base * height

/-- Number of offsets `(-i, 0), (-i, -1), ...` that satisfy the containment inequality. -/
def column_height (base height : Int) (i : Nat) : Nat :=
  ((base * height - (1 + (i : Int)) * height) / base).toNat

/-- Number of `shiftX` values `0, -1, ...` for which the offset `(shiftX, 0)` satisfies the
containment inequality. -/
def column_total (base height : Int) : Nat :=
  ((base * height - base) / height).toNat

/-- The offsets with `shiftX = -i`, by descending `shiftY`. -/
def offset_column (base height : Int) (i : Nat) : List Point :=
  (List.range (column_height base height i)).map fun (k : Nat) => ⟨-(i : Int), -(k : Int)⟩

/-- The offsets of the `d` columns `i, i + 1, ...`, column after column. -/
def offsets_from (base height : Int) : Nat → Nat → List Point
  | 0, _ => []
  | d + 1, i => offset_column base height i ++ offsets_from base height d (i + 1)

/-- All offsets that satisfy the containment inequality, by descending `shiftX`, then by
descending `shiftY`. -/
def expected_offsets (base height : Int) : List Point :=
  offsets_from base height (column_total base height) 0

/-- The four sides of the unit square anchored at `(X, Y)`. -/
def square_sides (X Y : Int) : List (Point × Point) :=
  [(⟨X, Y⟩, ⟨X, Y + 1⟩), (⟨X, Y + 1⟩, ⟨X + 1, Y + 1⟩), (⟨X + 1, Y + 1⟩, ⟨X + 1, Y⟩),
    (⟨X, Y⟩, ⟨X + 1, Y⟩)]

/-- Some edge of `t` crosses, per `do_intersect`, some side of the unit square at `(X, Y)`. -/
def crosses_square (t : Tri) (X Y : Int) : Prop :=
  ∃ e ∈ tri_edges t, ∃ f ∈ square_sides X Y, do_intersect e.1 e.2 f.1 f.2 = true

/-! ## Rational coordinates -/

/-- A planar point with rational coordinates. -/
structure RPoint where
  x : ℚ
  y : ℚ
deriving DecidableEq

/-- An integer point read as a rational point. -/
def Point.toRPoint (p : Point) : RPoint := ⟨(p.x : ℚ), (p.y : ℚ)⟩

/-- The expression of `sign` read in exact rational arithmetic. -/
def sign_rat (p1 p2 p3 : RPoint) : ℚ :=
  (p1.x - p3.x) * (p2.y - p3.y) - (p2.x - p3.x) * (p1.y - p3.y)

/-- The test of `is_inside_triangle` read in exact rational arithmetic: not both a negative
and a positive value among the three `sign_rat` values. -/
def is_inside_triangle_rat (pt v1 v2 v3 : RPoint) : Bool :=
  let d1 := sign_rat pt v1 v2
  let d2 := sign_rat pt v2 v3
  let d3 := sign_rat pt v3 v1
  let has_neg := decide (d1 < 0) || decide (d2 < 0) || decide (d3 < 0)
  let has_pos := decide (d1 > 0) || decide (d2 > 0) || decide (d3 > 0)
  !(has_neg && has_pos)

/-- The point `pt` is a convex combination of `v1`, `v2`, `v3`: it lies in the closed
triangle. -/
def in_closed_triangle (pt v1 v2 v3 : RPoint) : Prop :=
  ∃ a b c : ℚ, 0 ≤ a ∧ 0 ≤ b ∧ 0 ≤ c ∧ a + b + c = 1 ∧
    pt.x = a * v1.x + b * v2.x + c * v3.x ∧ pt.y = a * v1.y + b * v2.y + c * v3.y

/-- The three vertices lie on one line. -/
def collinear (v1 v2 v3 : RPoint) : Prop :=
  (v2.x - v1.x) * (v3.y - v1.y) - (v3.x - v1.x) * (v2.y - v1.y) = 0

/-! ## Vocabulary for the candidate order, the board bounds and the preprocessing -/

/-- The candidate order "by dimension first, then by offset, then by rotation": for every
dimension and every offset, in order, the in-bounds rotations upright, right, down, left. -/
def dimension_major_order (X Y : Int) (combinations : List valid_translations) : List Tri :=
  combinations.flatMap fun cmb =>
    cmb._translations.flatMap fun off =>
      [upright_vertices X Y cmb._dimensions off, right_vertices X Y cmb._dimensions off,
        down_vertices X Y cmb._dimensions off, left_vertices X Y cmb._dimensions off].filter
        fun t => !off_board t

/-- The candidate order "by rotation first, then by dimension, then by offset". -/
def rotation_major_order (X Y : Int) (combinations : List valid_translations) : List Tri :=
  [upright_vertices X Y, right_vertices X Y, down_vertices X Y, left_vertices X Y].flatMap
    fun vertices =>
      combinations.flatMap fun cmb =>
        (cmb._translations.map (vertices cmb._dimensions)).filter fun t => !off_board t

/-- The three vertices of a triangle lie within the board. -/
def on_board (t : Tri) : Bool :=
  decide ((0 ≤ t.a.x ∧ t.a.x ≤ MAX_LEN) ∧ (0 ≤ t.a.y ∧ t.a.y ≤ MAX_LEN) ∧
    (0 ≤ t.b.x ∧ t.b.x ≤ MAX_LEN) ∧ (0 ≤ t.b.y ∧ t.b.y ≤ MAX_LEN) ∧
    (0 ≤ t.c.x ∧ t.c.x ≤ MAX_LEN) ∧ (0 ≤ t.c.y ∧ t.c.y ≤ MAX_LEN))

/-- The six segments joining two corners of the unit square anchored at `(X, Y)`: with
`a = (X, Y)`, `b = (X, Y+1)`, `c = (X+1, Y+1)`, `d = (X+1, Y)` they are `a-b`, `a-c`, `a-d`,
`b-c`, `b-d`, `c-d`, that is the four sides and the two diagonals. -/
def corner_segments (X Y : Int) : List (Point × Point) :=
  [(⟨X, Y⟩, ⟨X, Y + 1⟩), (⟨X, Y⟩, ⟨X + 1, Y + 1⟩), (⟨X, Y⟩, ⟨X + 1, Y⟩),
    (⟨X, Y + 1⟩, ⟨X + 1, Y + 1⟩), (⟨X, Y + 1⟩, ⟨X + 1, Y⟩), (⟨X + 1, Y + 1⟩, ⟨X + 1, Y⟩)]

/-- Some edge of `t` crosses, per `do_intersect`, one of the six segments joining two corners
of the unit square at `(X, Y)`. -/
def crosses_corner_segment (t : Tri) (X Y : Int) : Prop :=
  ∃ e ∈ tri_edges t, ∃ f ∈ corner_segments X Y, do_intersect e.1 e.2 f.1 f.2 = true

/-- The list `l'` comes from `l` by deleting some entries, each of which satisfies `P`; the
entries kept are unchanged and in their original order. -/
inductive removes_only (P : Tri → Prop) : List Tri → List Tri → Prop
  | nil : removes_only P [] []
  | keep (t : Tri) {l l' : List Tri} : removes_only P l l' → removes_only P (t :: l) (t :: l')
  | drop (t : Tri) {l l' : List Tri} : P t → removes_only P l l' → removes_only P (t :: l) l'

/-- What the body of the `i` loop of `pre_process_valid_triangles` makes of cell `i`. -/
def swept_cell (board : List Triangle) (i : Nat) (cell : Triangle) : Triangle :=
  { cell with
    all_triangles :=
      sweep_candidates (hits_other_cell board i) cell.all_triangles.length 0
        cell.all_triangles }

/-- Some other cell `k ≠ i` of the board has a unit square one of whose six corner segments
is crossed by an edge of `t`. -/
def crosses_other_cell (board : List Triangle) (i : Nat) (t : Tri) : Prop :=
  ∃ (k : Nat) (other : Triangle), k ≠ i ∧ board[k]? = some other ∧
    crosses_corner_segment t other._x other._y

/-! ## Rotations about the centre of a unit square -/

/-- The image of `p` under the rotation about `centre` whose angle has cosine `cosv` and
sine `sinv`, the `y` axis pointing up: `(0, -1)` is the quarter turn clockwise, `(-1, 0)`
the half turn, `(0, 1)` the quarter turn counter-clockwise. -/
def rotate_about (centre : RPoint) (cosv sinv : ℚ) (p : RPoint) : RPoint :=
  ⟨centre.x + cosv * (p.x - centre.x) - sinv * (p.y - centre.y),
    centre.y + sinv * (p.x - centre.x) + cosv * (p.y - centre.y)⟩

/-- The centre `(X + 1/2, Y + 1/2)` of the unit square anchored at `(X, Y)`. -/
def square_centre (X Y : Int) : RPoint := ⟨(X : ℚ) + 1 / 2, (Y : ℚ) + 1 / 2⟩

/-! ## Machine arithmetic: binary32 `float` and 32-bit `int`

The definitions above compute in exact integer arithmetic. The source computes on `float`
coordinates and stores some results in `int` variables; the definitions of this section and
the `_f32` definitions that follow repeat the source functions with every arithmetic
operation rounded as the machine rounds it. A `float` that holds an integer value is
represented by that integer. -/

/-- The number of low bits of `m` that do not fit a 24-bit significand: the least `e` with
`m / 2 ^ e < 2 ^ 24` (for `m < 2 ^ (24 + fuel)`). -/
def drop_bits : Nat → Nat → Nat
  | 0, _ => 0
  | fuel + 1, m => if m < 2 ^ 24 then 0 else drop_bits fuel (m / 2) + 1

/-- The binary32 value nearest to the integer `n`, ties going to the even significand
(IEEE 754 round-to-nearest-even, 24-bit significand); magnitudes of `2 ^ 128` and more,
which overflow to infinity, are outside the model. -/
def round_f32 (n : Int) : Int :=
  let m := n.natAbs
  let e := drop_bits 128 m
  let q := m / 2 ^ e
  let r := m % 2 ^ e
  let up := decide (2 ^ e < 2 * r) || (decide (2 * r = 2 ^ e) && decide (q % 2 = 1))
  let qq := if up then q + 1 else q
  if n < 0 then -((qq * 2 ^ e : Nat) : Int) else ((qq * 2 ^ e : Nat) : Int)

/-- Conversion of an integer-valued `float` to `int`. A value outside the range of `int` has
no defined result in C++; the model takes `INT_MIN`, which is what the x86-64 conversion
instruction delivers. -/
def to_int32 (v : Int) : Int :=
  if -2 ^ 31 ≤ v ∧ v < 2 ^ 31 then v else -2 ^ 31

/-- The result of `int` arithmetic, wrapped to 32 bits in two's complement. -/
def wrap32 (v : Int) : Int := (v + 2 ^ 31) % 2 ^ 32 - 2 ^ 31

/-- The `float` sum of two `float` values. -/
def fadd (a b : Int) : Int := round_f32 (a + b)

/-- The `float` difference of two `float` values. -/
def fsub (a b : Int) : Int := round_f32 (a - b)

/-- The `float` product of two `float` values. -/
def fmul (a b : Int) : Int := round_f32 (a * b)

/-- The point `Point(x, y)` built from two `int` values: both are converted to `float`. -/
def fpoint (x y : Int) : Point := ⟨round_f32 x, round_f32 y⟩

/-- Source: `orientation`, in `float` arithmetic, the value being stored in the `int`
variable `val`. -/
def orientation_f32 (p q r : Point) : Nat :=
  let val := to_int32 (fsub (fmul (fsub q.y p.y) (fsub r.x q.x))
    (fmul (fsub q.x p.x) (fsub r.y q.y)))
  if val = 0 then 0 else if val > 0 then 1 else 2

/-- Source: `do_intersect`, statement by statement, on `orientation_f32`. -/
def do_intersect_f32 (p1 q1 p2 q2 : Point) : Bool :=
  let o1 := orientation_f32 p1 q1 p2
  let o2 := orientation_f32 p1 q1 q2
  let o3 := orientation_f32 p2 q2 p1
  let o4 := orientation_f32 p2 q2 q1
  if o1 = 0 ∨ o2 = 0 ∨ o3 = 0 ∨ o4 = 0 then false
  else if o1 ≠ o2 ∧ o3 ≠ o4 then true
  else if o1 = 0 ∧ is_on_same_line p1 p2 q1 = true then false
  else if o2 = 0 ∧ is_on_same_line p1 q2 q1 = true then false
  else if o3 = 0 ∧ is_on_same_line p2 p1 q2 = true then false
  else if o4 = 0 ∧ is_on_same_line p2 q1 q2 = true then false
  else false

/-- Source: `sign`, in `float` arithmetic. -/
def sign_f32 (p1 p2 p3 : Point) : Int :=
  fsub (fmul (fsub p1.x p3.x) (fsub p2.y p3.y)) (fmul (fsub p2.x p3.x) (fsub p1.y p3.y))

/-- Source: `is_inside_triangle`, on `sign_f32`. -/
def is_inside_triangle_f32 (pt v1 v2 v3 : Point) : Bool :=
  let d1 := sign_f32 pt v1 v2
  let d2 := sign_f32 pt v2 v3
  let d3 := sign_f32 pt v3 v1
  let has_neg := decide (d1 < 0) || decide (d2 < 0) || decide (d3 < 0)
  let has_pos := decide (d1 > 0) || decide (d2 > 0) || decide (d3 > 0)
  !(has_neg && has_pos)

/-- The inner `while` loop of `translate` in machine arithmetic: `shiftX` and `shiftY` are
`int` variables, the vertices hold `float` coordinates, and `v2.y--`, `v3.y--` are `float`
subtractions. At most `n` tests of the loop condition. -/
def translate_inner_f32 (q1 : Point) : Nat → TranslateState → Option TranslateState
  | 0, _ => none
  | n + 1, s =>
    if is_inside_triangle_f32 q1 s.v1 s.v2 s.v3 then
      translate_inner_f32 q1 n
        { s with
          results := s.results ++ [fpoint s.shiftX s.shiftY]
          shiftY := wrap32 (s.shiftY - 1)
          v2 := ⟨s.v2.x, fsub s.v2.y 1⟩
          v3 := ⟨s.v3.x, fsub s.v3.y 1⟩ }
    else some s

/-- The outer `while` loop of `translate` in machine arithmetic, at most `n` tests of its
condition; every run of the inner loop gets the budget `fuel`. -/
def translate_outer_f32 (q1 : Point) (maxHeight : Int) (fuel : Nat) :
    Nat → TranslateState → Option TranslateState
  | 0, _ => none
  | n + 1, s =>
    if is_inside_triangle_f32 q1 s.v1 s.v2 s.v3 then
      match translate_inner_f32 q1 fuel
        { s with shiftY := 0, v1 := ⟨round_f32 s.shiftX, 0⟩ } with
      | none => none
      | some s1 =>
        translate_outer_f32 q1 maxHeight fuel n
          { s1 with
            v2 := ⟨fsub s1.v2.x 1, round_f32 maxHeight⟩
            v3 := ⟨fsub s1.v3.x 1, 0⟩
            shiftX := wrap32 (s1.shiftX - 1) }
    else some s

/-- Source: `Triangle::translate` in machine arithmetic, every loop under the iteration
budget `fuel`; `maxHeight` is the `int` conversion of `dimensions.y`. The constants 0 and 1
are the same in `int` and in `float`. -/
def translate_fuel_f32 (fuel : Nat) (dimensions : Point) : Option (List Point) :=
  let q1 : Point := ⟨1, 1⟩
  let s0 : TranslateState :=
    { shiftX := 0, shiftY := 0, v1 := ⟨0, 0⟩, v2 := ⟨0, dimensions.y⟩,
      v3 := ⟨dimensions.x, 0⟩, results := [] }
  (translate_outer_f32 q1 (to_int32 dimensions.y) fuel fuel s0).map fun s => s.results

/-- Source: `Triangle::translate` in machine arithmetic, with the iteration budget
`base + height + 2`. The budget is not exhausted for `2 ≤ base, height ≤ 2047`
(`translate_fuel_f32_eq`) nor at the dimension `(2, 16777218)`
(`translate_fuel_f32_tall`); where it is exhausted the value `[]` stands for a run that
has not returned. -/
def translate_f32 (dimensions : Point) : List Point :=
  (translate_fuel_f32 ((dimensions.x + dimensions.y).toNat + 2) dimensions).getD []

/-- The `for` loop of `create_dimensions` in machine arithmetic: `base`, `height` and
`effectiveArea` are `int` variables, `Point(base, height)` converts both to `float`. -/
def create_dimensions_loop_f32 (effectiveArea : Int) :
    Nat → Int → List valid_translations → List valid_translations
  | 0, _, combinations => combinations
  | n + 1, base, combinations =>
    if base < effectiveArea then
      if effectiveArea % base = 0 then
        let height := effectiveArea / base
        create_dimensions_loop_f32 effectiveArea n (base + 1)
          (combinations ++ [⟨fpoint base height, translate_f32 (fpoint base height)⟩])
      else create_dimensions_loop_f32 effectiveArea n (base + 1) combinations
    else combinations

/-- Source: `Triangle::create_dimensions` in machine arithmetic: `2 * area` is an `int`
product. -/
def create_dimensions_f32 (area : Int) (combinations : List valid_translations) :
    List valid_translations :=
  let effectiveArea := wrap32 (2 * area)
  create_dimensions_loop_f32 effectiveArea (effectiveArea - 2).toNat 2 combinations

/-- The six `int` values computed by the first loop of `make_combinations` (upward
direction): each right-hand side is evaluated in `float` (the `int` operand is converted)
and the result is converted back to `int`. -/
def upright_vertices_f32 (X Y : Int) (dim off : Point) : Tri :=
  let aX := to_int32 (fadd (round_f32 X) off.x)
  let aY := to_int32 (fadd (round_f32 Y) off.y)
  let bX := to_int32 (fadd (round_f32 aX) dim.x)
  let bY := aY
  let cX := aX
  let cY := to_int32 (fadd (round_f32 aY) dim.y)
  ⟨⟨aX, aY⟩, ⟨bX, bY⟩, ⟨cX, cY⟩⟩

/-- The six `int` values computed by the second loop of `make_combinations` (right
direction). -/
def right_vertices_f32 (X Y : Int) (dim off : Point) : Tri :=
  let aX := to_int32 (fadd (round_f32 X) off.y)
  let aY := to_int32 (fadd (fadd (round_f32 Y) (abs_coord off.x)) 1)
  let bX := aX
  let bY := to_int32 (fsub (round_f32 aY) dim.x)
  let cX := to_int32 (fadd (round_f32 aX) dim.y)
  let cY := aY
  ⟨⟨aX, aY⟩, ⟨bX, bY⟩, ⟨cX, cY⟩⟩

/-- The six `int` values computed by the third loop of `make_combinations` (downward
direction). -/
def down_vertices_f32 (X Y : Int) (dim off : Point) : Tri :=
  let aX := to_int32 (fadd (fadd (round_f32 X) (abs_coord off.x)) 1)
  let aY := to_int32 (fadd (fadd (round_f32 Y) (abs_coord off.y)) 1)
  let bX := to_int32 (fsub (round_f32 aX) dim.x)
  let bY := aY
  let cX := aX
  let cY := to_int32 (fsub (round_f32 aY) dim.y)
  ⟨⟨aX, aY⟩, ⟨bX, bY⟩, ⟨cX, cY⟩⟩

/-- The six `int` values computed by the fourth loop of `make_combinations` (left
direction). -/
def left_vertices_f32 (X Y : Int) (dim off : Point) : Tri :=
  let aX := to_int32 (fadd (fadd (round_f32 X) (abs_coord off.y)) 1)
  let aY := to_int32 (fadd (round_f32 Y) off.x)
  let bX := aX
  let bY := to_int32 (fadd (round_f32 aY) dim.x)
  let cX := to_int32 (fsub (round_f32 aX) dim.y)
  let cY := aY
  ⟨⟨aX, aY⟩, ⟨bX, bY⟩, ⟨cX, cY⟩⟩

/-- Both coordinates of the point have magnitude at most 2047: coordinate differences then
fit 12 bits and their products fit the 24-bit significand of a `float`. -/
def small_point (p : Point) : Prop :=
  -2047 ≤ p.x ∧ p.x ≤ 2047 ∧ -2047 ≤ p.y ∧ p.y ≤ 2047

/-- The value lies between `-bound` and `bound`. -/
def within (bound v : Int) : Prop := -bound ≤ v ∧ v ≤ bound

/-- All four corners of the unit square anchored at `(X, Y)` lie in the closed triangle `t`:
each is a convex combination of the three vertices. -/
def unit_square_in_closed_triangle (X Y : Int) (t : Tri) : Prop :=
  in_closed_triangle (Point.toRPoint ⟨X, Y⟩) t.a.toRPoint t.b.toRPoint t.c.toRPoint ∧
    in_closed_triangle (Point.toRPoint ⟨X + 1, Y⟩) t.a.toRPoint t.b.toRPoint t.c.toRPoint ∧
    in_closed_triangle (Point.toRPoint ⟨X, Y + 1⟩) t.a.toRPoint t.b.toRPoint t.c.toRPoint ∧
    in_closed_triangle (Point.toRPoint ⟨X + 1, Y + 1⟩) t.a.toRPoint t.b.toRPoint t.c.toRPoint

/-! ## Geometric predicates: basic facts -/

theorem orientation_cases (p q r : Point) :
    (orientation_val p q r = 0 ∧ orientation p q r = 0) ∨
    (0 < orientation_val p q r ∧ orientation p q r = 1) ∨
    (orientation_val p q r < 0 ∧ orientation p q r = 2) := by
  unfold orientation
  simp only []
  rcases lt_trichotomy (orientation_val p q r) 0 with h | h | h
  · right; right
    have h1 : orientation_val p q r ≠ 0 := ne_of_lt h
    have h2 : ¬ orientation_val p q r > 0 := not_lt.mpr (le_of_lt h)
    simp [h, h1, h2]
  · left; simp [h]
  · right; left
    have h1 : orientation_val p q r ≠ 0 := ne_of_gt h
    simp [h, h1]

theorem do_intersect_eq_true_iff_orientation (p1 q1 p2 q2 : Point) :
    do_intersect p1 q1 p2 q2 = true ↔
      (orientation p1 q1 p2 ≠ 0 ∧ orientation p1 q1 q2 ≠ 0 ∧
        orientation p1 q1 p2 ≠ orientation p1 q1 q2) ∧
      (orientation p2 q2 p1 ≠ 0 ∧ orientation p2 q2 q1 ≠ 0 ∧
        orientation p2 q2 p1 ≠ orientation p2 q2 q1) := by
  unfold do_intersect
  simp only []
  generalize orientation p1 q1 p2 = o1
  generalize orientation p1 q1 q2 = o2
  generalize orientation p2 q2 p1 = o3
  generalize orientation p2 q2 q1 = o4
  by_cases h1 : o1 = 0 <;> by_cases h2 : o2 = 0 <;> by_cases h3 : o3 = 0 <;>
    by_cases h4 : o4 = 0 <;> simp [h1, h2, h3, h4]

theorem opposite_sides_iff (p q r r2 : Point) :
    (orientation p q r ≠ 0 ∧ orientation p q r2 ≠ 0 ∧ orientation p q r ≠ orientation p q r2) ↔
      orientation_val p q r * orientation_val p q r2 < 0 := by
  rcases orientation_cases p q r with ⟨a1, b1⟩ | ⟨a1, b1⟩ | ⟨a1, b1⟩ <;>
  rcases orientation_cases p q r2 with ⟨a2, b2⟩ | ⟨a2, b2⟩ | ⟨a2, b2⟩ <;>
  simp only [b1, b2] <;> constructor <;> intro h <;> first
    | (exfalso; revert h; simp; done)
    | (exfalso; revert h; simp [a1, a2]; done)
    | nlinarith
    | simp

theorem do_intersect_eq_true_iff (p1 q1 p2 q2 : Point) :
    do_intersect p1 q1 p2 q2 = true ↔
      orientation_val p1 q1 p2 * orientation_val p1 q1 q2 < 0 ∧
      orientation_val p2 q2 p1 * orientation_val p2 q2 q1 < 0 := by
  rw [do_intersect_eq_true_iff_orientation, opposite_sides_iff, opposite_sides_iff]

theorem do_intersect_swap_segments (p1 q1 p2 q2 : Point) :
    do_intersect p2 q2 p1 q1 = do_intersect p1 q1 p2 q2 := by
  rw [Bool.eq_iff_iff, do_intersect_eq_true_iff, do_intersect_eq_true_iff]
  exact and_comm

theorem orientation_val_swap (p q r : Point) :
    orientation_val q p r = - orientation_val p q r := by
  unfold orientation_val; ring

theorem do_intersect_swap_first (p1 q1 p2 q2 : Point) :
    do_intersect q1 p1 p2 q2 = do_intersect p1 q1 p2 q2 := by
  rw [Bool.eq_iff_iff, do_intersect_eq_true_iff, do_intersect_eq_true_iff,
    orientation_val_swap q1 p1 p2, orientation_val_swap q1 p1 q2, neg_mul_neg,
    mul_comm (orientation_val p2 q2 q1)]

theorem do_intersect_swap_second (p1 q1 p2 q2 : Point) :
    do_intersect p1 q1 q2 p2 = do_intersect p1 q1 p2 q2 := by
  rw [do_intersect_swap_segments q2 p2 p1 q1, do_intersect_swap_first p2 q2 p1 q1,
    do_intersect_swap_segments p1 q1 p2 q2]

theorem sign_swap (pt v1 v2 : Point) : sign pt v2 v1 = - sign pt v1 v2 := by
  unfold sign; ring

theorem is_inside_triangle_eq_true_iff (pt v1 v2 v3 : Point) :
    is_inside_triangle pt v1 v2 v3 = true ↔
      (0 ≤ sign pt v1 v2 ∧ 0 ≤ sign pt v2 v3 ∧ 0 ≤ sign pt v3 v1) ∨
      (sign pt v1 v2 ≤ 0 ∧ sign pt v2 v3 ≤ 0 ∧ sign pt v3 v1 ≤ 0) := by
  unfold is_inside_triangle
  simp only []
  generalize sign pt v1 v2 = d1
  generalize sign pt v2 v3 = d2
  generalize sign pt v3 v1 = d3
  simp only [Bool.not_eq_true', Bool.and_eq_false_iff, Bool.or_eq_false_iff,
    decide_eq_false_iff_not, not_lt, gt_iff_lt]
  omega

theorem is_inside_triangle_swap (pt v1 v2 v3 : Point) :
    is_inside_triangle pt v2 v1 v3 = is_inside_triangle pt v1 v2 v3 := by
  rw [Bool.eq_iff_iff, is_inside_triangle_eq_true_iff, is_inside_triangle_eq_true_iff,
    sign_swap pt v2 v1, sign_swap pt v1 v3, sign_swap pt v3 v2]
  constructor <;> rintro (⟨h1, h2, h3⟩ | ⟨h1, h2, h3⟩)
  · right; exact ⟨by linarith, by linarith, by linarith⟩
  · left; exact ⟨by linarith, by linarith, by linarith⟩
  · right; exact ⟨by linarith, by linarith, by linarith⟩
  · left; exact ⟨by linarith, by linarith, by linarith⟩

/-! ## Compatibility of two triangles and the validity test of the search -/

theorem edges_cross_iff (s t : Tri) :
    edges_cross s t ↔
      (do_intersect s.a s.b t.a t.b = true ∨ do_intersect s.a s.b t.a t.c = true ∨
        do_intersect s.a s.b t.b t.c = true) ∨
      (do_intersect s.a s.c t.a t.b = true ∨ do_intersect s.a s.c t.a t.c = true ∨
        do_intersect s.a s.c t.b t.c = true) ∨
      (do_intersect s.b s.c t.a t.b = true ∨ do_intersect s.b s.c t.a t.c = true ∨
        do_intersect s.b s.c t.b t.c = true) := by
  simp [edges_cross, tri_edges]

theorem edges_cross_symm (s t : Tri) : edges_cross s t ↔ edges_cross t s := by
  rw [edges_cross_iff, edges_cross_iff]
  rw [do_intersect_swap_segments s.a s.b t.a t.b, do_intersect_swap_segments s.a s.b t.a t.c,
    do_intersect_swap_segments s.a s.b t.b t.c, do_intersect_swap_segments s.a s.c t.a t.b,
    do_intersect_swap_segments s.a s.c t.a t.c, do_intersect_swap_segments s.a s.c t.b t.c,
    do_intersect_swap_segments s.b s.c t.a t.b, do_intersect_swap_segments s.b s.c t.a t.c,
    do_intersect_swap_segments s.b s.c t.b t.c]
  tauto

theorem compatible_symm {s t : Tri} (h : compatible s t) : compatible t s :=
  ⟨h.2.1, h.1, h.2.2.2, h.2.2.1⟩

theorem compatible_comm (s t : Tri) : compatible s t ↔ compatible t s :=
  ⟨compatible_symm, compatible_symm⟩

theorem edges_cross_stored_right (s t : Tri) : edges_cross s (stored t) ↔ edges_cross s t := by
  rw [edges_cross_iff, edges_cross_iff]
  simp only [stored]
  rw [do_intersect_swap_second s.a s.b t.a t.b, do_intersect_swap_second s.a s.c t.a t.b,
    do_intersect_swap_second s.b s.c t.a t.b]
  tauto

theorem edges_cross_stored_left (s t : Tri) : edges_cross (stored s) t ↔ edges_cross s t := by
  rw [edges_cross_symm, edges_cross_stored_right, edges_cross_symm]

theorem all_inside_stored_left (s t : Tri) : all_inside (stored s) t ↔ all_inside s t := by
  simp only [all_inside, stored]
  tauto

theorem all_inside_stored_right (s t : Tri) : all_inside s (stored t) ↔ all_inside s t := by
  simp only [all_inside, stored]
  rw [is_inside_triangle_swap s.a, is_inside_triangle_swap s.b, is_inside_triangle_swap s.c]

theorem compatible_stored_right (s t : Tri) : compatible s (stored t) ↔ compatible s t := by
  simp only [compatible, edges_cross_stored_right, edges_cross_stored_left,
    all_inside_stored_left, all_inside_stored_right]

theorem compatible_stored_left (s t : Tri) : compatible (stored s) t ↔ compatible s t := by
  simp only [compatible, edges_cross_stored_right, edges_cross_stored_left,
    all_inside_stored_left, all_inside_stored_right]

theorem crosses_placed_eq_true_iff (p q r : Point) (s : Tri) :
    crosses_placed p q r s = true ↔ edges_cross ⟨p, q, r⟩ s := by
  rw [edges_cross_iff]
  simp only [crosses_placed, Bool.or_eq_true]
  rw [do_intersect_swap_second p q s.b s.c, do_intersect_swap_second p r s.b s.c,
    do_intersect_swap_second q r s.b s.c]
  tauto

theorem is_triangle_valid_eq_true_iff (sv : List Tri) (t : Tri) :
    is_triangle_valid sv t.a t.b t.c = true ↔ ∀ s ∈ sv, compatible t s := by
  have hc : ∀ s, crosses_placed t.a t.b t.c s = true ↔ edges_cross t s := fun s =>
    crosses_placed_eq_true_iff t.a t.b t.c s
  unfold is_triangle_valid is_triangle_contained_in_another_triangle
    triangle_contains_another_triangle
  simp only []
  constructor
  · intro h s hs
    by_cases h0 : sv.any (crosses_placed t.a t.b t.c) = true
    · simp [h0] at h
    · have h0' : sv.any (crosses_placed t.a t.b t.c) = false := by simpa using h0
      rw [h0'] at h
      simp only [Bool.not_false, Bool.true_and] at h
      have hx : ¬ edges_cross t s := by
        intro hx
        have : sv.any (crosses_placed t.a t.b t.c) = true :=
          List.any_eq_true.mpr ⟨s, hs, (hc s).mpr hx⟩
        rw [h0'] at this
        exact Bool.false_ne_true this
      refine ⟨hx, fun hx2 => hx ((edges_cross_symm s t).mp hx2), ?_, ?_⟩
      · intro hin
        have h1 : (sv.any fun u => is_inside_triangle t.a u.a u.b u.c &&
            is_inside_triangle t.b u.a u.b u.c && is_inside_triangle t.c u.a u.b u.c) = true :=
          List.any_eq_true.mpr ⟨s, hs, by simp [hin.1, hin.2.1, hin.2.2]⟩
        rw [h1] at h
        by_cases h2 : (sv.any fun u => is_inside_triangle u.a t.a t.b t.c &&
            is_inside_triangle u.b t.a t.b t.c && is_inside_triangle u.c t.a t.b t.c) = true
        · simp [h2] at h
        · simp [h2] at h
      · intro hin
        have h2 : (sv.any fun u => is_inside_triangle u.a t.a t.b t.c &&
            is_inside_triangle u.b t.a t.b t.c && is_inside_triangle u.c t.a t.b t.c) = true :=
          List.any_eq_true.mpr ⟨s, hs, by simp [hin.1, hin.2.1, hin.2.2]⟩
        rw [h2] at h
        simp at h
  · intro h
    have h0 : sv.any (crosses_placed t.a t.b t.c) = false := by
      rw [Bool.eq_false_iff]
      intro hany
      obtain ⟨s, hs, hcr⟩ := List.any_eq_true.mp hany
      exact (h s hs).1 ((hc s).mp hcr)
    have h1 : (sv.any fun u => is_inside_triangle t.a u.a u.b u.c &&
        is_inside_triangle t.b u.a u.b u.c && is_inside_triangle t.c u.a u.b u.c) = false := by
      rw [Bool.eq_false_iff]
      intro hany
      obtain ⟨s, hs, hcr⟩ := List.any_eq_true.mp hany
      simp only [Bool.and_eq_true] at hcr
      exact (h s hs).2.2.1 ⟨hcr.1.1, hcr.1.2, hcr.2⟩
    have h2 : (sv.any fun u => is_inside_triangle u.a t.a t.b t.c &&
        is_inside_triangle u.b t.a t.b t.c && is_inside_triangle u.c t.a t.b t.c) = false := by
      rw [Bool.eq_false_iff]
      intro hany
      obtain ⟨s, hs, hcr⟩ := List.any_eq_true.mp hany
      simp only [Bool.and_eq_true] at hcr
      exact (h s hs).2.2.2 ⟨hcr.1.1, hcr.1.2, hcr.2⟩
    rw [h0, h1, h2]
    rfl

/-! ## The backtracking search -/

theorem solution_from_eq_none_iff (cells : List Triangle) :
    ∀ sv : List Tri, solution_from cells sv = none ↔
      ¬ ∃ picks : List Tri,
        List.Forall₂ (fun cell t => t ∈ cell.all_triangles) cells picks ∧
        picks.Pairwise compatible ∧ ∀ t ∈ picks, ∀ s ∈ sv, compatible t s := by
  induction cells with
  | nil =>
    intro sv
    simp only [solution_from, reduceCtorEq, false_iff, not_not]
    exact ⟨[], List.Forall₂.nil, List.Pairwise.nil, by simp⟩
  | cons cell rest ih =>
    intro sv
    simp only [solution_from, List.findSome?_eq_none_iff]
    constructor
    · rintro h ⟨picks, hf, hp, hc⟩
      cases hf with
      | cons hmem hrest =>
        rename_i t ps
        have hv : is_triangle_valid sv t.a t.b t.c = true :=
          (is_triangle_valid_eq_true_iff sv t).mpr (hc t (List.mem_cons_self _ _))
        have h1 := h t hmem
        rw [if_pos hv] at h1
        refine (ih _).mp h1 ⟨ps, hrest, (List.pairwise_cons.mp hp).2, ?_⟩
        intro u hu s hs
        rcases List.mem_append.mp hs with hs | hs
        · exact hc u (List.mem_cons_of_mem _ hu) s hs
        · rw [List.mem_singleton] at hs
          subst hs
          exact (compatible_stored_right u t).mpr
            (compatible_symm ((List.pairwise_cons.mp hp).1 u hu))
    · intro h t ht
      by_cases hv : is_triangle_valid sv t.a t.b t.c = true
      · rw [if_pos hv]
        refine (ih _).mpr ?_
        rintro ⟨ps, hrest, hp, hc⟩
        refine h ⟨t :: ps, List.Forall₂.cons ht hrest, List.pairwise_cons.mpr ⟨?_, hp⟩, ?_⟩
        · intro u hu
          exact compatible_symm ((compatible_stored_right u t).mp
            (hc u hu _ (List.mem_append_right _ (List.mem_singleton_self _))))
        · intro u hu s hs
          rcases List.mem_cons.mp hu with hu | hu
          · subst hu
            exact (is_triangle_valid_eq_true_iff sv u).mp hv s hs
          · exact hc u hu s (List.mem_append_left _ hs)
      · rw [if_neg hv]

theorem forall₂_mem_of_indexed {cells : List Triangle} {choice : List (Nat × Tri)}
    (h : List.Forall₂ (fun cell it => cell.all_triangles[it.1]? = some it.2) cells choice) :
    List.Forall₂ (fun cell t => t ∈ cell.all_triangles) cells (choice.map Prod.snd) := by
  induction h with
  | nil => exact List.Forall₂.nil
  | cons hh _ ihh => exact List.Forall₂.cons (List.getElem?_mem hh) ihh

theorem solution_from_eq_some (cells : List Triangle) :
    ∀ (sv r : List Tri), solution_from cells sv = some r →
      ∃ choice : List (Nat × Tri),
        List.Forall₂ (fun cell it => cell.all_triangles[it.1]? = some it.2) cells choice ∧
        r = sv ++ choice.map (fun it => stored it.2) ∧
        (choice.map Prod.snd).Pairwise compatible ∧
        (∀ t ∈ choice.map Prod.snd, ∀ s ∈ sv, compatible t s) ∧
        ∀ other : List (Nat × Tri),
          List.Forall₂ (fun cell it => cell.all_triangles[it.1]? = some it.2) cells other →
          (other.map Prod.snd).Pairwise compatible →
          (∀ t ∈ other.map Prod.snd, ∀ s ∈ sv, compatible t s) →
          lex_le (choice.map Prod.fst) (other.map Prod.fst) := by
  induction cells with
  | nil =>
    intro sv r h
    simp only [solution_from, Option.some.injEq] at h
    refine ⟨[], List.Forall₂.nil, by simp [h], by simp, by simp, ?_⟩
    intro other _ _ _
    simp [lex_le]
  | cons cell rest ih =>
    intro sv r h
    simp only [solution_from] at h
    obtain ⟨l₁, t, l₂, hl, hft, hnone⟩ := List.findSome?_eq_some_iff.mp h
    by_cases hv : is_triangle_valid sv t.a t.b t.c = true
    · rw [if_pos hv] at hft
      obtain ⟨ch, hch, hr, hpw, hsv, hmin⟩ := ih _ _ hft
      have hget : cell.all_triangles[l₁.length]? = some t := by
        rw [hl, List.getElem?_append_right (le_refl _)]; simp
      have htsv : ∀ s ∈ sv, compatible t s := (is_triangle_valid_eq_true_iff sv t).mp hv
      refine ⟨(l₁.length, t) :: ch, List.Forall₂.cons hget hch, ?_, ?_, ?_, ?_⟩
      · rw [hr]; simp [stored]
      · simp only [List.map_cons]
        refine List.pairwise_cons.mpr ⟨?_, hpw⟩
        intro u hu
        exact compatible_symm ((compatible_stored_right u t).mp
          (hsv u hu _ (List.mem_append_right _ (List.mem_singleton_self _))))
      · intro u hu s hs
        simp only [List.map_cons, List.mem_cons] at hu
        rcases hu with hu | hu
        · subst hu; exact htsv s hs
        · exact hsv u hu s (List.mem_append_left _ hs)
      · intro other hother hopw hosv
        cases hother with
        | cons hhead htail =>
          rename_i it os
          simp only [List.map_cons] at hopw hosv ⊢
          have hopw' := List.pairwise_cons.mp hopw
          have hrest_ok : ∀ u ∈ os.map Prod.snd, ∀ s ∈ sv ++ [stored it.2], compatible u s := by
            intro u hu s hs
            rcases List.mem_append.mp hs with hs | hs
            · exact hosv u (List.mem_cons_of_mem _ hu) s hs
            · rw [List.mem_singleton] at hs
              subst hs
              exact (compatible_stored_right u it.2).mpr (compatible_symm (hopw'.1 u hu))
          simp only [lex_le]
          rcases lt_trichotomy l₁.length it.1 with hlt | heq | hgt
          · left; exact hlt
          · right
            refine ⟨heq, ?_⟩
            have : it.2 = t := by
              rw [← heq, hget] at hhead
              exact (Option.some.inj hhead).symm
            rw [this] at hrest_ok
            exact hmin os htail hopw'.2 hrest_ok
          · exfalso
            have hmem : it.2 ∈ l₁ := by
              rw [hl, List.getElem?_append_left hgt] at hhead
              exact List.getElem?_mem hhead
            have hn := hnone _ hmem
            have hv2 : is_triangle_valid sv it.2.a it.2.b it.2.c = true :=
              (is_triangle_valid_eq_true_iff sv it.2).mpr
                (hosv it.2 (List.mem_cons_self _ _))
            rw [if_pos hv2] at hn
            exact (solution_from_eq_none_iff rest _).mp hn
              ⟨os.map Prod.snd, forall₂_mem_of_indexed htail, hopw'.2, hrest_ok⟩
    · rw [if_neg hv] at hft
      exact absurd hft (by simp)

/-- C1: every solution the search `solution(board, 0, [])` reports holds one triangle per
cell; the triangle at position `i` has the same three vertices as a candidate of cell `i`;
and every two triangles of it are compatible: none of their nine edge pairs satisfies
`do_intersect`, in either argument order, and neither has all three vertices inside the
other per `is_inside_triangle`. -/
theorem solution_reported_is_valid (board : List Triangle) (r : List Tri)
    (h : solution board 0 [] = some r) :
    r.length = board.length ∧
      List.Forall₂ (fun cell s => ∃ t ∈ cell.all_triangles, same_vertices s t) board r ∧
      r.Pairwise compatible := by
  simp only [solution, List.drop_zero] at h
  obtain ⟨choice, hch, hr, hpw, -, -⟩ := solution_from_eq_some board [] r h
  simp only [List.nil_append] at hr
  subst hr
  refine ⟨?_, ?_, ?_⟩
  · rw [List.length_map]; exact hch.length_eq.symm
  · clear hpw h
    induction hch with
    | nil => exact List.Forall₂.nil
    | cons hh _ ihh =>
      simp only [List.map_cons]
      exact List.Forall₂.cons ⟨_, List.getElem?_mem hh, List.Perm.swap _ _ _⟩ ihh
  · rw [List.pairwise_map]
    rw [List.pairwise_map] at hpw
    exact hpw.imp fun hab =>
      (compatible_stored_left _ _).mpr ((compatible_stored_right _ _).mpr hab)

/-- Witness for C1 on the board of the two cells `{2,3,0}` and `{2,5,0}`. -/
theorem solution_reported_is_valid_witness :
    solution [Triangle.new 2 3 0, Triangle.new 2 5 0] 0 [] =
        some [⟨⟨5, 0⟩, ⟨3, 0⟩, ⟨3, 2⟩⟩, ⟨⟨7, 0⟩, ⟨5, 0⟩, ⟨5, 2⟩⟩] ∧
      ([⟨⟨5, 0⟩, ⟨3, 0⟩, ⟨3, 2⟩⟩, ⟨⟨7, 0⟩, ⟨5, 0⟩, ⟨5, 2⟩⟩] : List Tri).length =
        [Triangle.new 2 3 0, Triangle.new 2 5 0].length ∧
      List.Forall₂ (fun cell s => ∃ t ∈ cell.all_triangles, same_vertices s t)
        [Triangle.new 2 3 0, Triangle.new 2 5 0]
        [⟨⟨5, 0⟩, ⟨3, 0⟩, ⟨3, 2⟩⟩, ⟨⟨7, 0⟩, ⟨5, 0⟩, ⟨5, 2⟩⟩] ∧
      ([⟨⟨5, 0⟩, ⟨3, 0⟩, ⟨3, 2⟩⟩, ⟨⟨7, 0⟩, ⟨5, 0⟩, ⟨5, 2⟩⟩] : List Tri).Pairwise compatible :=
  ⟨by decide, solution_reported_is_valid _ _ (by decide)⟩

/-- C2: the search `solution(board, 0, [])` ends without reporting a solution exactly when
there is no way to pick one candidate from each cell's list such that every two picked
triangles are compatible. -/
theorem solution_none_iff_no_assignment (board : List Triangle) :
    solution board 0 [] = none ↔ ¬ ∃ picks : List Tri, is_assignment board picks := by
  simp only [solution, List.drop_zero, is_assignment]
  rw [solution_from_eq_none_iff]
  simp

/-- C3: a reported solution is the first one in search order: it comes from an assignment
whose list of candidate positions is lexicographically least, cell 0 being the most
significant, among all assignments of pairwise compatible candidates. -/
theorem solution_reported_is_first (board : List Triangle) (r : List Tri)
    (h : solution board 0 [] = some r) :
    ∃ choice : List (Nat × Tri), is_indexed_assignment board choice ∧
      r = choice.map (fun it => stored it.2) ∧
      ∀ other : List (Nat × Tri), is_indexed_assignment board other →
        lex_le (choice.map Prod.fst) (other.map Prod.fst) := by
  simp only [solution, List.drop_zero] at h
  obtain ⟨choice, hch, hr, hpw, -, hmin⟩ := solution_from_eq_some board [] r h
  refine ⟨choice, ⟨hch, hpw⟩, by simpa using hr, ?_⟩
  intro other ho
  exact hmin other ho.1 ho.2 (by simp)

/-- Witness for C3 on the board of the two cells `{2,3,0}` and `{2,4,0}`, where the first
candidate of cell 0 has to be given up. -/
theorem solution_reported_is_first_witness :
    solution [Triangle.new 2 3 0, Triangle.new 2 4 0] 0 [] =
        some [⟨⟨4, 2⟩, ⟨4, 0⟩, ⟨2, 0⟩⟩, ⟨⟨6, 0⟩, ⟨4, 0⟩, ⟨4, 2⟩⟩] ∧
      ∃ choice : List (Nat × Tri),
        is_indexed_assignment [Triangle.new 2 3 0, Triangle.new 2 4 0] choice ∧
        ([⟨⟨4, 2⟩, ⟨4, 0⟩, ⟨2, 0⟩⟩, ⟨⟨6, 0⟩, ⟨4, 0⟩, ⟨4, 2⟩⟩] : List Tri) =
          choice.map (fun it => stored it.2) ∧
        ∀ other : List (Nat × Tri),
          is_indexed_assignment [Triangle.new 2 3 0, Triangle.new 2 4 0] other →
          lex_le (choice.map Prod.fst) (other.map Prod.fst) :=
  ⟨by decide, solution_reported_is_first _ _ (by decide)⟩

/-! ## Segment intersection as a transversal crossing -/

theorem meet_aux (a e ca ge V3 V1 D : ℚ) (hD : D ≠ 0)
    (key : (a - e) * D = V3 * ca + V1 * ge) :
    a + V3 / -D * ca = e + V1 / D * ge := by
  have h1 : V3 / -D = -(V3 / D) := by rw [div_neg]
  rw [h1]
  have h2 : (a + -(V3 / D) * ca - (e + V1 / D * ge)) * D = 0 := by
    have : (a + -(V3 / D) * ca - (e + V1 / D * ge)) * D =
        (a - e) * D - V3 * ca * (D / D) - V1 * ge * (D / D) := by ring
    rw [this, div_self hD]
    linear_combination key
  have h3 := (mul_eq_zero.mp h2).resolve_right hD
  linarith

theorem ratio_strictly_between {u v : ℚ} (h : u * v < 0) :
    0 < u / (u - v) ∧ u / (u - v) < 1 := by
  rcases mul_neg_iff.mp h with ⟨hu, hv⟩ | ⟨hu, hv⟩
  · have hd : 0 < u - v := by linarith
    exact ⟨div_pos hu hd, (div_lt_one hd).mpr (by linarith)⟩
  · have hd : 0 < v - u := by linarith
    have he : u / (u - v) = (-u) / (v - u) := by
      rw [← neg_div_neg_eq]; congr 1; ring
    rw [he]
    exact ⟨div_pos (by linarith) hd, (div_lt_one hd).mpr (by linarith)⟩

/-- Two segments whose endpoints lie strictly on opposite sides of each other's line meet
in a point strictly inside both. -/
theorem crossing_point_exists (a b c d e f g h : ℚ)
    (h12 : ((d - b) * (e - c) - (c - a) * (f - d)) * ((d - b) * (g - c) - (c - a) * (h - d)) < 0)
    (h34 : ((h - f) * (a - g) - (g - e) * (b - h)) * ((h - f) * (c - g) - (g - e) * (d - h)) < 0) :
    (c - a) * (h - f) - (d - b) * (g - e) ≠ 0 ∧
    ∃ t s : ℚ, 0 < t ∧ t < 1 ∧ 0 < s ∧ s < 1 ∧
      a + t * (c - a) = e + s * (g - e) ∧ b + t * (d - b) = f + s * (h - f) := by
  have hD : (c - a) * (h - f) - (d - b) * (g - e) ≠ 0 := by
    intro h0
    have : (d - b) * (e - c) - (c - a) * (f - d) = (d - b) * (g - c) - (c - a) * (h - d) := by
      linear_combination h0
    rw [this] at h12
    nlinarith [mul_self_nonneg ((d - b) * (g - c) - (c - a) * (h - d))]
  refine ⟨hD, ?_⟩
  obtain ⟨ht0, ht1⟩ := ratio_strictly_between h34
  obtain ⟨hs0, hs1⟩ := ratio_strictly_between h12
  have e1 : ((d - b) * (e - c) - (c - a) * (f - d)) - ((d - b) * (g - c) - (c - a) * (h - d)) =
      (c - a) * (h - f) - (d - b) * (g - e) := by ring
  have e2 : ((h - f) * (a - g) - (g - e) * (b - h)) - ((h - f) * (c - g) - (g - e) * (d - h)) =
      -((c - a) * (h - f) - (d - b) * (g - e)) := by ring
  rw [e1] at hs0 hs1
  rw [e2] at ht0 ht1
  refine ⟨_, _, ht0, ht1, hs0, hs1, ?_, ?_⟩
  · exact meet_aux _ _ _ _ _ _ _ hD (by ring)
  · exact meet_aux _ _ _ _ _ _ _ hD (by ring)

/-- Two non-parallel segments meeting in a point strictly inside both have their endpoints
strictly on opposite sides of each other's line. -/
theorem opposite_sides_of_crossing (a b c d e f g h t s : ℚ)
    (hD : (c - a) * (h - f) - (d - b) * (g - e) ≠ 0)
    (ht0 : 0 < t) (ht1 : t < 1) (hs0 : 0 < s) (hs1 : s < 1)
    (hx : a + t * (c - a) = e + s * (g - e)) (hy : b + t * (d - b) = f + s * (h - f)) :
    ((d - b) * (e - c) - (c - a) * (f - d)) * ((d - b) * (g - c) - (c - a) * (h - d)) < 0 ∧
    ((h - f) * (a - g) - (g - e) * (b - h)) * ((h - f) * (c - g) - (g - e) * (d - h)) < 0 := by
  have hV1 : (d - b) * (e - c) - (c - a) * (f - d) =
      s * ((c - a) * (h - f) - (d - b) * (g - e)) := by
    linear_combination (-(d - b)) * hx + (c - a) * hy
  have hV2 : (d - b) * (g - c) - (c - a) * (h - d) =
      -(1 - s) * ((c - a) * (h - f) - (d - b) * (g - e)) := by
    linear_combination (-(d - b)) * hx + (c - a) * hy
  have hV3 : (h - f) * (a - g) - (g - e) * (b - h) =
      -t * ((c - a) * (h - f) - (d - b) * (g - e)) := by
    linear_combination (h - f) * hx - (g - e) * hy
  have hV4 : (h - f) * (c - g) - (g - e) * (d - h) =
      (1 - t) * ((c - a) * (h - f) - (d - b) * (g - e)) := by
    linear_combination (h - f) * hx - (g - e) * hy
  rw [hV1, hV2, hV3, hV4]
  clear hV1 hV2 hV3 hV4 hx hy
  generalize (c - a) * (h - f) - (d - b) * (g - e) = D at hD ⊢
  have hDD : 0 < D * D := mul_self_pos.mpr hD
  constructor
  · have e1 : s * D * (-(1 - s) * D) = -(s * (1 - s) * (D * D)) := by ring
    rw [e1]
    exact neg_neg_of_pos (mul_pos (mul_pos hs0 (by linarith)) hDD)
  · have e1 : -t * D * ((1 - t) * D) = -(t * (1 - t) * (D * D)) := by ring
    rw [e1]
    exact neg_neg_of_pos (mul_pos (mul_pos ht0 (by linarith)) hDD)

theorem endpoint_free (a b c d e f g h t s : ℚ)
    (hD : (c - a) * (h - f) - (d - b) * (g - e) ≠ 0)
    (ht0 : 0 < t) (ht1 : t < 1) (hs0 : 0 < s) (hs1 : s < 1)
    (hx : a + t * (c - a) = e + s * (g - e)) (hy : b + t * (d - b) = f + s * (h - f)) :
    ((a + t * (c - a), b + t * (d - b)) : ℚ × ℚ) ≠ (a, b) ∧
    ((a + t * (c - a), b + t * (d - b)) : ℚ × ℚ) ≠ (c, d) ∧
    ((a + t * (c - a), b + t * (d - b)) : ℚ × ℚ) ≠ (e, f) ∧
    ((a + t * (c - a), b + t * (d - b)) : ℚ × ℚ) ≠ (g, h) := by
  have zero_of : ∀ k u v : ℚ, k ≠ 0 → k * u = 0 → k * v = 0 → u = 0 ∧ v = 0 := by
    intro k u v hk hu hv
    exact ⟨(mul_eq_zero.mp hu).resolve_left hk, (mul_eq_zero.mp hv).resolve_left hk⟩
  refine ⟨?_, ?_, ?_, ?_⟩
  · intro heq
    obtain ⟨h1, h2⟩ := Prod.ext_iff.mp heq
    simp only at h1 h2
    obtain ⟨u0, v0⟩ := zero_of t (c - a) (d - b) (ne_of_gt ht0) (by linarith) (by linarith)
    apply hD; rw [u0, v0]; ring
  · intro heq
    obtain ⟨h1, h2⟩ := Prod.ext_iff.mp heq
    simp only at h1 h2
    obtain ⟨u0, v0⟩ := zero_of (1 - t) (c - a) (d - b) (by intro h0; linarith)
      (by linarith) (by linarith)
    apply hD; rw [u0, v0]; ring
  · intro heq
    obtain ⟨h1, h2⟩ := Prod.ext_iff.mp heq
    simp only at h1 h2
    obtain ⟨u0, v0⟩ := zero_of s (g - e) (h - f) (ne_of_gt hs0) (by linarith) (by linarith)
    apply hD; rw [u0, v0]; ring
  · intro heq
    obtain ⟨h1, h2⟩ := Prod.ext_iff.mp heq
    simp only at h1 h2
    obtain ⟨u0, v0⟩ := zero_of (1 - s) (g - e) (h - f) (by intro h0; linarith)
      (by linarith) (by linarith)
    apply hD; rw [u0, v0]; ring

theorem params_strict (a b c d e f g h t s : ℚ)
    (ht0 : 0 ≤ t) (ht1 : t ≤ 1) (hs0 : 0 ≤ s) (hs1 : s ≤ 1)
    (hx : a + t * (c - a) = e + s * (g - e)) (hy : b + t * (d - b) = f + s * (h - f))
    (n1 : ((a + t * (c - a), b + t * (d - b)) : ℚ × ℚ) ≠ (a, b))
    (n2 : ((a + t * (c - a), b + t * (d - b)) : ℚ × ℚ) ≠ (c, d))
    (n3 : ((a + t * (c - a), b + t * (d - b)) : ℚ × ℚ) ≠ (e, f))
    (n4 : ((a + t * (c - a), b + t * (d - b)) : ℚ × ℚ) ≠ (g, h)) :
    0 < t ∧ t < 1 ∧ 0 < s ∧ s < 1 := by
  refine ⟨lt_of_le_of_ne ht0 ?_, lt_of_le_of_ne ht1 ?_, lt_of_le_of_ne hs0 ?_,
    lt_of_le_of_ne hs1 ?_⟩
  · intro h0; apply n1; rw [← h0]; simp
  · intro h0; apply n2; rw [h0]; simp
  · intro h0; apply n3; rw [hx, hy, ← h0]; simp
  · intro h0; apply n4; rw [hx, hy, h0]; simp

/-- In exact arithmetic `do_intersect` is true exactly when the segments cross
transversally: the direction vectors have non-zero cross product and the segments share a
point that is an endpoint of neither. An endpoint lying on the line of the other segment
(touching at an endpoint, T-junction, collinear overlap) and a single-point segment give
false. -/
theorem do_intersect_iff_transversal (p1 q1 p2 q2 : Point) :
    (do_intersect p1 q1 p2 q2 = true ↔
      dir_cross p1 q1 p2 q2 ≠ 0 ∧ share_inner_point p1 q1 p2 q2) ∧
    (∀ (n m dx dy : Int) (r : Point),
      do_intersect p1 ⟨p1.x + n * dx, p1.y + n * dy⟩ ⟨p1.x + m * dx, p1.y + m * dy⟩ r = false ∧
      do_intersect p1 ⟨p1.x + n * dx, p1.y + n * dy⟩ r ⟨p1.x + m * dx, p1.y + m * dy⟩ = false ∧
      do_intersect ⟨p1.x + m * dx, p1.y + m * dy⟩ r p1 ⟨p1.x + n * dx, p1.y + n * dy⟩ = false ∧
      do_intersect r ⟨p1.x + m * dx, p1.y + m * dy⟩ p1 ⟨p1.x + n * dx, p1.y + n * dy⟩ = false) ∧
    do_intersect p1 p1 p2 q2 = false ∧ do_intersect p1 q1 p2 p2 = false := by
  have hcast : ∀ p q r : Point, ((orientation_val p q r : Int) : ℚ) =
      ((q.y : ℚ) - p.y) * (r.x - q.x) - ((q.x : ℚ) - p.x) * (r.y - q.y) := by
    intro p q r; unfold orientation_val; push_cast; ring
  have hcross : ((dir_cross p1 q1 p2 q2 : Int) : ℚ) =
      ((q1.x : ℚ) - p1.x) * (q2.y - p2.y) - ((q1.y : ℚ) - p1.y) * (q2.x - p2.x) := by
    unfold dir_cross; push_cast; ring
  have hneg : ∀ u v : Int, u * v < 0 ↔ ((u : ℚ) * (v : ℚ) < 0) := by
    intro u v
    rw [← Int.cast_mul]
    exact (Int.cast_lt_zero).symm
  have hfalse : ∀ a b c d : Point, orientation_val a b c = 0 ∨ orientation_val a b d = 0 ∨
      orientation_val c d a = 0 ∨ orientation_val c d b = 0 → do_intersect a b c d = false := by
    intro a b c d h
    rw [Bool.eq_false_iff]
    intro ht
    obtain ⟨h1, h2⟩ := (do_intersect_eq_true_iff a b c d).mp ht
    rcases h with h | h | h | h <;>
      first
      | (rw [h] at h1; simp at h1)
      | (rw [h] at h2; simp at h2)
  refine ⟨⟨?_, ?_⟩, ?_, ?_, ?_⟩
  · intro hdi
    obtain ⟨h12, h34⟩ := (do_intersect_eq_true_iff p1 q1 p2 q2).mp hdi
    rw [hneg, hcast, hcast] at h12 h34
    obtain ⟨hD, t, s, ht0, ht1, hs0, hs1, hx, hy⟩ := crossing_point_exists _ _ _ _ _ _ _ _ h12 h34
    refine ⟨?_, t, s, le_of_lt ht0, le_of_lt ht1, le_of_lt hs0, le_of_lt hs1, ?_, ?_⟩
    · intro h0
      apply hD
      rw [← hcross, h0]; simp
    · exact Prod.ext hx hy
    · exact endpoint_free _ _ _ _ _ _ _ _ t s hD ht0 ht1 hs0 hs1 hx hy
  · rintro ⟨hc, t, s, ht0, ht1, hs0, hs1, heq, n1, n2, n3, n4⟩
    obtain ⟨hx, hy⟩ := Prod.ext_iff.mp heq
    simp only [seg_point] at hx hy
    have hD : ((q1.x : ℚ) - p1.x) * (q2.y - p2.y) - ((q1.y : ℚ) - p1.y) * (q2.x - p2.x) ≠ 0 := by
      rw [← hcross]; exact_mod_cast hc
    obtain ⟨a1, a2, a3, a4⟩ := params_strict _ _ _ _ _ _ _ _ t s ht0 ht1 hs0 hs1 hx hy n1 n2 n3 n4
    obtain ⟨h12, h34⟩ := opposite_sides_of_crossing _ _ _ _ _ _ _ _ t s hD a1 a2 a3 a4 hx hy
    rw [do_intersect_eq_true_iff, hneg, hneg, hcast, hcast, hcast, hcast]
    exact ⟨h12, h34⟩
  · intro n m dx dy r
    refine ⟨hfalse _ _ _ _ (Or.inl ?_), hfalse _ _ _ _ (Or.inr (Or.inl ?_)),
      hfalse _ _ _ _ (Or.inr (Or.inr (Or.inl ?_))), hfalse _ _ _ _ (Or.inr (Or.inr (Or.inr ?_)))⟩ <;>
    · unfold orientation_val
      simp only
      ring
  · exact hfalse _ _ _ _ (Or.inl (by unfold orientation_val; ring))
  · exact hfalse _ _ _ _ (Or.inr (Or.inr (Or.inl (by unfold orientation_val; ring))))

/-! ## The offset search of `translate` -/

theorem translate_inner_run (q1 : Point) :
    ∀ (m fuel : Nat) (s : TranslateState), m < fuel →
      (∀ k : Nat, k < m →
        is_inside_triangle q1 s.v1 ⟨s.v2.x, s.v2.y - k⟩ ⟨s.v3.x, s.v3.y - k⟩ = true) →
      is_inside_triangle q1 s.v1 ⟨s.v2.x, s.v2.y - m⟩ ⟨s.v3.x, s.v3.y - m⟩ = false →
      translate_inner q1 fuel s = some
        { s with
          results := s.results ++ (List.range m).map fun k => ⟨s.shiftX, s.shiftY - k⟩
          shiftY := s.shiftY - m
          v2 := ⟨s.v2.x, s.v2.y - m⟩
          v3 := ⟨s.v3.x, s.v3.y - m⟩ } := by
  intro m
  induction m with
  | zero =>
    intro fuel s hf _ hstop
    obtain ⟨n, rfl⟩ : ∃ n, fuel = n + 1 := ⟨fuel - 1, by omega⟩
    simp only [Nat.cast_zero, sub_zero] at hstop
    simp only [translate_inner, hstop, Bool.false_eq_true, if_false, List.range_zero,
      List.map_nil, List.append_nil, Nat.cast_zero, sub_zero]
  | succ m ih =>
    intro fuel s hf hgo hstop
    obtain ⟨n, rfl⟩ : ∃ n, fuel = n + 1 := ⟨fuel - 1, by omega⟩
    have h0 := hgo 0 (Nat.succ_pos m)
    simp only [Nat.cast_zero, sub_zero] at h0
    simp only [translate_inner, h0, if_true]
    rw [ih n _ (by omega)]
    · simp only [Option.some.injEq, TranslateState.mk.injEq, true_and, Point.mk.injEq]
      refine ⟨by push_cast; ring, by push_cast; ring, by push_cast; ring, ?_⟩
      rw [List.range_succ_eq_map, List.map_cons, List.map_map, List.append_assoc]
      simp only [List.singleton_append, Nat.cast_zero, sub_zero]
      congr 2
      apply List.map_congr_left
      intro k _
      simp only [Function.comp, Point.mk.injEq, true_and]
      push_cast; ring
    · intro k hk
      have := hgo (k + 1) (by omega)
      simp only at this ⊢
      have e1 : s.v2.y - 1 - (k : Int) = s.v2.y - ((k + 1 : Nat) : Int) := by push_cast; ring
      have e2 : s.v3.y - 1 - (k : Int) = s.v3.y - ((k + 1 : Nat) : Int) := by push_cast; ring
      rw [e1, e2]; exact this
    · simp only
      have e1 : s.v2.y - 1 - (m : Int) = s.v2.y - ((m + 1 : Nat) : Int) := by push_cast; ring
      have e2 : s.v3.y - 1 - (m : Int) = s.v3.y - ((m + 1 : Nat) : Int) := by push_cast; ring
      rw [e1, e2]; exact hstop

theorem offset_ok_height_bound {b h : Int} (hb : 1 ≤ b) (hh : 1 ≤ h) {i k : Nat}
    (hok : offset_ok b h (-(i : Int)) (-(k : Int))) : (k : Int) + 1 < h := by
  unfold offset_ok at hok
  by_contra hc
  push_neg at hc
  have hi : (0 : Int) ≤ i := Int.ofNat_nonneg i
  have h1 : h * b ≤ ((k : Int) + 1) * b := mul_le_mul_of_nonneg_right hc (by linarith)
  have h2 : 0 < (1 + (i : Int)) * h := mul_pos (by linarith) (by linarith)
  nlinarith

theorem offset_ok_base_bound {b h : Int} (hb : 1 ≤ b) (hh : 1 ≤ h) {i k : Nat}
    (hok : offset_ok b h (-(i : Int)) (-(k : Int))) : (i : Int) + 1 < b := by
  unfold offset_ok at hok
  by_contra hc
  push_neg at hc
  have hk : (0 : Int) ≤ k := Int.ofNat_nonneg k
  have h1 : b * h ≤ ((i : Int) + 1) * h := mul_le_mul_of_nonneg_right hc (by linarith)
  have h2 : 0 < (1 + (k : Int)) * b := mul_pos (by linarith) (by linarith)
  nlinarith

theorem inner_test_iff (b h : Int) (hb : 1 ≤ b) (hh : 1 ≤ h) (i k : Nat) :
    is_inside_triangle ⟨1, 1⟩ ⟨-(i : Int), 0⟩ ⟨-(i : Int), h - k⟩ ⟨b - i, 0 - k⟩ = true ↔
      offset_ok b h (-(i : Int)) (-(k : Int)) := by
  have hi : (0 : Int) ≤ i := Int.ofNat_nonneg i
  have hk : (0 : Int) ≤ k := Int.ofNat_nonneg k
  have hik : (0 : Int) ≤ i * k := mul_nonneg hi hk
  rw [is_inside_triangle_eq_true_iff]
  simp only [sign]
  constructor
  · rintro (⟨-, -, h3⟩ | ⟨-, h2, -⟩)
    · exfalso; nlinarith
    · unfold offset_ok; nlinarith
  · intro hok
    have hkh := offset_ok_height_bound hb hh hok
    unfold offset_ok at hok
    right
    refine ⟨?_, ?_, ?_⟩
    · have : 0 ≤ (1 + (i : Int)) * (h - k) := mul_nonneg (by linarith) (by linarith)
      nlinarith
    · nlinarith
    · nlinarith

theorem outer_test_iff (b h : Int) (hb : 2 ≤ b) (hh : 1 ≤ h) (i : Nat) (a : Int)
    (ha : a = -(i : Int) ∨ a = -(i : Int) + 1) :
    is_inside_triangle ⟨1, 1⟩ ⟨a, 0⟩ ⟨-(i : Int), h⟩ ⟨b - i, 0⟩ = true ↔
      offset_ok b h (-(i : Int)) 0 := by
  have hi : (0 : Int) ≤ i := Int.ofNat_nonneg i
  have hih : (0 : Int) ≤ i * h := mul_nonneg hi (by linarith)
  rw [is_inside_triangle_eq_true_iff]
  simp only [sign]
  unfold offset_ok
  rcases ha with rfl | rfl
  · constructor
    · rintro (⟨-, -, h3⟩ | ⟨-, h2, -⟩)
      · exfalso; nlinarith
      · nlinarith
    · intro hok
      right
      refine ⟨by nlinarith, by nlinarith, by nlinarith⟩
  · constructor
    · rintro (⟨-, -, h3⟩ | ⟨-, h2, -⟩)
      · exfalso; nlinarith
      · nlinarith
    · intro hok
      right
      refine ⟨by nlinarith, by nlinarith, by nlinarith⟩

theorem column_height_spec (b h : Int) (hb : 0 < b) (i k : Nat) :
    k < column_height b h i ↔ offset_ok b h (-(i : Int)) (-(k : Int)) := by
  unfold column_height offset_ok
  rw [Int.lt_toNat, Int.lt_iff_add_one_le, Int.le_ediv_iff_mul_le hb]
  constructor <;> intro hh <;> linarith

theorem column_total_spec (b h : Int) (hh : 0 < h) (i : Nat) :
    i < column_total b h ↔ offset_ok b h (-(i : Int)) 0 := by
  unfold column_total offset_ok
  rw [Int.lt_toNat, Int.lt_iff_add_one_le, Int.le_ediv_iff_mul_le hh]
  constructor <;> intro hh <;> linarith

theorem translate_outer_run (b h : Int) (hb : 2 ≤ b) (hh : 1 ≤ h) (fuel : Nat)
    (hfuel : h.toNat ≤ fuel) :
    ∀ (d i n : Nat) (s : TranslateState), i + d = column_total b h → d < n →
      s.shiftX = -(i : Int) → s.v1.y = 0 →
      (s.v1.x = -(i : Int) ∨ s.v1.x = -(i : Int) + 1) →
      s.v2 = ⟨-(i : Int), h⟩ → s.v3 = ⟨b - i, 0⟩ →
      ∃ s' : TranslateState, translate_outer ⟨1, 1⟩ h fuel n s = some s' ∧
        s'.results = s.results ++ offsets_from b h d i := by
  intro d
  induction d with
  | zero =>
    intro i n s hid hn hsx hv1y hv1x hv2 hv3
    obtain ⟨n, rfl⟩ : ∃ m, n = m + 1 := ⟨n - 1, by omega⟩
    have hstop : is_inside_triangle ⟨1, 1⟩ s.v1 s.v2 s.v3 = false := by
      rw [Bool.eq_false_iff]
      intro ht
      have e1 : s.v1 = ⟨s.v1.x, 0⟩ := by rw [← hv1y]
      rw [e1, hv2, hv3, outer_test_iff b h hb hh i _ hv1x,
        ← column_total_spec b h (by linarith)] at ht
      omega
    exact ⟨s, by simp [translate_outer, hstop], by simp [offsets_from]⟩
  | succ d ih =>
    intro i n s hid hn hsx hv1y hv1x hv2 hv3
    obtain ⟨n, rfl⟩ : ∃ m, n = m + 1 := ⟨n - 1, by omega⟩
    have hgo : is_inside_triangle ⟨1, 1⟩ s.v1 s.v2 s.v3 = true := by
      have e1 : s.v1 = ⟨s.v1.x, 0⟩ := by rw [← hv1y]
      rw [e1, hv2, hv3, outer_test_iff b h hb hh i _ hv1x,
        ← column_total_spec b h (by linarith)]
      omega
    have hm : column_height b h i < fuel := by
      by_cases h0 : column_height b h i = 0
      · have : (0 : Int) < h.toNat := by rw [Int.toNat_of_nonneg (by linarith)]; linarith
        omega
      · have hk : column_height b h i - 1 < column_height b h i := by omega
        rw [column_height_spec b h (by linarith)] at hk
        have := offset_ok_height_bound (by linarith) hh hk
        have e2 : ((column_height b h i - 1 : Nat) : Int) = (column_height b h i : Int) - 1 := by
          omega
        have e3 : (h.toNat : Int) = h := Int.toNat_of_nonneg (by linarith)
        omega
    have hinner := translate_inner_run ⟨1, 1⟩ (column_height b h i) fuel
      { s with shiftY := 0, v1 := ⟨s.shiftX, 0⟩ } hm
      (by
        intro k hk
        simp only [hsx, hv2, hv3]
        rw [inner_test_iff b h (by linarith) hh, ← column_height_spec b h (by linarith)]
        exact hk)
      (by
        simp only [hsx, hv2, hv3]
        rw [Bool.eq_false_iff]
        intro ht
        rw [inner_test_iff b h (by linarith) hh, ← column_height_spec b h (by linarith)] at ht
        exact lt_irrefl _ ht)
    simp only [translate_outer, hgo, if_true, hinner]
    obtain ⟨s', hs', hres⟩ := ih (i + 1) n
      { shiftX := s.shiftX - 1, shiftY := 0 - (column_height b h i : Int), v1 := ⟨s.shiftX, 0⟩,
        v2 := ⟨s.v2.x - 1, h⟩, v3 := ⟨s.v3.x - 1, 0⟩,
        results := s.results ++
          (List.range (column_height b h i)).map fun k => ⟨s.shiftX, 0 - (k : Int)⟩ }
      (by omega) (by omega) (by simp only [hsx]; push_cast; ring) rfl
      (by right; simp only [hsx]; push_cast; ring)
      (by rw [hv2]; simp only [Point.mk.injEq, and_true]; push_cast; ring)
      (by rw [hv3]; simp only [Point.mk.injEq, and_true]; push_cast; ring)
    refine ⟨s', hs', ?_⟩
    rw [hres]
    show s.results ++ List.map (fun k : Nat => (⟨s.shiftX, 0 - (k : Int)⟩ : Point))
        (List.range (column_height b h i)) ++ offsets_from b h d (i + 1) =
      s.results ++ (offset_column b h i ++ offsets_from b h d (i + 1))
    rw [List.append_assoc]
    congr 2
    unfold offset_column
    apply List.map_congr_left
    intro k _
    rw [hsx, zero_sub]

theorem translate_fuel_eq (b h : Int) (hb : 2 ≤ b) (hh : 1 ≤ h) (fuel : Nat)
    (hfuel : (b + h).toNat + 1 ≤ fuel) :
    translate_fuel fuel ⟨b, h⟩ = some (expected_offsets b h) := by
  have e1 : ((b + h).toNat : Int) = b + h := Int.toNat_of_nonneg (by linarith)
  have e2 : (h.toNat : Int) = h := Int.toNat_of_nonneg (by linarith)
  have hct : column_total b h < fuel := by
    by_cases h0 : column_total b h = 0
    · omega
    · have hk : column_total b h - 1 < column_total b h := by omega
      rw [column_total_spec b h (by linarith)] at hk
      have hk' : offset_ok b h (-((column_total b h - 1 : Nat) : Int)) (-((0 : Nat) : Int)) := by
        simpa using hk
      have := offset_ok_base_bound (by linarith) hh hk'
      omega
  obtain ⟨s', hs', hres⟩ := translate_outer_run b h hb hh fuel (by omega)
    (column_total b h) 0 fuel
    { shiftX := 0, shiftY := 0, v1 := ⟨0, 0⟩, v2 := ⟨0, h⟩, v3 := ⟨b, 0⟩, results := [] }
    (by omega) hct (by simp) rfl (by left; simp) (by simp) (by simp)
  simp only [translate_fuel, hs', Option.map_some', hres, List.nil_append, expected_offsets]

theorem translate_eq (b h : Int) (hb : 2 ≤ b) (hh : 1 ≤ h) :
    TriTri.translate ⟨b, h⟩ = expected_offsets b h := by
  unfold TriTri.translate
  rw [translate_fuel_eq b h hb hh _ (Nat.le_succ _)]
  rfl

theorem mem_offsets_from (b h : Int) (p : Point) :
    ∀ d i : Nat, p ∈ offsets_from b h d i ↔
      ∃ j k : Nat, i ≤ j ∧ j < i + d ∧ k < column_height b h j ∧
        p = ⟨-(j : Int), -(k : Int)⟩ := by
  intro d
  induction d with
  | zero =>
    intro i
    simp only [offsets_from, List.not_mem_nil, false_iff]
    rintro ⟨j, k, h1, h2, -, -⟩
    omega
  | succ d ih =>
    intro i
    simp only [offsets_from, List.mem_append, ih, offset_column, List.mem_map, List.mem_range]
    constructor
    · rintro (⟨k, hk, rfl⟩ | ⟨j, k, h1, h2, h3, rfl⟩)
      · exact ⟨i, k, le_refl _, by omega, hk, rfl⟩
      · exact ⟨j, k, by omega, by omega, h3, rfl⟩
    · rintro ⟨j, k, h1, h2, h3, rfl⟩
      by_cases hj : j = i
      · subst hj; left; exact ⟨k, h3, rfl⟩
      · right; exact ⟨j, k, by omega, by omega, h3, rfl⟩

theorem nodup_offsets_from (b h : Int) :
    ∀ d i : Nat, (offsets_from b h d i).Nodup := by
  intro d
  induction d with
  | zero => intro i; simp [offsets_from]
  | succ d ih =>
    intro i
    simp only [offsets_from]
    rw [List.nodup_append]
    refine ⟨?_, ih (i + 1), ?_⟩
    · unfold offset_column
      refine List.Nodup.map ?_ (List.nodup_range _)
      intro k1 k2 hk
      simp only [Point.mk.injEq, true_and, neg_inj, Nat.cast_inj] at hk
      exact hk
    · intro p hp1 hp2
      rw [mem_offsets_from] at hp2
      obtain ⟨j, k, h1, -, -, rfl⟩ := hp2
      simp only [offset_column, List.mem_map, List.mem_range, Point.mk.injEq, neg_inj,
        Nat.cast_inj] at hp1
      obtain ⟨k', -, hji, -⟩ := hp1
      omega

theorem mem_expected_offsets (b h : Int) (hb : 1 ≤ b) (hh : 1 ≤ h) (sx sy : Int) :
    (⟨sx, sy⟩ : Point) ∈ expected_offsets b h ↔ sx ≤ 0 ∧ sy ≤ 0 ∧ offset_ok b h sx sy := by
  unfold expected_offsets
  rw [mem_offsets_from]
  constructor
  · rintro ⟨j, k, -, -, hk, hp⟩
    simp only [Point.mk.injEq] at hp
    obtain ⟨rfl, rfl⟩ := hp
    exact ⟨by omega, by omega, (column_height_spec b h (by linarith) j k).mp hk⟩
  · rintro ⟨hsx, hsy, hok⟩
    have ex : sx = -((-sx).toNat : Int) := by
      rw [Int.toNat_of_nonneg (by linarith)]; ring
    have ey : sy = -((-sy).toNat : Int) := by
      rw [Int.toNat_of_nonneg (by linarith)]; ring
    refine ⟨(-sx).toNat, (-sy).toNat, Nat.zero_le _, ?_, ?_, ?_⟩
    · rw [Nat.zero_add, column_total_spec b h (by linarith), ← ex]
      unfold offset_ok at hok ⊢
      have : 0 ≤ (-sy) * b := mul_nonneg (by linarith) (by linarith)
      nlinarith
    · rw [column_height_spec b h (by linarith), ← ex, ← ey]
      exact hok
    · rw [← ex, ← ey]

theorem abs_coord_of_nonpos {v : Int} (hv : v ≤ 0) : abs_coord v = -v := by
  unfold abs_coord
  omega

theorem upright_square_inside_iff (X Y b h sx sy : Int) (hb : 1 ≤ b) (hh : 1 ≤ h)
    (hsx : sx ≤ 0) (hsy : sy ≤ 0) :
    unit_square_inside X Y (upright_vertices X Y ⟨b, h⟩ ⟨sx, sy⟩) ↔ offset_ok b h sx sy := by
  have h1 : 0 ≤ b * (-sy) := mul_nonneg (by linarith) (by linarith)
  have h2 : 0 ≤ h * (-sx) := mul_nonneg (by linarith) (by linarith)
  unfold unit_square_inside upright_vertices offset_ok
  simp only [is_inside_triangle_eq_true_iff, sign]
  constructor
  · rintro ⟨-, -, -, (⟨-, h5, -⟩ | ⟨h4, -, h6⟩)⟩
    · nlinarith
    · exfalso; nlinarith
  · intro hok
    refine ⟨Or.inl ⟨?_, ?_, ?_⟩, Or.inl ⟨?_, ?_, ?_⟩, Or.inl ⟨?_, ?_, ?_⟩, Or.inl ⟨?_, ?_, ?_⟩⟩ <;>
      nlinarith

theorem right_square_inside (X Y b h sx sy : Int) (hb : 1 ≤ b) (hh : 1 ≤ h)
    (hsx : sx ≤ 0) (hsy : sy ≤ 0) (hok : offset_ok b h sx sy) :
    unit_square_inside X Y (right_vertices X Y ⟨b, h⟩ ⟨sx, sy⟩) := by
  have h1 : 0 ≤ b * (-sy) := mul_nonneg (by linarith) (by linarith)
  have h2 : 0 ≤ h * (-sx) := mul_nonneg (by linarith) (by linarith)
  unfold unit_square_inside right_vertices
  unfold offset_ok at hok
  simp only [is_inside_triangle_eq_true_iff, sign, abs_coord_of_nonpos hsx]
  refine ⟨Or.inl ⟨?_, ?_, ?_⟩, Or.inl ⟨?_, ?_, ?_⟩, Or.inl ⟨?_, ?_, ?_⟩, Or.inl ⟨?_, ?_, ?_⟩⟩ <;>
    nlinarith

theorem down_square_inside (X Y b h sx sy : Int) (hb : 1 ≤ b) (hh : 1 ≤ h)
    (hsx : sx ≤ 0) (hsy : sy ≤ 0) (hok : offset_ok b h sx sy) :
    unit_square_inside X Y (down_vertices X Y ⟨b, h⟩ ⟨sx, sy⟩) := by
  have h1 : 0 ≤ b * (-sy) := mul_nonneg (by linarith) (by linarith)
  have h2 : 0 ≤ h * (-sx) := mul_nonneg (by linarith) (by linarith)
  unfold unit_square_inside down_vertices
  unfold offset_ok at hok
  simp only [is_inside_triangle_eq_true_iff, sign, abs_coord_of_nonpos hsx,
    abs_coord_of_nonpos hsy]
  refine ⟨Or.inl ⟨?_, ?_, ?_⟩, Or.inl ⟨?_, ?_, ?_⟩, Or.inl ⟨?_, ?_, ?_⟩, Or.inl ⟨?_, ?_, ?_⟩⟩ <;>
    nlinarith

theorem left_square_inside (X Y b h sx sy : Int) (hb : 1 ≤ b) (hh : 1 ≤ h)
    (hsx : sx ≤ 0) (hsy : sy ≤ 0) (hok : offset_ok b h sx sy) :
    unit_square_inside X Y (left_vertices X Y ⟨b, h⟩ ⟨sx, sy⟩) := by
  have h1 : 0 ≤ b * (-sy) := mul_nonneg (by linarith) (by linarith)
  have h2 : 0 ≤ h * (-sx) := mul_nonneg (by linarith) (by linarith)
  unfold unit_square_inside left_vertices
  unfold offset_ok at hok
  simp only [is_inside_triangle_eq_true_iff, sign, abs_coord_of_nonpos hsy]
  refine ⟨Or.inl ⟨?_, ?_, ?_⟩, Or.inl ⟨?_, ?_, ?_⟩, Or.inl ⟨?_, ?_, ?_⟩, Or.inl ⟨?_, ?_, ?_⟩⟩ <;>
    nlinarith

/-- In exact arithmetic, for a dimension with `base ≥ 2` and `height ≥ 2`, `translate`
terminates (every iteration budget from `base + height + 1` on gives the same list) and
returns exactly the
integer offsets `(sx, sy)` with `sx ≤ 0`, `sy ≤ 0` for which the unit square `[0,1] x [0,1]`
lies inside the upright triangle with right-angle vertex `(sx, sy)` and legs `base` along
`+x` and `height` along `+y`, that is those with
`(1 - sx) * height + (1 - sy) * base ≤ base * height`; no offset appears twice. -/
theorem translate_exact_offsets (base height : Int) (hb : 2 ≤ base) (hh : 2 ≤ height) :
    (∀ fuel : Nat, (base + height).toNat + 1 ≤ fuel →
      translate_fuel fuel ⟨base, height⟩ = some (TriTri.translate ⟨base, height⟩)) ∧
    (TriTri.translate ⟨base, height⟩).Nodup ∧
    ∀ sx sy : Int,
      ((⟨sx, sy⟩ : Point) ∈ TriTri.translate ⟨base, height⟩ ↔
        sx ≤ 0 ∧ sy ≤ 0 ∧
          unit_square_inside 0 0 ⟨⟨sx, sy⟩, ⟨sx + base, sy⟩, ⟨sx, sy + height⟩⟩) ∧
      ((⟨sx, sy⟩ : Point) ∈ TriTri.translate ⟨base, height⟩ ↔
        sx ≤ 0 ∧ sy ≤ 0 ∧ (1 - sx) * height + (1 - sy) * base ≤ base * height) := by
  rw [translate_eq base height hb (by linarith)]
  refine ⟨fun fuel hf => translate_fuel_eq base height hb (by linarith) fuel hf,
    nodup_offsets_from _ _ _ _, ?_⟩
  intro sx sy
  rw [mem_expected_offsets base height (by linarith) (by linarith)]
  refine ⟨?_, Iff.rfl⟩
  constructor
  · rintro ⟨h1, h2, h3⟩
    refine ⟨h1, h2, ?_⟩
    have := (upright_square_inside_iff 0 0 base height sx sy (by linarith) (by linarith)
      h1 h2).mpr h3
    simpa [upright_vertices] using this
  · rintro ⟨h1, h2, h3⟩
    refine ⟨h1, h2, ?_⟩
    apply (upright_square_inside_iff 0 0 base height sx sy (by linarith) (by linarith)
      h1 h2).mp
    simpa [upright_vertices] using h3

/-! ## The dimensions of a cell -/

theorem create_dimensions_loop_eq (E : Int) :
    ∀ (n : Nat) (base : Int) (acc : List valid_translations),
      create_dimensions_loop E n base acc =
        acc ++ (((List.range n).map fun j : Nat => base + (j : Int)).filter
          fun b => decide (b < E) && decide (E % b = 0)).map
            fun b => ⟨⟨b, E / b⟩, TriTri.translate ⟨b, E / b⟩⟩ := by
  intro n
  induction n with
  | zero => intro base acc; simp [create_dimensions_loop]
  | succ n ih =>
    intro base acc
    have hshift : (List.map (fun j : Nat => base + (j : Int)) (List.range (n + 1))) =
        base :: List.map (fun j : Nat => base + 1 + (j : Int)) (List.range n) := by
      rw [List.range_succ_eq_map, List.map_cons, List.map_map]
      simp only [Nat.cast_zero, add_zero, List.cons.injEq, true_and]
      apply List.map_congr_left
      intro j _
      simp only [Function.comp, Nat.succ_eq_add_one, Nat.cast_add, Nat.cast_one]
      ring
    rw [hshift, List.filter_cons]
    unfold create_dimensions_loop
    by_cases h1 : base < E
    · by_cases h2 : E % base = 0
      · simp only [h1, h2, if_true, decide_True, Bool.and_self, List.map_cons]
        rw [ih, List.append_assoc]
        rfl
      · simp only [h1, h2, if_true, if_false, decide_True, decide_False, Bool.and_false,
          Bool.false_eq_true]
        rw [ih]
    · simp only [h1, if_false, decide_False, Bool.false_and, Bool.false_eq_true]
      have hnil : (List.map (fun j : Nat => base + 1 + (j : Int)) (List.range n)).filter
          (fun b => decide (b < E) && decide (E % b = 0)) = [] := by
        rw [List.filter_eq_nil_iff]
        intro b hb
        simp only [List.mem_map, List.mem_range] at hb
        obtain ⟨j, -, rfl⟩ := hb
        have : ¬ (base + 1 + (j : Int) < E) := by omega
        simp [this]
      rw [hnil]
      simp

theorem create_dimensions_eq (A : Int) :
    create_dimensions A [] =
      (((List.range (2 * A - 2).toNat).map fun j : Nat => (2 : Int) + (j : Int)).filter
        fun b => decide (b ∣ 2 * A)).map
          fun b => ⟨⟨b, 2 * A / b⟩, TriTri.translate ⟨b, 2 * A / b⟩⟩ := by
  unfold create_dimensions
  simp only [create_dimensions_loop_eq, List.nil_append]
  congr 1
  apply List.filter_congr
  intro b hb
  simp only [List.mem_map, List.mem_range] at hb
  obtain ⟨j, hj, rfl⟩ := hb
  have h1 : (2 : Int) + (j : Int) < 2 * A := by omega
  simp only [h1, decide_True, Bool.true_and, Int.dvd_iff_emod_eq_zero]

theorem mem_create_dimensions {A : Int} {c : valid_translations}
    (hc : c ∈ create_dimensions A []) :
    ∃ b h : Int, c = ⟨⟨b, h⟩, TriTri.translate ⟨b, h⟩⟩ ∧ b * h = 2 * A ∧ 2 ≤ b ∧ 2 ≤ h := by
  rw [create_dimensions_eq] at hc
  simp only [List.mem_map, List.mem_filter, List.mem_range, decide_eq_true_eq] at hc
  obtain ⟨b, ⟨⟨j, hj, rfl⟩, hdvd⟩, rfl⟩ := hc
  have hmul := Int.mul_ediv_cancel' hdvd
  refine ⟨_, _, rfl, hmul, by omega, ?_⟩
  have h1 : (2 : Int) + (j : Int) < 2 * A := by omega
  by_contra hlt
  push_neg at hlt
  have hj0 : (0 : Int) ≤ j := Int.ofNat_nonneg j
  have : (2 + (j : Int)) * (2 * A / (2 + (j : Int))) ≤ (2 + (j : Int)) * 1 :=
    mul_le_mul_of_nonneg_left (by omega) (by omega)
  omega

/-- In exact arithmetic, for every area `A`, the dimension list built by `create_dimensions`
is exactly the list of the pairs `(b, 2 * A / b)`, each with its offsets `translate (b, 2 * A / b)`, over
the integers `b` in `2 .. 2 * A - 1` that divide `2 * A`, by ascending `b`; every generated
dimension has `base * height = 2 * A`, `base ≥ 2` and `height ≥ 2`. -/
theorem create_dimensions_exact (A : Int) :
    create_dimensions A [] =
      (((List.range (2 * A - 2).toNat).map fun j : Nat => (2 : Int) + (j : Int)).filter
        fun b => decide (b ∣ 2 * A)).map
          (fun b => ⟨⟨b, 2 * A / b⟩, TriTri.translate ⟨b, 2 * A / b⟩⟩) ∧
    ((create_dimensions A []).map fun c => c._dimensions.x).Pairwise (· < ·) ∧
    ∀ c ∈ create_dimensions A [],
      c._dimensions.x * c._dimensions.y = 2 * A ∧ 2 ≤ c._dimensions.x ∧
        2 ≤ c._dimensions.y := by
  refine ⟨create_dimensions_eq A, ?_, ?_⟩
  · rw [create_dimensions_eq, List.map_map]
    have hid : ((fun c : valid_translations => c._dimensions.x) ∘
        fun b : Int => (⟨⟨b, 2 * A / b⟩, TriTri.translate ⟨b, 2 * A / b⟩⟩ :
          valid_translations)) = id := by
      funext b; rfl
    rw [hid, List.map_id]
    apply List.Pairwise.filter
    rw [List.pairwise_map]
    refine (List.pairwise_lt_range _).imp ?_
    intro i j hij
    omega
  · intro c hc
    obtain ⟨b, h, rfl, h1, h2, h3⟩ := mem_create_dimensions hc
    exact ⟨h1, h2, h3⟩

/-! ## The candidate list of a cell -/

theorem mem_combinations_pass {vertices : Point → Point → Tri}
    {combinations : List valid_translations} {t : Tri} :
    t ∈ combinations_pass vertices combinations ↔
      ∃ c ∈ combinations, ∃ off ∈ c._translations,
        vertices c._dimensions off = t ∧ off_board t = false := by
  unfold combinations_pass
  simp only [List.mem_flatMap, List.mem_filter, List.mem_map, Bool.not_eq_true']
  constructor
  · rintro ⟨c, hc, ⟨off, hoff, rfl⟩, hb⟩
    exact ⟨c, hc, off, hoff, rfl, hb⟩
  · rintro ⟨c, hc, off, hoff, rfl, hb⟩
    exact ⟨c, hc, ⟨off, hoff, rfl⟩, hb⟩

theorem candidate_shape {A x y : Int} {t : Tri}
    (ht : t ∈ (Triangle.new A x y).all_triangles) :
    ∃ b h sx sy : Int, b * h = 2 * A ∧ 2 ≤ b ∧ 2 ≤ h ∧ sx ≤ 0 ∧ sy ≤ 0 ∧
      offset_ok b h sx sy ∧ off_board t = false ∧
      (upright_vertices x y ⟨b, h⟩ ⟨sx, sy⟩ = t ∨ right_vertices x y ⟨b, h⟩ ⟨sx, sy⟩ = t ∨
        down_vertices x y ⟨b, h⟩ ⟨sx, sy⟩ = t ∨ left_vertices x y ⟨b, h⟩ ⟨sx, sy⟩ = t) := by
  have key : ∀ vertices : Point → Point → Tri,
      t ∈ combinations_pass vertices (create_dimensions A []) →
      ∃ b h sx sy : Int, b * h = 2 * A ∧ 2 ≤ b ∧ 2 ≤ h ∧ sx ≤ 0 ∧ sy ≤ 0 ∧
        offset_ok b h sx sy ∧ off_board t = false ∧ vertices ⟨b, h⟩ ⟨sx, sy⟩ = t := by
    intro vertices hmem
    obtain ⟨c, hc, off, hoff, hv, hb⟩ := mem_combinations_pass.mp hmem
    obtain ⟨b, h, rfl, hbh, hb2, hh2⟩ := mem_create_dimensions hc
    simp only at hoff hv
    rw [translate_eq b h hb2 (by linarith)] at hoff
    obtain ⟨sx, sy⟩ := off
    obtain ⟨h1, h2, h3⟩ := (mem_expected_offsets b h (by linarith) (by linarith) sx sy).mp hoff
    exact ⟨b, h, sx, sy, hbh, hb2, hh2, h1, h2, h3, hb, hv⟩
  simp only [Triangle.new, make_combinations, List.nil_append, List.mem_append] at ht
  rcases ht with ((ht | ht) | ht) | ht
  · obtain ⟨b, h, sx, sy, h1, h2, h3, h4, h5, h6, h7, h8⟩ := key _ ht
    exact ⟨b, h, sx, sy, h1, h2, h3, h4, h5, h6, h7, Or.inl h8⟩
  · obtain ⟨b, h, sx, sy, h1, h2, h3, h4, h5, h6, h7, h8⟩ := key _ ht
    exact ⟨b, h, sx, sy, h1, h2, h3, h4, h5, h6, h7, Or.inr (Or.inl h8)⟩
  · obtain ⟨b, h, sx, sy, h1, h2, h3, h4, h5, h6, h7, h8⟩ := key _ ht
    exact ⟨b, h, sx, sy, h1, h2, h3, h4, h5, h6, h7, Or.inr (Or.inr (Or.inl h8))⟩
  · obtain ⟨b, h, sx, sy, h1, h2, h3, h4, h5, h6, h7, h8⟩ := key _ ht
    exact ⟨b, h, sx, sy, h1, h2, h3, h4, h5, h6, h7, Or.inr (Or.inr (Or.inr h8))⟩

/-- C4: every triangle `(a, b, c)` in the candidate list the constructor builds for a cell
of area `A` has signed area exactly `A`:
`(b.x - a.x) * (c.y - a.y) - (c.x - a.x) * (b.y - a.y) = 2 * A`, whichever of the four
orientations it comes from. -/
theorem candidate_signed_area (A x y : Int) (t : Tri)
    (ht : t ∈ (Triangle.new A x y).all_triangles) :
    (t.b.x - t.a.x) * (t.c.y - t.a.y) - (t.c.x - t.a.x) * (t.b.y - t.a.y) = 2 * A := by
  obtain ⟨b, h, sx, sy, hbh, -, -, -, -, -, -, hv⟩ := candidate_shape ht
  rcases hv with rfl | rfl | rfl | rfl
  · simp only [upright_vertices]; linear_combination hbh
  · simp only [right_vertices]; linear_combination hbh
  · simp only [down_vertices]; linear_combination hbh
  · simp only [left_vertices]; linear_combination hbh

/-- Witness for C4: the first candidate of the cell of area 2 at anchor (3, 0). -/
theorem candidate_signed_area_witness :
    (⟨⟨3, 0⟩, ⟨5, 0⟩, ⟨3, 2⟩⟩ : Tri) ∈ (Triangle.new 2 3 0).all_triangles ∧
      ((5 : Int) - 3) * (2 - 0) - (3 - 3) * (0 - 0) = 2 * 2 :=
  ⟨by decide, candidate_signed_area 2 3 0 ⟨⟨3, 0⟩, ⟨5, 0⟩, ⟨3, 2⟩⟩ (by decide)⟩

/-- C5: all four corners of the cell's unit square are inside every triangle of the
candidate list built by `make_combinations`, per `is_inside_triangle`, whichever of the
four orientations the triangle comes from. -/
theorem candidate_contains_unit_square (A x y : Int) (t : Tri)
    (ht : t ∈ (Triangle.new A x y).all_triangles) :
    is_inside_triangle ⟨x, y⟩ t.a t.b t.c = true ∧
      is_inside_triangle ⟨x + 1, y⟩ t.a t.b t.c = true ∧
      is_inside_triangle ⟨x, y + 1⟩ t.a t.b t.c = true ∧
      is_inside_triangle ⟨x + 1, y + 1⟩ t.a t.b t.c = true := by
  obtain ⟨b, h, sx, sy, -, hb, hh, hsx, hsy, hok, -, hv⟩ := candidate_shape ht
  rcases hv with rfl | rfl | rfl | rfl
  · exact (upright_square_inside_iff x y b h sx sy (by linarith) (by linarith) hsx hsy).mpr hok
  · exact right_square_inside x y b h sx sy (by linarith) (by linarith) hsx hsy hok
  · exact down_square_inside x y b h sx sy (by linarith) (by linarith) hsx hsy hok
  · exact left_square_inside x y b h sx sy (by linarith) (by linarith) hsx hsy hok

/-- Witness for C5: the left-pointing candidate of the cell of area 2 at anchor (3, 0). -/
theorem candidate_contains_unit_square_witness :
    (⟨⟨4, 0⟩, ⟨4, 2⟩, ⟨2, 0⟩⟩ : Tri) ∈ (Triangle.new 2 3 0).all_triangles ∧
      (is_inside_triangle ⟨3, 0⟩ ⟨4, 0⟩ ⟨4, 2⟩ ⟨2, 0⟩ = true ∧
      is_inside_triangle ⟨3 + 1, 0⟩ ⟨4, 0⟩ ⟨4, 2⟩ ⟨2, 0⟩ = true ∧
      is_inside_triangle ⟨3, 0 + 1⟩ ⟨4, 0⟩ ⟨4, 2⟩ ⟨2, 0⟩ = true ∧
      is_inside_triangle ⟨3 + 1, 0 + 1⟩ ⟨4, 0⟩ ⟨4, 2⟩ ⟨2, 0⟩ = true) :=
  ⟨by decide, candidate_contains_unit_square 2 3 0 ⟨⟨4, 0⟩, ⟨4, 2⟩, ⟨2, 0⟩⟩ (by decide)⟩

/-- C9: every vertex of every triangle in the candidate list built by `make_combinations`
has both coordinates in the range `0 .. MAX_LEN`, and `MAX_LEN` is 17. -/
theorem candidate_on_board (A x y : Int) (t : Tri)
    (ht : t ∈ (Triangle.new A x y).all_triangles) :
    MAX_LEN = 17 ∧
      (0 ≤ t.a.x ∧ t.a.x ≤ MAX_LEN) ∧ (0 ≤ t.a.y ∧ t.a.y ≤ MAX_LEN) ∧
      (0 ≤ t.b.x ∧ t.b.x ≤ MAX_LEN) ∧ (0 ≤ t.b.y ∧ t.b.y ≤ MAX_LEN) ∧
      (0 ≤ t.c.x ∧ t.c.x ≤ MAX_LEN) ∧ (0 ≤ t.c.y ∧ t.c.y ≤ MAX_LEN) := by
  obtain ⟨b, h, sx, sy, -, -, -, -, -, -, hoff, -⟩ := candidate_shape ht
  simp only [off_board, Bool.or_eq_false_iff, decide_eq_false_iff_not, not_lt, gt_iff_lt] at hoff
  refine ⟨rfl, ?_⟩
  omega

/-- Witness for C9: a candidate of the cell of area 3 at anchor (5, 5). -/
theorem candidate_on_board_witness :
    (⟨⟨5, 6⟩, ⟨5, 4⟩, ⟨8, 6⟩⟩ : Tri) ∈ (Triangle.new 3 5 5).all_triangles ∧
      (MAX_LEN = 17 ∧
      (0 ≤ (5 : Int) ∧ (5 : Int) ≤ MAX_LEN) ∧ (0 ≤ (6 : Int) ∧ (6 : Int) ≤ MAX_LEN) ∧
      (0 ≤ (5 : Int) ∧ (5 : Int) ≤ MAX_LEN) ∧ (0 ≤ (4 : Int) ∧ (4 : Int) ≤ MAX_LEN) ∧
      (0 ≤ (8 : Int) ∧ (8 : Int) ≤ MAX_LEN) ∧ (0 ≤ (6 : Int) ∧ (6 : Int) ≤ MAX_LEN)) :=
  ⟨by decide, candidate_on_board 3 5 5 ⟨⟨5, 6⟩, ⟨5, 4⟩, ⟨8, 6⟩⟩ (by decide)⟩

/-! ## Preprocessing -/

/-- C6, evaluated on the board of the two cells `{3,0,0}` and `{2,0,1}`: after
`pre_process_valid_triangles` cell 0 still holds the candidate `(0,0), (3,0), (0,2)`, whose
edge from `(3,0)` to `(0,2)` crosses the side from `(1,2)` to `(1,1)` of the unit square of
cell 1. The candidate fails the test of the `k` loop, but the `j` loop never visits it: it
moved into the slot of the candidate erased just before it. -/
theorem pre_process_leaves_crossing_candidate :
    (pre_process_valid_triangles [Triangle.new 3 0 0, Triangle.new 2 0 1]).map
        (fun cell => (cell._x, cell._y, cell.all_triangles)) =
      [(0, 0, [⟨⟨0, 0⟩, ⟨3, 0⟩, ⟨0, 2⟩⟩]), (0, 1, [⟨⟨0, 1⟩, ⟨2, 1⟩, ⟨0, 3⟩⟩])] ∧
    (Triangle.new 3 0 0).all_triangles =
      [⟨⟨0, 0⟩, ⟨2, 0⟩, ⟨0, 3⟩⟩, ⟨⟨0, 0⟩, ⟨3, 0⟩, ⟨0, 2⟩⟩] ∧
    do_intersect ⟨3, 0⟩ ⟨0, 2⟩ ⟨1, 2⟩ ⟨1, 1⟩ = true ∧
    crosses_square ⟨⟨0, 0⟩, ⟨3, 0⟩, ⟨0, 2⟩⟩ 0 1 ∧
    hits_other_cell [Triangle.new 3 0 0, Triangle.new 2 0 1] 0 ⟨⟨0, 0⟩, ⟨3, 0⟩, ⟨0, 2⟩⟩ = true := by
  refine ⟨by decide, by decide, by decide, ?_, by decide⟩
  unfold crosses_square
  decide

/-! ## Symmetries of the geometric predicates -/

theorem sign_rat_cast (p1 p2 p3 : Point) :
    sign_rat p1.toRPoint p2.toRPoint p3.toRPoint = ((sign p1 p2 p3 : Int) : ℚ) := by
  simp only [sign_rat, sign, Point.toRPoint]
  push_cast
  ring

theorem is_inside_triangle_rat_cast (pt v1 v2 v3 : Point) :
    is_inside_triangle_rat pt.toRPoint v1.toRPoint v2.toRPoint v3.toRPoint =
      is_inside_triangle pt v1 v2 v3 := by
  simp only [is_inside_triangle_rat, is_inside_triangle, sign_rat_cast, Int.cast_lt_zero,
    gt_iff_lt, Int.cast_pos]

theorem is_inside_triangle_rat_eq_true_iff (pt v1 v2 v3 : RPoint) :
    is_inside_triangle_rat pt v1 v2 v3 = true ↔
      (0 ≤ sign_rat pt v1 v2 ∧ 0 ≤ sign_rat pt v2 v3 ∧ 0 ≤ sign_rat pt v3 v1) ∨
      (sign_rat pt v1 v2 ≤ 0 ∧ sign_rat pt v2 v3 ≤ 0 ∧ sign_rat pt v3 v1 ≤ 0) := by
  unfold is_inside_triangle_rat
  simp only []
  generalize sign_rat pt v1 v2 = d1
  generalize sign_rat pt v2 v3 = d2
  generalize sign_rat pt v3 v1 = d3
  simp only [Bool.not_eq_true', Bool.and_eq_false_iff, Bool.or_eq_false_iff,
    decide_eq_false_iff_not, not_lt, gt_iff_lt]
  tauto

theorem sign_rat_swap (pt v1 v2 : RPoint) : sign_rat pt v2 v1 = - sign_rat pt v1 v2 := by
  unfold sign_rat; ring

theorem is_inside_triangle_rat_swap (pt v1 v2 v3 : RPoint) :
    is_inside_triangle_rat pt v2 v1 v3 = is_inside_triangle_rat pt v1 v2 v3 := by
  rw [Bool.eq_iff_iff, is_inside_triangle_rat_eq_true_iff, is_inside_triangle_rat_eq_true_iff,
    sign_rat_swap pt v2 v1, sign_rat_swap pt v1 v3, sign_rat_swap pt v3 v2]
  constructor <;> rintro (⟨h1, h2, h3⟩ | ⟨h1, h2, h3⟩)
  · right; exact ⟨by linarith, by linarith, by linarith⟩
  · left; exact ⟨by linarith, by linarith, by linarith⟩
  · right; exact ⟨by linarith, by linarith, by linarith⟩
  · left; exact ⟨by linarith, by linarith, by linarith⟩

theorem is_inside_triangle_rat_rotate (pt v1 v2 v3 : RPoint) :
    is_inside_triangle_rat pt v2 v3 v1 = is_inside_triangle_rat pt v1 v2 v3 := by
  rw [Bool.eq_iff_iff, is_inside_triangle_rat_eq_true_iff, is_inside_triangle_rat_eq_true_iff]
  tauto

/-- In exact arithmetic `do_intersect` is symmetric under swapping the two segments and
under swapping the endpoints within either segment. -/
theorem do_intersect_symmetric (p1 q1 p2 q2 : Point) :
    do_intersect p1 q1 p2 q2 = do_intersect p2 q2 p1 q1 ∧
      do_intersect p2 q2 p1 q1 = do_intersect q1 p1 p2 q2 ∧
      do_intersect q1 p1 p2 q2 = do_intersect p1 q1 q2 p2 := by
  rw [do_intersect_swap_segments p1 q1 p2 q2, do_intersect_swap_first p1 q1 p2 q2,
    do_intersect_swap_second p1 q1 p2 q2]
  exact ⟨rfl, rfl, rfl⟩

/-- In exact arithmetic `is_inside_triangle` has the same value for all six orderings of
the vertices, on rational coordinates and hence on integer coordinates. -/
theorem is_inside_triangle_vertex_order (pt v1 v2 v3 : RPoint) (ipt iv1 iv2 iv3 : Point) :
    (is_inside_triangle_rat pt v1 v3 v2 = is_inside_triangle_rat pt v1 v2 v3 ∧
      is_inside_triangle_rat pt v2 v1 v3 = is_inside_triangle_rat pt v1 v2 v3 ∧
      is_inside_triangle_rat pt v2 v3 v1 = is_inside_triangle_rat pt v1 v2 v3 ∧
      is_inside_triangle_rat pt v3 v1 v2 = is_inside_triangle_rat pt v1 v2 v3 ∧
      is_inside_triangle_rat pt v3 v2 v1 = is_inside_triangle_rat pt v1 v2 v3) ∧
    (is_inside_triangle ipt iv1 iv3 iv2 = is_inside_triangle ipt iv1 iv2 iv3 ∧
      is_inside_triangle ipt iv2 iv1 iv3 = is_inside_triangle ipt iv1 iv2 iv3 ∧
      is_inside_triangle ipt iv2 iv3 iv1 = is_inside_triangle ipt iv1 iv2 iv3 ∧
      is_inside_triangle ipt iv3 iv1 iv2 = is_inside_triangle ipt iv1 iv2 iv3 ∧
      is_inside_triangle ipt iv3 iv2 iv1 = is_inside_triangle ipt iv1 iv2 iv3) := by
  have key : ∀ (pt v1 v2 v3 : RPoint),
      is_inside_triangle_rat pt v1 v3 v2 = is_inside_triangle_rat pt v1 v2 v3 ∧
      is_inside_triangle_rat pt v2 v1 v3 = is_inside_triangle_rat pt v1 v2 v3 ∧
      is_inside_triangle_rat pt v2 v3 v1 = is_inside_triangle_rat pt v1 v2 v3 ∧
      is_inside_triangle_rat pt v3 v1 v2 = is_inside_triangle_rat pt v1 v2 v3 ∧
      is_inside_triangle_rat pt v3 v2 v1 = is_inside_triangle_rat pt v1 v2 v3 := by
    intro pt v1 v2 v3
    have r1 := is_inside_triangle_rat_rotate pt v1 v2 v3
    have r2 := is_inside_triangle_rat_rotate pt v2 v3 v1
    have s1 := is_inside_triangle_rat_swap pt v1 v2 v3
    have s2 := is_inside_triangle_rat_swap pt v3 v1 v2
    have s3 := is_inside_triangle_rat_swap pt v2 v3 v1
    refine ⟨?_, s1, r1, ?_, ?_⟩
    · rw [s2, r2, r1]
    · rw [r2, r1]
    · rw [s3, r1]
  refine ⟨key pt v1 v2 v3, ?_⟩
  simp only [← is_inside_triangle_rat_cast]
  exact key _ _ _ _

/-! ## Point in triangle as a convex combination -/

theorem inside_rat_iff_closed (pt v1 v2 v3 : RPoint) (hnd : ¬ collinear v1 v2 v3) :
    is_inside_triangle_rat pt v1 v2 v3 = true ↔ in_closed_triangle pt v1 v2 v3 := by
  obtain ⟨px, py⟩ := pt
  obtain ⟨x1, y1⟩ := v1
  obtain ⟨x2, y2⟩ := v2
  obtain ⟨x3, y3⟩ := v3
  simp only [collinear] at hnd
  rw [is_inside_triangle_rat_eq_true_iff]
  simp only [sign_rat, in_closed_triangle]
  constructor
  · intro hin
    have hsum : ((px - x2) * (y1 - y2) - (x1 - x2) * (py - y2)) +
        ((px - x3) * (y2 - y3) - (x2 - x3) * (py - y3)) +
        ((px - x1) * (y3 - y1) - (x3 - x1) * (py - y1)) =
        (x2 - x1) * (y3 - y1) - (x3 - x1) * (y2 - y1) := by ring
    have hx : ((x2 - x1) * (y3 - y1) - (x3 - x1) * (y2 - y1)) * px =
        ((px - x3) * (y2 - y3) - (x2 - x3) * (py - y3)) * x1 +
        ((px - x1) * (y3 - y1) - (x3 - x1) * (py - y1)) * x2 +
        ((px - x2) * (y1 - y2) - (x1 - x2) * (py - y2)) * x3 := by ring
    have hy : ((x2 - x1) * (y3 - y1) - (x3 - x1) * (y2 - y1)) * py =
        ((px - x3) * (y2 - y3) - (x2 - x3) * (py - y3)) * y1 +
        ((px - x1) * (y3 - y1) - (x3 - x1) * (py - y1)) * y2 +
        ((px - x2) * (y1 - y2) - (x1 - x2) * (py - y2)) * y3 := by ring
    generalize (px - x2) * (y1 - y2) - (x1 - x2) * (py - y2) = d1 at hsum hx hy hin
    generalize (px - x3) * (y2 - y3) - (x2 - x3) * (py - y3) = d2 at hsum hx hy hin
    generalize (px - x1) * (y3 - y1) - (x3 - x1) * (py - y1) = d3 at hsum hx hy hin
    generalize (x2 - x1) * (y3 - y1) - (x3 - x1) * (y2 - y1) = T at hsum hx hy hnd
    have hnn : 0 ≤ d2 / T ∧ 0 ≤ d3 / T ∧ 0 ≤ d1 / T := by
      rcases hin with ⟨h1, h2, h3⟩ | ⟨h1, h2, h3⟩
      · have hT : 0 ≤ T := by linarith
        exact ⟨div_nonneg h2 hT, div_nonneg h3 hT, div_nonneg h1 hT⟩
      · have hT : T ≤ 0 := by linarith
        exact ⟨div_nonneg_of_nonpos h2 hT, div_nonneg_of_nonpos h3 hT,
          div_nonneg_of_nonpos h1 hT⟩
    refine ⟨d2 / T, d3 / T, d1 / T, hnn.1, hnn.2.1, hnn.2.2, ?_, ?_, ?_⟩
    · field_simp; linarith
    · field_simp; linarith
    · field_simp; linarith
  · rintro ⟨a, b, c, ha, hb, hc, habc, hpx, hpy⟩
    have ha' : a = 1 - b - c := by linarith
    subst ha'
    have e1 : (px - x2) * (y1 - y2) - (x1 - x2) * (py - y2) =
        c * ((x2 - x1) * (y3 - y1) - (x3 - x1) * (y2 - y1)) := by
      rw [hpx, hpy]; ring
    have e2 : (px - x3) * (y2 - y3) - (x2 - x3) * (py - y3) =
        (1 - b - c) * ((x2 - x1) * (y3 - y1) - (x3 - x1) * (y2 - y1)) := by
      rw [hpx, hpy]; ring
    have e3 : (px - x1) * (y3 - y1) - (x3 - x1) * (py - y1) =
        b * ((x2 - x1) * (y3 - y1) - (x3 - x1) * (y2 - y1)) := by
      rw [hpx, hpy]; ring
    rw [e1, e2, e3]
    generalize (x2 - x1) * (y3 - y1) - (x3 - x1) * (y2 - y1) = T
    rcases le_total 0 T with hT | hT
    · left
      exact ⟨mul_nonneg hc hT, mul_nonneg ha hT, mul_nonneg hb hT⟩
    · right
      exact ⟨mul_nonpos_of_nonneg_of_nonpos hc hT, mul_nonpos_of_nonneg_of_nonpos ha hT,
        mul_nonpos_of_nonneg_of_nonpos hb hT⟩

/-- In exact arithmetic, for a non-degenerate triangle, `is_inside_triangle` is true exactly
when the point lies in the closed triangle, that is when it is a convex combination of the three vertices
(points on an edge or at a vertex included); on rational coordinates and hence on integer
coordinates. -/
theorem is_inside_triangle_iff_closed_triangle (pt v1 v2 v3 : RPoint)
    (hnd : ¬ collinear v1 v2 v3) :
    (is_inside_triangle_rat pt v1 v2 v3 = true ↔ in_closed_triangle pt v1 v2 v3) ∧
    ∀ ipt iv1 iv2 iv3 : Point, ipt.toRPoint = pt → iv1.toRPoint = v1 → iv2.toRPoint = v2 →
      iv3.toRPoint = v3 →
      (is_inside_triangle ipt iv1 iv2 iv3 = true ↔ in_closed_triangle pt v1 v2 v3) := by
  refine ⟨inside_rat_iff_closed pt v1 v2 v3 hnd, ?_⟩
  rintro ipt iv1 iv2 iv3 rfl rfl rfl rfl
  rw [← is_inside_triangle_rat_cast]
  exact inside_rat_iff_closed _ _ _ _ hnd

/-! ## Small cells, candidate order and the stored vertex order -/

/-- C13, as stated, fails: the dimension list of the cell of area 2 holds no candidate
`(base = 4, height = 1)`, and that dimension has no valid offset. -/
theorem area_two_has_no_four_by_one :
    ¬ ((∃ c ∈ (Triangle.new 2 3 0)._combinations,
          c._dimensions = ⟨4, 1⟩ ∧ c._translations ≠ []) ∧
        (∃ c ∈ (Triangle.new 2 3 0)._combinations,
          c._dimensions = ⟨2, 2⟩ ∧ c._translations ≠ []) ∧
        ∃ t ∈ (Triangle.new 2 3 0).all_triangles, on_board t = true) := by
  decide

/-- C13, amended: for the cell of area 2 at anchor (3, 0) the dimension candidates are
exactly `(base = 2, height = 2)`, so they do not include `(4, 1)` (which would have no valid
offset); `(2, 2)` has a valid offset, namely `(0, 0)`; and the resulting candidates, of
which there are two, have all their vertices inside `[0, 17]`. -/
theorem area_two_candidates :
    (Triangle.new 2 3 0)._combinations = [⟨⟨2, 2⟩, [⟨0, 0⟩]⟩] ∧
    (¬ ∃ c ∈ (Triangle.new 2 3 0)._combinations, c._dimensions = ⟨4, 1⟩) ∧
    TriTri.translate ⟨4, 1⟩ = [] ∧
    (∃ c ∈ (Triangle.new 2 3 0)._combinations,
      c._dimensions = ⟨2, 2⟩ ∧ c._translations ≠ []) ∧
    (Triangle.new 2 3 0).all_triangles =
      [⟨⟨3, 0⟩, ⟨5, 0⟩, ⟨3, 2⟩⟩, ⟨⟨4, 0⟩, ⟨4, 2⟩, ⟨2, 0⟩⟩] ∧
    (∃ t ∈ (Triangle.new 2 3 0).all_triangles, on_board t = true) ∧
    MAX_LEN = 17 := by
  decide


/-- C17, as stated, fails: `2 * 1` is prime and `create_dimensions` yields no dimension
candidate for the area 1. -/
theorem prime_double_area_not_one_candidate :
    ¬ ∀ A : Int, Nat.Prime (2 * A).toNat → (create_dimensions A []).length = 1 := by
  intro h
  have h1 := h 1 (by decide)
  revert h1
  decide

/-- C17, amended: an area `A` such that `2 * A` is prime is the area 1, and for it
`create_dimensions` yields no dimension candidate: the bases `2 .. 2 * A - 1` are none. -/
theorem prime_double_area_no_candidate (A : Int) (hp : Nat.Prime (2 * A).toNat) :
    A = 1 ∧ create_dimensions A [] = [] := by
  have hA : A = 1 := by
    have hpos : 0 < (2 * A).toNat := hp.pos
    have hA0 : 0 < A := by omega
    have e : (2 * A).toNat = 2 * A.toNat := by omega
    rw [e] at hp
    rcases (Nat.prime_mul_iff.mp hp) with ⟨-, h1⟩ | ⟨-, h2⟩
    · omega
    · exact absurd h2 (by decide)
  subst hA
  exact ⟨rfl, by decide⟩

/-- Witness for C17 at the area 1. -/
theorem prime_double_area_no_candidate_witness :
    Nat.Prime (2 * (1 : Int)).toNat ∧ ((1 : Int) = 1 ∧ create_dimensions 1 [] = []) :=
  ⟨by decide, prime_double_area_no_candidate 1 (by decide)⟩

/-- C16, as stated, fails: on the board of the single cell `{2,3,0}` the search accepts the
candidate stored as `(3,0), (5,0), (3,2)` and reports the triangle `(5,0), (3,0), (3,2)`,
which is no candidate of the cell in that vertex order. -/
theorem solution_does_not_keep_vertex_order :
    ¬ ∀ (board : List Triangle) (r : List Tri), solution board 0 [] = some r →
      List.Forall₂ (fun cell s => s ∈ cell.all_triangles) board r := by
  intro h
  have h1 := h [Triangle.new 2 3 0] [⟨⟨5, 0⟩, ⟨3, 0⟩, ⟨3, 2⟩⟩] (by decide)
  revert h1
  decide

/-- C16, amended: when the search accepts a candidate stored as `(p, q, r)`, the three
points it appends are `q, p, r` in that order, so every triangle of a reported solution
lists the vertices of the candidate it was taken from with the first two exchanged; the
right-angle vertex, first in every candidate the constructor builds, comes second. -/
theorem solution_stores_q_p_r :
    (∀ (cell : Triangle) (rest : List Triangle) (sv : List Tri),
      solution_from (cell :: rest) sv =
        cell.all_triangles.findSome? fun t =>
          if is_triangle_valid sv t.a t.b t.c = true then
            solution_from rest (sv ++ [⟨t.b, t.a, t.c⟩])
          else none) ∧
    (∀ (board : List Triangle) (r : List Tri), solution board 0 [] = some r →
      ∃ picks : List Tri,
        List.Forall₂ (fun cell t => t ∈ cell.all_triangles) board picks ∧
        r = picks.map fun t => ⟨t.b, t.a, t.c⟩) ∧
    ∀ (A x y : Int) (t : Tri), t ∈ (Triangle.new A x y).all_triangles →
      (t.b.x - t.a.x) * (t.c.x - t.a.x) + (t.b.y - t.a.y) * (t.c.y - t.a.y) = 0 := by
  refine ⟨fun _ _ _ => rfl, ?_, ?_⟩
  · intro board r h
    simp only [solution, List.drop_zero] at h
    obtain ⟨choice, hch, hr, -, -, -⟩ := solution_from_eq_some board [] r h
    refine ⟨choice.map Prod.snd, forall₂_mem_of_indexed hch, ?_⟩
    rw [hr, List.nil_append, List.map_map]
    rfl
  · intro A x y t ht
    obtain ⟨b, h, sx, sy, -, -, -, -, -, -, -, hv⟩ := candidate_shape ht
    rcases hv with rfl | rfl | rfl | rfl
    · simp only [upright_vertices]; ring
    · simp only [right_vertices]; ring
    · simp only [down_vertices]; ring
    · simp only [left_vertices]; ring

/-- Witness for C16 on the board of the single cell `{2,3,0}`. -/
theorem solution_stores_q_p_r_witness :
    solution [Triangle.new 2 3 0] 0 [] = some [⟨⟨5, 0⟩, ⟨3, 0⟩, ⟨3, 2⟩⟩] ∧
    ∃ picks : List Tri,
      List.Forall₂ (fun cell t => t ∈ cell.all_triangles) [Triangle.new 2 3 0] picks ∧
      ([⟨⟨5, 0⟩, ⟨3, 0⟩, ⟨3, 2⟩⟩] : List Tri) = picks.map fun t => ⟨t.b, t.a, t.c⟩ :=
  ⟨by decide, solution_stores_q_p_r.2.1 _ _ (by decide)⟩

theorem create_dimensions_bases_ascending (A : Int) :
    ((create_dimensions A []).map fun c => c._dimensions.x).Pairwise (· < ·) := by
  rw [create_dimensions_eq, List.map_map]
  have hid : ((fun c : valid_translations => c._dimensions.x) ∘
      fun b : Int => (⟨⟨b, 2 * A / b⟩, TriTri.translate ⟨b, 2 * A / b⟩⟩ :
        valid_translations)) = id := by
    funext b; rfl
  rw [hid, List.map_id]
  apply List.Pairwise.filter
  rw [List.pairwise_map]
  refine (List.pairwise_lt_range _).imp ?_
  intro i j hij
  omega

/-- C15, as stated, fails: in the candidate list of the cell `{3,5,5}` the upright candidate
of base 3 (position 1) precedes the right-pointing candidate of base 2 (position 2), and
the list is not in dimension-major order. -/
theorem candidates_not_dimension_major :
    (Triangle.new 3 5 5).all_triangles ≠
        dimension_major_order 5 5 (Triangle.new 3 5 5)._combinations ∧
      (Triangle.new 3 5 5).all_triangles[1]? = some (upright_vertices 5 5 ⟨3, 2⟩ ⟨0, 0⟩) ∧
      (Triangle.new 3 5 5).all_triangles[2]? = some (right_vertices 5 5 ⟨2, 3⟩ ⟨0, 0⟩) := by
  decide

/-- C15, amended: the candidate list built by `make_combinations` is ordered by rotation
first, in the order upright, right, down, left, then by dimension (ascending base), then
by offset in the generation order of `translate`: all in-bounds candidates of one rotation
are adjacent, and within one rotation all candidates of a smaller base precede all
candidates of a larger base. -/
theorem candidates_rotation_major (A x y : Int) :
    (Triangle.new A x y).all_triangles =
        rotation_major_order x y (Triangle.new A x y)._combinations ∧
      ((Triangle.new A x y)._combinations.map fun c => c._dimensions.x).Pairwise (· < ·) ∧
      ∀ c ∈ (Triangle.new A x y)._combinations,
        c._translations = TriTri.translate c._dimensions := by
  refine ⟨?_, ?_, ?_⟩
  · simp [Triangle.new, make_combinations, combinations_pass, rotation_major_order]
  · exact create_dimensions_bases_ascending A
  · intro c hc
    obtain ⟨b, h, rfl, -⟩ := mem_create_dimensions hc
    rfl

/-! ## The square test of the preprocessing -/

theorem neg_of_pos_mul_neg {a b : Int} (ha : 0 < a) (h : a * b < 0) : b < 0 := by
  by_contra hb
  push_neg at hb
  have := mul_nonneg ha.le hb
  linarith

theorem pos_of_pos_mul_pos {a b : Int} (ha : 0 < a) (h : 0 < a * b) : 0 < b := by
  by_contra hb
  push_neg at hb
  have := mul_nonpos_of_nonneg_of_nonpos ha.le hb
  linarith

/-- A segment from `(u, v)` below the line `y = 0` to `(s, w)` above it that crosses the unit
segment from `(0, 0)` to `(1, 0)` strictly inside also crosses, strictly, one of the other
five segments joining two corners of the unit square. `la` is the orientation value of the
corner `(0, 0)` with respect to the segment. -/
theorem bottom_crossing_continues (u v s w : Int) (hv : v < 0) (hw : 0 < w)
    (h1 : (v * s - u * w) * (v * s - u * w + (w - v)) < 0) :
    ((v * s - u * w) * (v * s - u * w - (s - u)) < 0 ∧ u * s < 0) ∨
    ((v * s - u * w) * (v * s - u * w + (w - v) - (s - u)) < 0 ∧ (u - v) * (s - w) < 0) ∨
    ((v * s - u * w - (s - u)) * (v * s - u * w + (w - v) - (s - u)) < 0 ∧
      (v - 1) * (w - 1) < 0) ∨
    ((v * s - u * w - (s - u)) * (v * s - u * w + (w - v)) < 0 ∧
      (1 - u - v) * (1 - s - w) < 0) ∨
    ((v * s - u * w + (w - v) - (s - u)) * (v * s - u * w + (w - v)) < 0 ∧
      (u - 1) * (s - 1) < 0) := by
  have hDy : 0 < w - v := by linarith
  -- the corner (0,0) is on the negative side, the corner (1,0) on the positive side
  have hLa : v * s - u * w < 0 := by
    by_contra hc
    push_neg at hc
    have := mul_nonneg hc (by linarith : (0 : Int) ≤ v * s - u * w + (w - v))
    linarith
  have hLd : 0 < v * s - u * w + (w - v) := by
    by_contra hc
    push_neg at hc
    have := mul_nonneg_of_nonpos_of_nonpos hLa.le hc
    linarith
  rcases lt_trichotomy (v * s - u * w - (s - u)) 0 with hLb | hLb | hLb
  · rcases lt_trichotomy (v * s - u * w + (w - v) - (s - u)) 0 with hLc | hLc | hLc
    · -- the segment leaves through the side from (1,1) to (1,0)
      right; right; right; right
      refine ⟨mul_neg_of_neg_of_pos hLc hLd, ?_⟩
      have hDx : 0 < s - u := by linarith
      have h3 : (s - u) * (1 - w) ≤ 0 := mul_nonpos_of_nonneg_of_nonpos hDx.le (by linarith)
      have h4 : (w - v) * (1 - s) < 0 := by nlinarith
      have hs : 1 - s < 0 := neg_of_pos_mul_neg hDy h4
      have h5 : 0 < (s - u) * (-v) := mul_pos hDx (by linarith)
      have h6 : 0 < (w - v) * (1 - u) := by nlinarith
      have hu : 0 < 1 - u := pos_of_pos_mul_pos hDy h6
      exact mul_neg_of_neg_of_pos (by linarith) (by linarith)
    · -- the segment passes through the corner (1,1)
      right; right; right; left
      refine ⟨mul_neg_of_neg_of_pos hLb hLd, ?_⟩
      have hDx : 0 < s - u := by linarith
      have h3 : (s - u) * (1 - w) ≤ 0 := mul_nonpos_of_nonneg_of_nonpos hDx.le (by linarith)
      have h4 : (w - v) * (1 - s - w) < 0 := by nlinarith
      have hs : 1 - s - w < 0 := neg_of_pos_mul_neg hDy h4
      have h5 : 0 < (s - u) * (1 - v) := mul_pos hDx (by linarith)
      have h6 : 0 < (w - v) * (1 - u - v) := by nlinarith
      have hu : 0 < 1 - u - v := pos_of_pos_mul_pos hDy h6
      exact mul_neg_of_pos_of_neg hu hs
    · -- the segment leaves through the side from (0,1) to (1,1)
      right; right; left
      refine ⟨mul_neg_of_neg_of_pos hLb hLc, ?_⟩
      have hw1 : 1 < w := by
        by_contra hc
        have hw' : w = 1 := by omega
        subst hw'
        have h4 : 0 < (1 - v) * s := by nlinarith
        have h5 : 0 < (1 - v) * (1 - s) := by nlinarith
        have := pos_of_pos_mul_pos hDy h4
        have := pos_of_pos_mul_pos hDy h5
        omega
      exact mul_neg_of_neg_of_pos (by linarith) (by linarith)
  · -- the segment passes through the corner (0,1)
    right; left
    refine ⟨mul_neg_of_neg_of_pos hLa (by linarith), ?_⟩
    have hDx : s - u < 0 := by linarith
    have h3 : (s - u) * (w - 1) ≤ 0 := mul_nonpos_of_nonpos_of_nonneg hDx.le (by linarith)
    have h4 : (w - v) * (s - w) < 0 := by nlinarith
    have hs : s - w < 0 := neg_of_pos_mul_neg hDy h4
    have h5 : 0 < (u - s) * (1 - v) := mul_pos (by linarith) (by linarith)
    have h6 : 0 < (w - v) * (u - v) := by nlinarith
    have hu : 0 < u - v := pos_of_pos_mul_pos hDy h6
    exact mul_neg_of_pos_of_neg hu hs
  · -- the segment leaves through the side from (0,0) to (0,1)
    left
    refine ⟨mul_neg_of_neg_of_pos hLa hLb, ?_⟩
    have hDx : s - u < 0 := by linarith
    have h3 : 0 ≤ (s - u) * (1 - w) := mul_nonneg_of_nonpos_of_nonpos hDx.le (by linarith)
    have h4 : (w - v) * s < 0 := by nlinarith
    have hs : s < 0 := neg_of_pos_mul_neg hDy h4
    have h5 : 0 < (s - u) * v := mul_pos_of_neg_of_neg hDx hv
    have h6 : 0 < (w - v) * u := by nlinarith
    have hu : 0 < u := pos_of_pos_mul_pos hDy h6
    exact mul_neg_of_pos_of_neg hu hs

theorem missing_pair_covered (p r : Point) (X Y : Int)
    (h : do_intersect p r ⟨X, Y⟩ ⟨X + 1, Y⟩ = true) :
    do_intersect p r ⟨X, Y⟩ ⟨X, Y + 1⟩ = true ∨
    do_intersect p r ⟨X, Y⟩ ⟨X + 1, Y + 1⟩ = true ∨
    do_intersect p r ⟨X, Y + 1⟩ ⟨X + 1, Y + 1⟩ = true ∨
    do_intersect p r ⟨X, Y + 1⟩ ⟨X + 1, Y⟩ = true ∨
    do_intersect p r ⟨X + 1, Y + 1⟩ ⟨X + 1, Y⟩ = true := by
  obtain ⟨px, py⟩ := p
  obtain ⟨rx, ry⟩ := r
  simp only [do_intersect_eq_true_iff, orientation_val] at h ⊢
  obtain ⟨h1, h2⟩ := h
  have h2' : (py - Y) * (ry - Y) < 0 := by linarith
  rcases mul_neg_iff.mp h2' with ⟨hp, hr⟩ | ⟨hp, hr⟩
  · -- p above, r below: apply the lemma to the reversed segment
    have key := bottom_crossing_continues (rx - X) (ry - Y) (px - X) (py - Y) hr hp
      (by linarith)
    rcases key with ⟨k1, k2⟩ | ⟨k1, k2⟩ | ⟨k1, k2⟩ | ⟨k1, k2⟩ | ⟨k1, k2⟩
    · exact Or.inl ⟨by linarith, by linarith⟩
    · exact Or.inr (Or.inl ⟨by linarith, by linarith⟩)
    · exact Or.inr (Or.inr (Or.inl ⟨by linarith, by linarith⟩))
    · exact Or.inr (Or.inr (Or.inr (Or.inl ⟨by linarith, by linarith⟩)))
    · exact Or.inr (Or.inr (Or.inr (Or.inr ⟨by linarith, by linarith⟩)))
  · have key := bottom_crossing_continues (px - X) (py - Y) (rx - X) (ry - Y) hp hr
      (by linarith)
    rcases key with ⟨k1, k2⟩ | ⟨k1, k2⟩ | ⟨k1, k2⟩ | ⟨k1, k2⟩ | ⟨k1, k2⟩
    · exact Or.inl ⟨by linarith, by linarith⟩
    · exact Or.inr (Or.inl ⟨by linarith, by linarith⟩)
    · exact Or.inr (Or.inr (Or.inl ⟨by linarith, by linarith⟩))
    · exact Or.inr (Or.inr (Or.inr (Or.inl ⟨by linarith, by linarith⟩)))
    · exact Or.inr (Or.inr (Or.inr (Or.inr ⟨by linarith, by linarith⟩)))

theorem do_intersect_degenerate (q a d : Point) : do_intersect q q a d = false := by
  rw [Bool.eq_false_iff]
  intro h
  rw [do_intersect_eq_true_iff] at h
  have : orientation_val q q a = 0 := by unfold orientation_val; ring
  rw [this] at h
  simp at h

theorem square_test_eq_true_iff (p q r : Point) (X Y : Int) :
    square_test p q r X Y = true ↔ crosses_corner_segment ⟨p, q, r⟩ X Y := by
  have hqq := do_intersect_degenerate q ⟨X, Y⟩ ⟨X + 1, Y⟩
  have hpr := missing_pair_covered p r X Y
  have hqr := missing_pair_covered q r X Y
  simp only [square_test, crosses_corner_segment, tri_edges, corner_segments, hqq,
    Bool.or_eq_true, Bool.or_false, List.mem_cons, List.mem_singleton, List.not_mem_nil,
    or_false, exists_eq_or_imp, exists_eq_left]
  generalize do_intersect p q ⟨X, Y⟩ ⟨X, Y + 1⟩ = t1 at *
  generalize do_intersect p q ⟨X, Y⟩ ⟨X + 1, Y + 1⟩ = t2 at *
  generalize do_intersect p q ⟨X, Y⟩ ⟨X + 1, Y⟩ = t3 at *
  generalize do_intersect p q ⟨X, Y + 1⟩ ⟨X + 1, Y + 1⟩ = t4 at *
  generalize do_intersect p q ⟨X, Y + 1⟩ ⟨X + 1, Y⟩ = t5 at *
  generalize do_intersect p q ⟨X + 1, Y + 1⟩ ⟨X + 1, Y⟩ = t6 at *
  generalize do_intersect p r ⟨X, Y⟩ ⟨X, Y + 1⟩ = u1 at *
  generalize do_intersect p r ⟨X, Y⟩ ⟨X + 1, Y + 1⟩ = u2 at *
  generalize do_intersect p r ⟨X, Y⟩ ⟨X + 1, Y⟩ = u3 at *
  generalize do_intersect p r ⟨X, Y + 1⟩ ⟨X + 1, Y + 1⟩ = u4 at *
  generalize do_intersect p r ⟨X, Y + 1⟩ ⟨X + 1, Y⟩ = u5 at *
  generalize do_intersect p r ⟨X + 1, Y + 1⟩ ⟨X + 1, Y⟩ = u6 at *
  generalize do_intersect q r ⟨X, Y⟩ ⟨X, Y + 1⟩ = w1 at *
  generalize do_intersect q r ⟨X, Y⟩ ⟨X + 1, Y + 1⟩ = w2 at *
  generalize do_intersect q r ⟨X, Y⟩ ⟨X + 1, Y⟩ = w3 at *
  generalize do_intersect q r ⟨X, Y + 1⟩ ⟨X + 1, Y + 1⟩ = w4 at *
  generalize do_intersect q r ⟨X, Y + 1⟩ ⟨X + 1, Y⟩ = w5 at *
  generalize do_intersect q r ⟨X + 1, Y + 1⟩ ⟨X + 1, Y⟩ = w6 at *
  clear hqq
  revert hpr hqr
  cases t1 <;> cases t2 <;> cases t3 <;> cases t4 <;> cases t5 <;> cases t6 <;>
    cases u3 <;> cases w3 <;> simp <;> tauto

/-! ## The preprocessing pass, cell by cell -/

theorem removes_only_refl (P : Tri → Prop) : ∀ l : List Tri, removes_only P l l
  | [] => removes_only.nil
  | t :: l => removes_only.keep t (removes_only_refl P l)

theorem removes_only_trans {P : Tri → Prop} {l₁ l₂ : List Tri} (h₁ : removes_only P l₁ l₂) :
    ∀ {l₃ : List Tri}, removes_only P l₂ l₃ → removes_only P l₁ l₃ := by
  induction h₁ with
  | nil => intro l₃ h; exact h
  | keep t _ ih =>
    intro l₃ h
    cases h with
    | keep _ h' => exact removes_only.keep t (ih h')
    | drop _ pt h' => exact removes_only.drop t pt (ih h')
  | drop t pt _ ih =>
    intro l₃ h
    exact removes_only.drop t pt (ih h)

theorem removes_only_sublist {P : Tri → Prop} {l l' : List Tri} (h : removes_only P l l') :
    l'.Sublist l := by
  induction h with
  | nil => exact List.Sublist.slnil
  | keep t _ ih => exact ih.cons₂ t
  | drop t _ _ ih => exact ih.cons t

theorem removes_only_count {P : Tri → Prop} {l l' : List Tri} (h : removes_only P l l')
    (t : Tri) (ht : ¬ P t) : l'.count t = l.count t := by
  induction h with
  | nil => rfl
  | keep u _ ih => simp only [List.count_cons, ih]
  | drop u pu _ ih =>
    have hne : ¬ (u = t) := fun e => ht (e ▸ pu)
    simp only [List.count_cons, ih, beq_iff_eq, hne, if_false, Nat.add_zero]

theorem removes_only_mono {P Q : Tri → Prop} (hPQ : ∀ t, P t → Q t) {l l' : List Tri}
    (h : removes_only P l l') : removes_only Q l l' := by
  induction h with
  | nil => exact removes_only.nil
  | keep t _ ih => exact removes_only.keep t ih
  | drop t pt _ ih => exact removes_only.drop t (hPQ t pt) ih

theorem removes_only_eraseIdx {P : Tri → Prop} :
    ∀ (l : List Tri) (j : Nat) (t : Tri), l[j]? = some t → P t →
      removes_only P l (l.eraseIdx j)
  | [], j, t, h, _ => by simp at h
  | u :: l, 0, t, h, pt => by
    simp only [List.getElem?_cons_zero, Option.some.injEq] at h
    subst h
    exact removes_only.drop u pt (removes_only_refl P l)
  | u :: l, j + 1, t, h, pt => by
    simp only [List.getElem?_cons_succ] at h
    exact removes_only.keep u (removes_only_eraseIdx l j t h pt)

theorem sweep_candidates_removes_only (erase : Tri → Bool) :
    ∀ (n j : Nat) (l : List Tri),
      removes_only (fun t => erase t = true) l (sweep_candidates erase n j l) := by
  intro n
  induction n with
  | zero => intro j l; exact removes_only_refl _ l
  | succ n ih =>
    intro j l
    unfold sweep_candidates
    cases hj : l[j]? with
    | none => exact removes_only_refl _ l
    | some t =>
      simp only
      by_cases he : erase t = true
      · rw [if_pos he]
        exact removes_only_trans (removes_only_eraseIdx l j t hj he) (ih (j + 1) _)
      · rw [if_neg he]
        exact ih (j + 1) l

theorem hits_other_cell_congr {B board : List Triangle} (hlen : B.length = board.length)
    (hanchor : ∀ k : Nat, (B[k]?).map (fun c : Triangle => (c._x, c._y)) =
      (board[k]?).map (fun c : Triangle => (c._x, c._y))) (i : Nat) :
    hits_other_cell B i = hits_other_cell board i := by
  funext t
  unfold hits_other_cell
  rw [hlen]
  congr 1
  funext k
  congr 1
  have h := hanchor k
  cases hB : B[k]? with
  | none =>
    cases hb : board[k]? with
    | none => rfl
    | some c => rw [hB, hb] at h; simp at h
  | some c' =>
    cases hb : board[k]? with
    | none => rw [hB, hb] at h; simp at h
    | some c =>
      rw [hB, hb] at h
      simp only [Option.map_some', Option.some.injEq, Prod.mk.injEq] at h
      simp only [h.1, h.2]

theorem pre_process_fold (board : List Triangle) :
    ∀ m j : Nat,
      ((List.range m).foldl pre_process_cell board)[j]? =
        if j < m then (board[j]?).map (swept_cell board j) else board[j]? := by
  intro m
  induction m with
  | zero => intro j; simp
  | succ m ih =>
    intro j
    rw [List.range_succ, List.foldl_append]
    simp only [List.foldl_cons, List.foldl_nil]
    generalize hB : (List.range m).foldl pre_process_cell board = B at ih ⊢
    have hBm : B[m]? = board[m]? := by
      rw [ih m, if_neg (lt_irrefl m)]
    have hlen : B.length = board.length := by
      have h1 : ∀ n : Nat, B[n]? = none ↔ board[n]? = none := by
        intro n
        rw [ih n]
        split_ifs
        · simp
        · rfl
      simp only [List.getElem?_eq_none_iff] at h1
      have ha := (h1 B.length).mp (le_refl _)
      have hb := (h1 board.length).mpr (le_refl _)
      omega
    have hanchor : ∀ k : Nat, (B[k]?).map (fun c : Triangle => (c._x, c._y)) =
        (board[k]?).map (fun c : Triangle => (c._x, c._y)) := by
      intro k
      rw [ih k]
      split_ifs
      · cases board[k]? with
        | none => rfl
        | some c => rfl
      · rfl
    unfold pre_process_cell
    rw [hBm]
    cases hb : board[m]? with
    | none =>
      simp only
      rw [ih j]
      have hm : board.length ≤ m := List.getElem?_eq_none_iff.mp hb
      by_cases hj : j < m
      · rw [if_pos hj, if_pos (by omega : j < m + 1)]
      · rw [if_neg hj]
        have hj' : board[j]? = none := List.getElem?_eq_none_iff.mpr (by omega)
        rw [hj']
        simp
    | some cell =>
      simp only
      rw [List.getElem?_set, hits_other_cell_congr hlen hanchor m]
      by_cases hmj : m = j
      · subst hmj
        have hm : m < B.length := by
          rw [hlen]
          by_contra hc
          rw [List.getElem?_eq_none_iff.mpr (by omega)] at hb
          exact Option.noConfusion hb
        rw [if_pos rfl, if_pos hm, if_pos (by omega : m < m + 1), hb]
        rfl
      · rw [if_neg hmj, ih j]
        by_cases hj : j < m
        · rw [if_pos hj, if_pos (by omega : j < m + 1)]
        · rw [if_neg hj, if_neg (by omega : ¬ j < m + 1)]

theorem pre_process_getElem? (board : List Triangle) (i : Nat) :
    (pre_process_valid_triangles board)[i]? = (board[i]?).map (swept_cell board i) := by
  unfold pre_process_valid_triangles
  rw [pre_process_fold]
  by_cases hi : i < board.length
  · rw [if_pos hi]
  · rw [if_neg hi, List.getElem?_eq_none_iff.mpr (by omega)]
    rfl

theorem pre_process_length (board : List Triangle) :
    (pre_process_valid_triangles board).length = board.length := by
  have h1 : ∀ n : Nat, (pre_process_valid_triangles board)[n]? = none ↔ board[n]? = none := by
    intro n
    rw [pre_process_getElem?]
    simp
  simp only [List.getElem?_eq_none_iff] at h1
  have ha := (h1 (pre_process_valid_triangles board).length).mp (le_refl _)
  have hb := (h1 board.length).mpr (le_refl _)
  omega

theorem hits_other_cell_eq_true_iff (board : List Triangle) (i : Nat) (t : Tri) :
    hits_other_cell board i t = true ↔ crosses_other_cell board i t := by
  unfold hits_other_cell crosses_other_cell
  simp only [List.any_eq_true, List.mem_range, Bool.and_eq_true, bne_iff_ne, ne_eq]
  constructor
  · rintro ⟨k, -, hki, hk⟩
    cases hb : board[k]? with
    | none => rw [hb] at hk; exact absurd hk (by simp)
    | some other =>
      rw [hb] at hk
      exact ⟨k, other, hki, hb, (square_test_eq_true_iff _ _ _ _ _).mp hk⟩
  · rintro ⟨k, other, hki, hb, hcr⟩
    have hlt : k < board.length := by
      by_contra hc
      rw [List.getElem?_eq_none_iff.mpr (by omega)] at hb
      exact Option.noConfusion hb
    refine ⟨k, hlt, hki, ?_⟩
    rw [hb]
    exact (square_test_eq_true_iff _ _ _ _ _).mpr hcr

/-- C14, as stated, fails: on the board of the cells `{2,5,5}` and `{2,6,5}` the candidate
`(5,5), (7,5), (5,7)` of cell 0 is removed although none of its edges crosses a side of the
unit square of the other cell; its edge from `(7,5)` to `(5,7)` runs along a diagonal of that
square and crosses the other diagonal. -/
theorem pre_process_removes_without_side_crossing :
    [Triangle.new 2 5 5, Triangle.new 2 6 5].map (fun cell => (cell._x, cell._y)) =
      [(5, 5), (6, 5)] ∧
    (⟨⟨5, 5⟩, ⟨7, 5⟩, ⟨5, 7⟩⟩ : Tri) ∈ (Triangle.new 2 5 5).all_triangles ∧
    (pre_process_valid_triangles [Triangle.new 2 5 5, Triangle.new 2 6 5]).map
        (fun cell => cell.all_triangles) =
      [[⟨⟨5, 6⟩, ⟨5, 4⟩, ⟨7, 6⟩⟩, ⟨⟨6, 6⟩, ⟨4, 6⟩, ⟨6, 4⟩⟩, ⟨⟨6, 5⟩, ⟨6, 7⟩, ⟨4, 5⟩⟩],
        [⟨⟨6, 5⟩, ⟨8, 5⟩, ⟨6, 7⟩⟩, ⟨⟨6, 6⟩, ⟨6, 4⟩, ⟨8, 6⟩⟩, ⟨⟨7, 5⟩, ⟨7, 7⟩, ⟨5, 5⟩⟩]] ∧
    ¬ crosses_square ⟨⟨5, 5⟩, ⟨7, 5⟩, ⟨5, 7⟩⟩ 6 5 ∧
    do_intersect ⟨7, 5⟩ ⟨5, 7⟩ ⟨6, 5⟩ ⟨7, 6⟩ = true := by
  refine ⟨by decide, by decide, by decide, ?_, by decide⟩
  unfold crosses_square
  decide

/-- C14, amended: every triangle that `pre_process_valid_triangles` removes from the
candidate list of cell `i` has an edge that crosses, per `do_intersect`, one of the six
segments joining two corners (the four sides and the two diagonals) of the unit square of
some other cell `k ≠ i`; a candidate none of whose edges crosses any of these segments of
any other cell is never removed. -/
theorem pre_process_removes_only_crossing (board : List Triangle) (i : Nat)
    (cell cell' : Triangle) (hb : board[i]? = some cell)
    (ha : (pre_process_valid_triangles board)[i]? = some cell') :
    removes_only (crosses_other_cell board i) cell.all_triangles cell'.all_triangles ∧
    ∀ t : Tri, ¬ crosses_other_cell board i t →
      cell'.all_triangles.count t = cell.all_triangles.count t := by
  rw [pre_process_getElem?, hb] at ha
  simp only [Option.map_some', Option.some.injEq] at ha
  subst ha
  have h : removes_only (crosses_other_cell board i) cell.all_triangles
      (swept_cell board i cell).all_triangles :=
    removes_only_mono (fun t ht => (hits_other_cell_eq_true_iff board i t).mp ht)
      (sweep_candidates_removes_only _ _ _ _)
  exact ⟨h, fun t ht => removes_only_count h t ht⟩

/-- Witness for C14 on the board of the cells `{2,5,5}` and `{2,6,5}`, cell 0. -/
theorem pre_process_removes_only_crossing_witness :
    ([Triangle.new 2 5 5, Triangle.new 2 6 5][0]? = some (Triangle.new 2 5 5) ∧
      (pre_process_valid_triangles [Triangle.new 2 5 5, Triangle.new 2 6 5])[0]? =
        some { Triangle.new 2 5 5 with
          all_triangles :=
            [⟨⟨5, 6⟩, ⟨5, 4⟩, ⟨7, 6⟩⟩, ⟨⟨6, 6⟩, ⟨4, 6⟩, ⟨6, 4⟩⟩, ⟨⟨6, 5⟩, ⟨6, 7⟩, ⟨4, 5⟩⟩] }) ∧
    (removes_only (crosses_other_cell [Triangle.new 2 5 5, Triangle.new 2 6 5] 0)
        (Triangle.new 2 5 5).all_triangles
        [⟨⟨5, 6⟩, ⟨5, 4⟩, ⟨7, 6⟩⟩, ⟨⟨6, 6⟩, ⟨4, 6⟩, ⟨6, 4⟩⟩, ⟨⟨6, 5⟩, ⟨6, 7⟩, ⟨4, 5⟩⟩] ∧
      ∀ t : Tri, ¬ crosses_other_cell [Triangle.new 2 5 5, Triangle.new 2 6 5] 0 t →
        List.count t
            [⟨⟨5, 6⟩, ⟨5, 4⟩, ⟨7, 6⟩⟩, ⟨⟨6, 6⟩, ⟨4, 6⟩, ⟨6, 4⟩⟩, ⟨⟨6, 5⟩, ⟨6, 7⟩, ⟨4, 5⟩⟩] =
          (Triangle.new 2 5 5).all_triangles.count t) :=
  ⟨⟨by decide, by decide⟩,
    pre_process_removes_only_crossing [Triangle.new 2 5 5, Triangle.new 2 6 5] 0
      (Triangle.new 2 5 5)
      { Triangle.new 2 5 5 with
        all_triangles :=
          [⟨⟨5, 6⟩, ⟨5, 4⟩, ⟨7, 6⟩⟩, ⟨⟨6, 6⟩, ⟨4, 6⟩, ⟨6, 4⟩⟩, ⟨⟨6, 5⟩, ⟨6, 7⟩, ⟨4, 5⟩⟩] }
      (by decide) (by decide)⟩

/-- C18: `pre_process_valid_triangles` changes nothing but the candidate lists and only
shrinks them: the number of cells, every cell's anchor, area and dimension list are
unchanged, and every cell's candidate list afterwards is a sublist of its list before
(whole triangles removed, the others unchanged and in their original order). -/
theorem pre_process_frame (board : List Triangle) :
    (pre_process_valid_triangles board).length = board.length ∧
    List.Forall₂
      (fun cell cell' => cell'._x = cell._x ∧ cell'._y = cell._y ∧
        cell'._area = cell._area ∧ cell'._combinations = cell._combinations ∧
        cell'.all_triangles.Sublist cell.all_triangles)
      board (pre_process_valid_triangles board) := by
  refine ⟨pre_process_length board, ?_⟩
  rw [List.forall₂_iff_get]
  refine ⟨(pre_process_length board).symm, ?_⟩
  intro i h₁ h₂
  have h := pre_process_getElem? board i
  simp only [List.get_eq_getElem]
  rw [List.getElem?_eq_getElem h₁, List.getElem?_eq_getElem h₂] at h
  simp only [Option.map_some', Option.some.injEq] at h
  rw [h]
  exact ⟨rfl, rfl, rfl, rfl, removes_only_sublist (sweep_candidates_removes_only _ _ _ _)⟩

/-- In exact arithmetic, for offsets `sx ≤ 0`, `sy ≤ 0`, the vertex triples
`make_combinations` computes for the right, down and left orientations, before the bounds test, are the images, vertex
by vertex, of the upright triple under the rotation about the centre `(X + 1/2, Y + 1/2)`
of the cell's unit square by 90 degrees clockwise, by 180 degrees and by 90 degrees
counter-clockwise. -/
theorem rotated_vertices_are_rotations (X Y : Int) (dim off : Point)
    (hsx : off.x ≤ 0) (hsy : off.y ≤ 0) :
    ((right_vertices X Y dim off).a.toRPoint =
        rotate_about (square_centre X Y) 0 (-1) (upright_vertices X Y dim off).a.toRPoint ∧
      (right_vertices X Y dim off).b.toRPoint =
        rotate_about (square_centre X Y) 0 (-1) (upright_vertices X Y dim off).b.toRPoint ∧
      (right_vertices X Y dim off).c.toRPoint =
        rotate_about (square_centre X Y) 0 (-1) (upright_vertices X Y dim off).c.toRPoint) ∧
    ((down_vertices X Y dim off).a.toRPoint =
        rotate_about (square_centre X Y) (-1) 0 (upright_vertices X Y dim off).a.toRPoint ∧
      (down_vertices X Y dim off).b.toRPoint =
        rotate_about (square_centre X Y) (-1) 0 (upright_vertices X Y dim off).b.toRPoint ∧
      (down_vertices X Y dim off).c.toRPoint =
        rotate_about (square_centre X Y) (-1) 0 (upright_vertices X Y dim off).c.toRPoint) ∧
    ((left_vertices X Y dim off).a.toRPoint =
        rotate_about (square_centre X Y) 0 1 (upright_vertices X Y dim off).a.toRPoint ∧
      (left_vertices X Y dim off).b.toRPoint =
        rotate_about (square_centre X Y) 0 1 (upright_vertices X Y dim off).b.toRPoint ∧
      (left_vertices X Y dim off).c.toRPoint =
        rotate_about (square_centre X Y) 0 1 (upright_vertices X Y dim off).c.toRPoint) := by
  simp only [right_vertices, down_vertices, left_vertices, upright_vertices, rotate_about,
    square_centre, Point.toRPoint, abs_coord_of_nonpos hsx, abs_coord_of_nonpos hsy,
    RPoint.mk.injEq]
  push_cast
  refine ⟨⟨⟨?_, ?_⟩, ⟨?_, ?_⟩, ⟨?_, ?_⟩⟩, ⟨⟨?_, ?_⟩, ⟨?_, ?_⟩, ⟨?_, ?_⟩⟩,
    ⟨⟨?_, ?_⟩, ⟨?_, ?_⟩, ⟨?_, ?_⟩⟩⟩ <;> ring

/-! ## Machine arithmetic: rounding is exact on small values and keeps signs -/

theorem drop_bits_small (fuel m : Nat) (h : m < 2 ^ 24) : drop_bits fuel m = 0 := by
  cases fuel with
  | zero => rfl
  | succ n => rw [drop_bits, if_pos h]

theorem drop_bits_le : ∀ (fuel m : Nat), 2 ^ 23 ≤ m → 2 ^ drop_bits fuel m * 2 ^ 23 ≤ m := by
  intro fuel
  induction fuel with
  | zero => intro m h; simpa [drop_bits] using h
  | succ n ih =>
    intro m h
    by_cases h1 : m < 2 ^ 24
    · rw [drop_bits, if_pos h1]; simpa using h
    · have h2 : 2 ^ 23 ≤ m / 2 := by omega
      have h3 := ih (m / 2) h2
      rw [drop_bits, if_neg h1, pow_succ]
      have h4 : m / 2 * 2 ≤ m := Nat.div_mul_le_self m 2
      calc 2 ^ drop_bits n (m / 2) * 2 * 2 ^ 23
          = 2 ^ drop_bits n (m / 2) * 2 ^ 23 * 2 := by ring
        _ ≤ m / 2 * 2 := Nat.mul_le_mul_right 2 h3
        _ ≤ m := h4

theorem round_f32_spec (n : Int) :
    ∃ k : Nat, k ≤ 2 * n.natAbs ∧ (0 < n.natAbs → 0 < k) ∧
      round_f32 n = if n < 0 then -(k : Int) else (k : Int) := by
  have key : ∀ (m e : Nat) (up : Bool), (m < 2 ^ 23 → e = 0) →
      (2 ^ 23 ≤ m → 2 ^ e * 2 ^ 23 ≤ m) → (up = true → 0 < m % 2 ^ e) →
      (if up then m / 2 ^ e + 1 else m / 2 ^ e) * 2 ^ e ≤ 2 * m ∧
      (0 < m → 0 < (if up then m / 2 ^ e + 1 else m / 2 ^ e) * 2 ^ e) := by
    intro m e up h1 h2 h3
    have hpos : 0 < 2 ^ e := Nat.two_pow_pos _
    have hdm : m / 2 ^ e * 2 ^ e ≤ m := Nat.div_mul_le_self m (2 ^ e)
    have hle : (0 < m) → 2 ^ e ≤ m ∧ 1 ≤ m / 2 ^ e := by
      intro hm
      by_cases hs : m < 2 ^ 23
      · rw [h1 hs]; simp; omega
      · have h4 := h2 (by omega)
        have h5 : 2 ^ e ≤ m := by
          calc 2 ^ e ≤ 2 ^ e * 2 ^ 23 := Nat.le_mul_of_pos_right _ (by norm_num)
            _ ≤ m := h4
        exact ⟨h5, (Nat.one_le_div_iff hpos).mpr h5⟩
    constructor
    · cases up with
      | false => simp only [Bool.false_eq_true, if_false]; omega
      | true =>
        simp only [if_true]
        have hm : 0 < m := by
          rcases Nat.eq_zero_or_pos m with h0 | h0
          · have := h3 rfl; rw [h0] at this; simp at this
          · exact h0
        have := (hle hm).1
        rw [Nat.add_mul]; omega
    · intro hm
      have := (hle hm).2
      apply Nat.mul_pos _ hpos
      split <;> omega
  obtain ⟨hk1, hk2⟩ := key n.natAbs (drop_bits 128 n.natAbs)
    (decide (2 ^ drop_bits 128 n.natAbs < 2 * (n.natAbs % 2 ^ drop_bits 128 n.natAbs)) ||
      (decide (2 * (n.natAbs % 2 ^ drop_bits 128 n.natAbs) = 2 ^ drop_bits 128 n.natAbs) &&
        decide (n.natAbs / 2 ^ drop_bits 128 n.natAbs % 2 = 1)))
    (fun h => drop_bits_small _ _ (by omega)) (drop_bits_le _ _)
    (by
      intro hup
      have hpos : 0 < 2 ^ drop_bits 128 n.natAbs := Nat.two_pow_pos _
      simp only [Bool.or_eq_true, Bool.and_eq_true, decide_eq_true_eq] at hup
      omega)
  exact ⟨_, hk1, hk2, rfl⟩

theorem round_f32_exact (n : Int) (h1 : -16777216 ≤ n) (h2 : n ≤ 16777216) :
    round_f32 n = n := by
  by_cases h : n.natAbs < 2 ^ 24
  · unfold round_f32
    simp only [drop_bits_small _ _ h, pow_zero, Nat.div_one, Nat.mod_one, mul_zero, mul_one]
    have hup : (decide (1 < 0) || decide (0 = 1) && decide (n.natAbs % 2 = 1)) = false := by
      simp
    rw [hup]
    simp only [Bool.false_eq_true, if_false]
    split <;> omega
  · have h3 : n = 16777216 ∨ n = -16777216 := by omega
    rcases h3 with rfl | rfl <;> decide

theorem round_f32_pos_iff (n : Int) : 0 < round_f32 n ↔ 0 < n := by
  obtain ⟨k, h1, h2, h3⟩ := round_f32_spec n
  rw [h3]
  by_cases h0 : 0 < n.natAbs
  · have := h2 h0
    split <;> omega
  · split <;> omega

theorem round_f32_neg_iff (n : Int) : round_f32 n < 0 ↔ n < 0 := by
  obtain ⟨k, h1, h2, h3⟩ := round_f32_spec n
  rw [h3]
  by_cases h0 : 0 < n.natAbs
  · have := h2 h0
    split <;> omega
  · split <;> omega

theorem round_f32_eq_zero_iff (n : Int) : round_f32 n = 0 ↔ n = 0 := by
  obtain ⟨k, h1, h2, h3⟩ := round_f32_spec n
  rw [h3]
  by_cases h0 : 0 < n.natAbs
  · have := h2 h0
    split <;> omega
  · split <;> omega

theorem round_f32_bound (n : Int) : -(2 * |n|) ≤ round_f32 n ∧ round_f32 n ≤ 2 * |n| := by
  obtain ⟨k, h1, -, h3⟩ := round_f32_spec n
  rw [h3]
  have hn : (n.natAbs : Int) = |n| := Int.natCast_natAbs n
  rw [← hn]
  split <;> omega

theorem to_int32_id (v : Int) (h1 : -2147483648 ≤ v) (h2 : v < 2147483648) :
    to_int32 v = v := by
  unfold to_int32
  rw [if_pos]
  norm_num
  exact ⟨h1, h2⟩

theorem wrap32_id (v : Int) (h1 : -2147483648 ≤ v) (h2 : v < 2147483648) :
    wrap32 v = v := by
  unfold wrap32
  norm_num
  omega

theorem mul_bound (a b : Int) (ha1 : -4094 ≤ a) (ha2 : a ≤ 4094) (hb1 : -4094 ≤ b)
    (hb2 : b ≤ 4094) : -16777216 ≤ a * b ∧ a * b ≤ 16777216 := by
  constructor <;> nlinarith [mul_nonneg (sub_nonneg.mpr ha2) (sub_nonneg.mpr hb2),
    mul_nonneg (sub_nonneg.mpr ha1) (sub_nonneg.mpr hb1),
    mul_nonneg (sub_nonneg.mpr ha2) (sub_nonneg.mpr hb1),
    mul_nonneg (sub_nonneg.mpr ha1) (sub_nonneg.mpr hb2)]

/-! ## Machine arithmetic agrees with exact arithmetic on small coordinates -/

theorem orientation_f32_eq (p q r : Point) (hp : small_point p) (hq : small_point q)
    (hr : small_point r) : orientation_f32 p q r = orientation p q r := by
  obtain ⟨p1, p2, p3, p4⟩ := hp
  obtain ⟨q1, q2, q3, q4⟩ := hq
  obtain ⟨r1, r2, r3, r4⟩ := hr
  unfold orientation_f32 orientation orientation_val fsub fmul
  rw [round_f32_exact (q.y - p.y) (by omega) (by omega),
    round_f32_exact (r.x - q.x) (by omega) (by omega),
    round_f32_exact (q.x - p.x) (by omega) (by omega),
    round_f32_exact (r.y - q.y) (by omega) (by omega)]
  have b1 := mul_bound (q.y - p.y) (r.x - q.x) (by omega) (by omega) (by omega) (by omega)
  have b2 := mul_bound (q.x - p.x) (r.y - q.y) (by omega) (by omega) (by omega) (by omega)
  rw [round_f32_exact _ b1.1 b1.2, round_f32_exact _ b2.1 b2.2]
  generalize (q.y - p.y) * (r.x - q.x) = P at b1 ⊢
  generalize (q.x - p.x) * (r.y - q.y) = Q at b2 ⊢
  have hb := round_f32_bound (P - Q)
  have habs : |P - Q| ≤ 33554432 := by rw [abs_le]; constructor <;> omega
  rw [to_int32_id _ (by omega) (by omega)]
  simp only [round_f32_eq_zero_iff, gt_iff_lt, round_f32_pos_iff]

theorem do_intersect_f32_eq (p1 q1 p2 q2 : Point) (h1 : small_point p1) (h2 : small_point q1)
    (h3 : small_point p2) (h4 : small_point q2) :
    do_intersect_f32 p1 q1 p2 q2 = do_intersect p1 q1 p2 q2 := by
  unfold do_intersect_f32 do_intersect
  rw [orientation_f32_eq p1 q1 p2 h1 h2 h3, orientation_f32_eq p1 q1 q2 h1 h2 h4,
    orientation_f32_eq p2 q2 p1 h3 h4 h1, orientation_f32_eq p2 q2 q1 h3 h4 h2]

theorem sign_f32_eq (p1 p2 p3 : Point) (h1 : small_point p1) (h2 : small_point p2)
    (h3 : small_point p3) : sign_f32 p1 p2 p3 = round_f32 (sign p1 p2 p3) := by
  obtain ⟨a1, a2, a3, a4⟩ := h1
  obtain ⟨b1, b2, b3, b4⟩ := h2
  obtain ⟨c1, c2, c3, c4⟩ := h3
  unfold sign_f32 sign fsub fmul
  rw [round_f32_exact (p1.x - p3.x) (by omega) (by omega),
    round_f32_exact (p2.y - p3.y) (by omega) (by omega),
    round_f32_exact (p2.x - p3.x) (by omega) (by omega),
    round_f32_exact (p1.y - p3.y) (by omega) (by omega)]
  have m1 := mul_bound (p1.x - p3.x) (p2.y - p3.y) (by omega) (by omega) (by omega) (by omega)
  have m2 := mul_bound (p2.x - p3.x) (p1.y - p3.y) (by omega) (by omega) (by omega) (by omega)
  rw [round_f32_exact _ m1.1 m1.2, round_f32_exact _ m2.1 m2.2]

theorem is_inside_triangle_f32_eq (pt v1 v2 v3 : Point) (h0 : small_point pt)
    (h1 : small_point v1) (h2 : small_point v2) (h3 : small_point v3) :
    is_inside_triangle_f32 pt v1 v2 v3 = is_inside_triangle pt v1 v2 v3 := by
  unfold is_inside_triangle_f32 is_inside_triangle
  rw [sign_f32_eq pt v1 v2 h0 h1 h2, sign_f32_eq pt v2 v3 h0 h2 h3,
    sign_f32_eq pt v3 v1 h0 h3 h1]
  simp only [round_f32_neg_iff, gt_iff_lt, round_f32_pos_iff]

theorem translate_inner_f32_run (q1 : Point) :
    ∀ (m fuel : Nat) (s : TranslateState), m < fuel →
      -16777216 ≤ s.shiftX → s.shiftX ≤ 16777216 →
      s.shiftY ≤ 16777216 → -16777216 + (m : Int) ≤ s.shiftY →
      s.v2.y ≤ 16777216 → -16777216 + (m : Int) ≤ s.v2.y →
      s.v3.y ≤ 16777216 → -16777216 + (m : Int) ≤ s.v3.y →
      (∀ k : Nat, k < m →
        is_inside_triangle_f32 q1 s.v1 ⟨s.v2.x, s.v2.y - k⟩ ⟨s.v3.x, s.v3.y - k⟩ = true) →
      is_inside_triangle_f32 q1 s.v1 ⟨s.v2.x, s.v2.y - m⟩ ⟨s.v3.x, s.v3.y - m⟩ = false →
      translate_inner_f32 q1 fuel s = some
        { s with
          results := s.results ++ (List.range m).map fun k => ⟨s.shiftX, s.shiftY - k⟩
          shiftY := s.shiftY - m
          v2 := ⟨s.v2.x, s.v2.y - m⟩
          v3 := ⟨s.v3.x, s.v3.y - m⟩ } := by
  intro m
  induction m with
  | zero =>
    intro fuel s hf _ _ _ _ _ _ _ _ _ hstop
    obtain ⟨n, rfl⟩ : ∃ n, fuel = n + 1 := ⟨fuel - 1, by omega⟩
    simp only [Nat.cast_zero, sub_zero] at hstop
    simp only [translate_inner_f32, hstop, Bool.false_eq_true, if_false, List.range_zero,
      List.map_nil, List.append_nil, Nat.cast_zero, sub_zero]
  | succ m ih =>
    intro fuel s hf x1 x2 y1 y2 a1 a2 b1 b2 hgo hstop
    obtain ⟨n, rfl⟩ : ∃ n, fuel = n + 1 := ⟨fuel - 1, by omega⟩
    have h0 := hgo 0 (Nat.succ_pos m)
    simp only [Nat.cast_zero, sub_zero] at h0
    push_cast at y2 a2 b2
    have e1 : fpoint s.shiftX s.shiftY = ⟨s.shiftX, s.shiftY⟩ := by
      unfold fpoint
      rw [round_f32_exact _ x1 x2, round_f32_exact _ (by omega) y1]
    have e2 : wrap32 (s.shiftY - 1) = s.shiftY - 1 := wrap32_id _ (by omega) (by omega)
    have e3 : fsub s.v2.y 1 = s.v2.y - 1 := round_f32_exact _ (by omega) (by omega)
    have e4 : fsub s.v3.y 1 = s.v3.y - 1 := round_f32_exact _ (by omega) (by omega)
    simp only [translate_inner_f32, h0, if_true, e1, e2, e3, e4]
    rw [ih n
      { shiftX := s.shiftX, shiftY := s.shiftY - 1, v1 := s.v1,
        v2 := ⟨s.v2.x, s.v2.y - 1⟩, v3 := ⟨s.v3.x, s.v3.y - 1⟩,
        results := s.results ++ [⟨s.shiftX, s.shiftY⟩] }
      (by omega) x1 x2 (by simp only; omega) (by simp only; omega)
      (by simp only; omega) (by simp only; omega) (by simp only; omega)
      (by simp only; omega)]
    · simp only [Option.some.injEq, TranslateState.mk.injEq, true_and, Point.mk.injEq]
      refine ⟨by push_cast; ring, by push_cast; ring, by push_cast; ring, ?_⟩
      rw [List.range_succ_eq_map, List.map_cons, List.map_map, List.append_assoc]
      simp only [List.singleton_append, Nat.cast_zero, sub_zero]
      congr 2
      apply List.map_congr_left
      intro k _
      simp only [Function.comp, Point.mk.injEq, true_and]
      push_cast; ring
    · intro k hk
      have := hgo (k + 1) (by omega)
      simp only at this ⊢
      have e1 : s.v2.y - 1 - (k : Int) = s.v2.y - ((k + 1 : Nat) : Int) := by push_cast; ring
      have e2 : s.v3.y - 1 - (k : Int) = s.v3.y - ((k + 1 : Nat) : Int) := by push_cast; ring
      rw [e1, e2]; exact this
    · simp only
      have e1 : s.v2.y - 1 - (m : Int) = s.v2.y - ((m + 1 : Nat) : Int) := by push_cast; ring
      have e2 : s.v3.y - 1 - (m : Int) = s.v3.y - ((m + 1 : Nat) : Int) := by push_cast; ring
      rw [e1, e2]; exact hstop

theorem column_total_lt (b h : Int) (hb : 1 ≤ b) (hh : 1 ≤ h) :
    (column_total b h : Int) < b := by
  by_cases h0 : column_total b h = 0
  · omega
  · have hk : column_total b h - 1 < column_total b h := by omega
    rw [column_total_spec b h (by linarith)] at hk
    have hk2 : offset_ok b h (-((column_total b h - 1 : Nat) : Int)) (-((0 : Nat) : Int)) := by
      simpa using hk
    have := offset_ok_base_bound hb hh hk2
    omega

theorem column_height_lt (b h : Int) (hb : 1 ≤ b) (hh : 1 ≤ h) (i : Nat) :
    (column_height b h i : Int) < h := by
  by_cases h0 : column_height b h i = 0
  · omega
  · have hk : column_height b h i - 1 < column_height b h i := by omega
    rw [column_height_spec b h (by linarith)] at hk
    have := offset_ok_height_bound hb hh hk
    omega

theorem translate_outer_f32_run (b h : Int) (hb : 2 ≤ b) (hb2 : b ≤ 2047) (hh : 1 ≤ h)
    (hh2 : h ≤ 2047) (fuel : Nat) (hfuel : h.toNat ≤ fuel) :
    ∀ (d i n : Nat) (s : TranslateState), i + d = column_total b h → d < n →
      s.shiftX = -(i : Int) → s.v1.y = 0 →
      (s.v1.x = -(i : Int) ∨ s.v1.x = -(i : Int) + 1) →
      s.v2 = ⟨-(i : Int), h⟩ → s.v3 = ⟨b - i, 0⟩ →
      ∃ s1 : TranslateState, translate_outer_f32 ⟨1, 1⟩ h fuel n s = some s1 ∧
        s1.results = s.results ++ offsets_from b h d i := by
  have hct := column_total_lt b h (by omega) hh
  have hq : small_point ⟨1, 1⟩ := by unfold small_point; decide
  intro d
  induction d with
  | zero =>
    intro i n s hid hn hsx hv1y hv1x hv2 hv3
    obtain ⟨n, rfl⟩ : ∃ m, n = m + 1 := ⟨n - 1, by omega⟩
    have hstop : is_inside_triangle_f32 ⟨1, 1⟩ s.v1 s.v2 s.v3 = false := by
      have e1 : s.v1 = ⟨s.v1.x, 0⟩ := by rw [← hv1y]
      rw [e1, hv2, hv3, is_inside_triangle_f32_eq _ _ _ _ hq
        (by unfold small_point; simp only; omega) (by unfold small_point; simp only; omega)
        (by unfold small_point; simp only; omega), Bool.eq_false_iff]
      intro ht
      rw [outer_test_iff b h hb hh i _ hv1x, ← column_total_spec b h (by linarith)] at ht
      omega
    exact ⟨s, by simp [translate_outer_f32, hstop], by simp [offsets_from]⟩
  | succ d ih =>
    intro i n s hid hn hsx hv1y hv1x hv2 hv3
    obtain ⟨n, rfl⟩ : ∃ m, n = m + 1 := ⟨n - 1, by omega⟩
    have hgo : is_inside_triangle_f32 ⟨1, 1⟩ s.v1 s.v2 s.v3 = true := by
      have e1 : s.v1 = ⟨s.v1.x, 0⟩ := by rw [← hv1y]
      rw [e1, hv2, hv3, is_inside_triangle_f32_eq _ _ _ _ hq
        (by unfold small_point; simp only; omega) (by unfold small_point; simp only; omega)
        (by unfold small_point; simp only; omega),
        outer_test_iff b h hb hh i _ hv1x, ← column_total_spec b h (by linarith)]
      omega
    have hchl := column_height_lt b h (by omega) hh i
    have hm : column_height b h i < fuel := by
      have e3 : (h.toNat : Int) = h := Int.toNat_of_nonneg (by linarith)
      omega
    have hrx : round_f32 s.shiftX = s.shiftX := round_f32_exact _ (by omega) (by omega)
    have hri : round_f32 (-(i : Int)) = -(i : Int) := round_f32_exact _ (by omega) (by omega)
    have hv2x : s.v2.x = -(i : Int) := by rw [hv2]
    have hv2y : s.v2.y = h := by rw [hv2]
    have hv3x : s.v3.x = b - i := by rw [hv3]
    have hv3y : s.v3.y = 0 := by rw [hv3]
    have hinner := translate_inner_f32_run ⟨1, 1⟩ (column_height b h i) fuel
      { s with shiftY := 0, v1 := ⟨round_f32 s.shiftX, 0⟩ } hm
      (by simp only; omega) (by simp only; omega) (by simp only; omega)
      (by simp only; omega) (by simp only; omega) (by simp only; omega)
      (by simp only; omega) (by simp only; omega)
      (by
        intro k hk
        simp only [hsx, hri, hv2, hv3]
        rw [is_inside_triangle_f32_eq _ _ _ _ hq
          (by unfold small_point; simp only; omega) (by unfold small_point; simp only; omega)
          (by unfold small_point; simp only; omega),
          inner_test_iff b h (by linarith) hh, ← column_height_spec b h (by linarith)]
        exact hk)
      (by
        simp only [hsx, hri, hv2, hv3]
        rw [is_inside_triangle_f32_eq _ _ _ _ hq
          (by unfold small_point; simp only; omega) (by unfold small_point; simp only; omega)
          (by unfold small_point; simp only; omega), Bool.eq_false_iff]
        intro ht
        rw [inner_test_iff b h (by linarith) hh, ← column_height_spec b h (by linarith)] at ht
        exact lt_irrefl _ ht)
    simp only [translate_outer_f32, hgo, if_true, hinner]
    obtain ⟨s1, hs1, hres⟩ := ih (i + 1) n
      { shiftX := wrap32 (s.shiftX - 1), shiftY := 0 - (column_height b h i : Int),
        v1 := ⟨round_f32 s.shiftX, 0⟩,
        v2 := ⟨fsub s.v2.x 1, round_f32 h⟩, v3 := ⟨fsub s.v3.x 1, 0⟩,
        results := s.results ++
          (List.range (column_height b h i)).map fun k => ⟨s.shiftX, 0 - (k : Int)⟩ }
      (by omega) (by omega)
      (by simp only; rw [wrap32_id _ (by omega) (by omega), hsx]; push_cast; ring) rfl
      (by right; simp only [hsx, hri]; push_cast; ring)
      (by
        simp only [Point.mk.injEq]
        unfold fsub
        rw [round_f32_exact _ (by omega) (by omega), round_f32_exact _ (by omega) (by omega),
          hv2x]
        exact ⟨by push_cast; ring, rfl⟩)
      (by
        simp only [Point.mk.injEq, and_true]
        unfold fsub
        rw [round_f32_exact _ (by omega) (by omega), hv3x]
        push_cast; ring)
    refine ⟨s1, hs1, ?_⟩
    rw [hres]
    show s.results ++ List.map (fun k : Nat => (⟨s.shiftX, 0 - (k : Int)⟩ : Point))
        (List.range (column_height b h i)) ++ offsets_from b h d (i + 1) =
      s.results ++ (offset_column b h i ++ offsets_from b h d (i + 1))
    rw [List.append_assoc]
    congr 2
    unfold offset_column
    apply List.map_congr_left
    intro k _
    rw [hsx, zero_sub]

theorem translate_fuel_f32_eq (b h : Int) (hb : 2 ≤ b) (hb2 : b ≤ 2047) (hh : 1 ≤ h)
    (hh2 : h ≤ 2047) (fuel : Nat) (hfuel : (b + h).toNat + 1 ≤ fuel) :
    translate_fuel_f32 fuel ⟨b, h⟩ = some (expected_offsets b h) := by
  have e1 : ((b + h).toNat : Int) = b + h := Int.toNat_of_nonneg (by linarith)
  have e2 : (h.toNat : Int) = h := Int.toNat_of_nonneg (by linarith)
  have hct := column_total_lt b h (by omega) hh
  obtain ⟨s1, hs1, hres⟩ := translate_outer_f32_run b h hb hb2 hh hh2 fuel (by omega)
    (column_total b h) 0 fuel
    { shiftX := 0, shiftY := 0, v1 := ⟨0, 0⟩, v2 := ⟨0, h⟩, v3 := ⟨b, 0⟩, results := [] }
    (by omega) (by omega) (by simp) rfl (by left; simp) (by simp) (by simp)
  simp only [translate_fuel_f32, to_int32_id h (by omega) (by omega), hs1, Option.map_some',
    hres, List.nil_append, expected_offsets]

theorem translate_f32_eq (b h : Int) (hb : 2 ≤ b) (hb2 : b ≤ 2047) (hh : 1 ≤ h)
    (hh2 : h ≤ 2047) : translate_f32 ⟨b, h⟩ = expected_offsets b h := by
  unfold translate_f32
  rw [translate_fuel_f32_eq b h hb hb2 hh hh2 _ (Nat.le_succ _)]
  rfl

theorem unit_square_inside_iff_closed (X Y : Int) (t : Tri)
    (hnd : ¬ collinear t.a.toRPoint t.b.toRPoint t.c.toRPoint) :
    unit_square_inside X Y t ↔ unit_square_in_closed_triangle X Y t := by
  unfold unit_square_inside unit_square_in_closed_triangle
  rw [← is_inside_triangle_rat_cast, ← is_inside_triangle_rat_cast,
    ← is_inside_triangle_rat_cast, ← is_inside_triangle_rat_cast,
    inside_rat_iff_closed _ _ _ _ hnd, inside_rat_iff_closed _ _ _ _ hnd,
    inside_rat_iff_closed _ _ _ _ hnd, inside_rat_iff_closed _ _ _ _ hnd]

theorem upright_not_collinear (sx sy b h : Int) (hb : 1 ≤ b) (hh : 1 ≤ h) :
    ¬ collinear (Point.toRPoint ⟨sx, sy⟩) (Point.toRPoint ⟨sx + b, sy⟩)
      (Point.toRPoint ⟨sx, sy + h⟩) := by
  simp only [collinear, Point.toRPoint]
  push_cast
  have h1 : (0 : ℚ) < (b : ℚ) := by exact_mod_cast (by omega : (0 : Int) < b)
  have h2 : (0 : ℚ) < (h : ℚ) := by exact_mod_cast (by omega : (0 : Int) < h)
  have h3 := mul_pos h1 h2
  intro hc
  nlinarith

/-- C7, amended: for a dimension with `2 ≤ base ≤ 2047` and `2 ≤ height ≤ 2047`,
`translate` terminates (every iteration budget from `base + height + 1` on gives the same
list) and returns exactly the integer offsets `(sx, sy)` with `sx ≤ 0`, `sy ≤ 0` for which
the unit square `[0,1] x [0,1]` lies inside the upright triangle with right-angle vertex
`(sx, sy)` and legs `base` along `+x` and `height` along `+y` (each corner of the square is
a convex combination of the vertices), that is those with
`(1 - sx) * height + (1 - sy) * base ≤ base * height`; no offset appears twice. -/
theorem translate_f32_exact_offsets (base height : Int) (hb : 2 ≤ base) (hb2 : base ≤ 2047)
    (hh : 2 ≤ height) (hh2 : height ≤ 2047) :
    (∀ fuel : Nat, (base + height).toNat + 1 ≤ fuel →
      translate_fuel_f32 fuel ⟨base, height⟩ = some (translate_f32 ⟨base, height⟩)) ∧
    (translate_f32 ⟨base, height⟩).Nodup ∧
    ∀ sx sy : Int,
      ((⟨sx, sy⟩ : Point) ∈ translate_f32 ⟨base, height⟩ ↔
        sx ≤ 0 ∧ sy ≤ 0 ∧
          unit_square_in_closed_triangle 0 0
            ⟨⟨sx, sy⟩, ⟨sx + base, sy⟩, ⟨sx, sy + height⟩⟩) ∧
      ((⟨sx, sy⟩ : Point) ∈ translate_f32 ⟨base, height⟩ ↔
        sx ≤ 0 ∧ sy ≤ 0 ∧ (1 - sx) * height + (1 - sy) * base ≤ base * height) := by
  rw [translate_f32_eq base height hb hb2 (by linarith) hh2]
  refine ⟨fun fuel hf => translate_fuel_f32_eq base height hb hb2 (by linarith) hh2 fuel hf,
    nodup_offsets_from _ _ _ _, ?_⟩
  intro sx sy
  rw [mem_expected_offsets base height (by linarith) (by linarith),
    ← unit_square_inside_iff_closed 0 0 _
      (upright_not_collinear sx sy base height (by linarith) (by linarith))]
  refine ⟨?_, Iff.rfl⟩
  constructor
  · rintro ⟨h1, h2, h3⟩
    refine ⟨h1, h2, ?_⟩
    have := (upright_square_inside_iff 0 0 base height sx sy (by linarith) (by linarith)
      h1 h2).mpr h3
    simpa [upright_vertices] using this
  · rintro ⟨h1, h2, h3⟩
    refine ⟨h1, h2, ?_⟩
    apply (upright_square_inside_iff 0 0 base height sx sy (by linarith) (by linarith)
      h1 h2).mp
    simpa [upright_vertices] using h3

/-- Witness for C7, amended, at the dimension (4, 3). -/
theorem translate_f32_exact_offsets_witness :
    ((2 : Int) ≤ 4 ∧ (4 : Int) ≤ 2047 ∧ (2 : Int) ≤ 3 ∧ (3 : Int) ≤ 2047) ∧
    translate_f32 ⟨4, 3⟩ = [⟨0, 0⟩, ⟨0, -1⟩, ⟨-1, 0⟩] ∧
    ((∀ fuel : Nat, ((4 : Int) + 3).toNat + 1 ≤ fuel →
      translate_fuel_f32 fuel ⟨4, 3⟩ = some (translate_f32 ⟨4, 3⟩)) ∧
    (translate_f32 ⟨4, 3⟩).Nodup ∧
    ∀ sx sy : Int,
      ((⟨sx, sy⟩ : Point) ∈ translate_f32 ⟨4, 3⟩ ↔
        sx ≤ 0 ∧ sy ≤ 0 ∧
          unit_square_in_closed_triangle 0 0 ⟨⟨sx, sy⟩, ⟨sx + 4, sy⟩, ⟨sx, sy + 3⟩⟩) ∧
      ((⟨sx, sy⟩ : Point) ∈ translate_f32 ⟨4, 3⟩ ↔
        sx ≤ 0 ∧ sy ≤ 0 ∧ (1 - sx) * 3 + (1 - sy) * 4 ≤ 4 * 3)) :=
  ⟨by decide, by decide,
    translate_f32_exact_offsets 4 3 (by decide) (by decide) (by decide) (by decide)⟩

/-! ## A tall dimension on which the `float` decrement of `translate` rounds -/

theorem round_f32_val (n v : Int) (h : n = v) (h1 : -16777216 ≤ v) (h2 : v ≤ 16777216) :
    round_f32 n = v := by
  rw [h]; exact round_f32_exact v h1 h2

theorem tall_inner_test (k : Nat) (hk : k < 8388607) :
    is_inside_triangle_f32 ⟨1, 1⟩ ⟨0, 0⟩ ⟨0, 16777216 - (k : Int)⟩ ⟨2, -1 - (k : Int)⟩ =
      true := by
  have s1 : sign_f32 ⟨1, 1⟩ ⟨0, 0⟩ ⟨0, 16777216 - (k : Int)⟩ = -(16777216 - (k : Int)) := by
    unfold sign_f32 fsub fmul
    simp only
    rw [round_f32_val (1 - 0) 1 (by ring) (by omega) (by omega),
      round_f32_val (0 - (16777216 - (k : Int))) (-(16777216 - (k : Int))) (by ring)
        (by omega) (by omega),
      round_f32_val (0 - 0) 0 (by ring) (by omega) (by omega),
      round_f32_val (1 - (16777216 - (k : Int))) (1 - (16777216 - (k : Int))) rfl
        (by omega) (by omega),
      round_f32_val (1 * -(16777216 - (k : Int))) (-(16777216 - (k : Int))) (by ring)
        (by omega) (by omega),
      round_f32_val (0 * (1 - (16777216 - (k : Int)))) 0 (by ring) (by omega) (by omega),
      round_f32_val (-(16777216 - (k : Int)) - 0) (-(16777216 - (k : Int))) (by ring)
        (by omega) (by omega)]
  have s2 : sign_f32 ⟨1, 1⟩ ⟨0, 16777216 - (k : Int)⟩ ⟨2, -1 - (k : Int)⟩ =
      -16777212 + 2 * (k : Int) := by
    unfold sign_f32 fsub fmul
    simp only
    have r0 : round_f32 (16777216 - (k : Int) - (-1 - (k : Int))) = 16777216 := by
      have e : 16777216 - (k : Int) - (-1 - (k : Int)) = 16777217 := by ring
      rw [e]; decide
    rw [r0, round_f32_val (1 - 2) (-1) (by ring) (by omega) (by omega),
      round_f32_val (0 - 2) (-2) (by ring) (by omega) (by omega),
      round_f32_val (1 - (-1 - (k : Int))) (2 + (k : Int)) (by ring) (by omega) (by omega),
      round_f32_val (-1 * 16777216) (-16777216) (by ring) (by omega) (by omega),
      round_f32_val (-2 * (2 + (k : Int))) (-4 - 2 * (k : Int)) (by ring) (by omega)
        (by omega),
      round_f32_val (-16777216 - (-4 - 2 * (k : Int))) (-16777212 + 2 * (k : Int)) (by ring)
        (by omega) (by omega)]
  have s3 : sign_f32 ⟨1, 1⟩ ⟨2, -1 - (k : Int)⟩ ⟨0, 0⟩ = -3 - (k : Int) := by
    unfold sign_f32 fsub fmul
    simp only
    rw [round_f32_val (1 - 0) 1 (by ring) (by omega) (by omega),
      round_f32_val (-1 - (k : Int) - 0) (-1 - (k : Int)) (by ring) (by omega) (by omega),
      round_f32_val (2 - 0) 2 (by ring) (by omega) (by omega),
      round_f32_val (1 * (-1 - (k : Int))) (-1 - (k : Int)) (by ring) (by omega) (by omega),
      round_f32_val (2 * 1) 2 (by ring) (by omega) (by omega),
      round_f32_val (-1 - (k : Int) - 2) (-3 - (k : Int)) (by ring) (by omega) (by omega)]
  have p1 : ¬ (-(16777216 - (k : Int)) > 0) := by omega
  have p2 : ¬ (-16777212 + 2 * (k : Int) > 0) := by omega
  have p3 : ¬ (-3 - (k : Int) > 0) := by omega
  unfold is_inside_triangle_f32
  simp only [s1, s2, s3, p1, p2, p3, decide_False, Bool.or_false, Bool.and_false,
    Bool.not_false]

theorem translate_fuel_f32_tall (fuel : Nat) (hf : 8388610 ≤ fuel) :
    translate_fuel_f32 fuel ⟨2, 16777218⟩ =
      some (⟨0, 0⟩ ::
        (List.range 8388607).map fun (k : Nat) => (⟨0, -1 - (k : Int)⟩ : Point)) := by
  obtain ⟨n, rfl⟩ : ∃ n, fuel = n + 1 + 1 := ⟨fuel - 2, by omega⟩
  have t0 : is_inside_triangle_f32 ⟨1, 1⟩ ⟨0, 0⟩ ⟨0, 16777218⟩ ⟨2, 0⟩ = true := by decide
  have t1 : is_inside_triangle_f32 ⟨1, 1⟩ ⟨0, 0⟩ ⟨-1, 16777218⟩ ⟨1, 0⟩ = false := by decide
  have hrun := translate_inner_f32_run ⟨1, 1⟩ 8388607 (n + 1)
    { shiftX := 0, shiftY := -1, v1 := ⟨0, 0⟩, v2 := ⟨0, 16777216⟩, v3 := ⟨2, -1⟩,
      results := [⟨0, 0⟩] }
    (by omega) (by decide) (by decide) (by decide) (by decide) (by decide) (by decide)
    (by decide) (by decide) (fun k hk => tall_inner_test k hk) (by decide)
  simp only [List.singleton_append] at hrun
  have c1 : round_f32 0 = 0 := by decide
  have c2 : fpoint 0 0 = ⟨0, 0⟩ := by decide
  have c3 : wrap32 (0 - 1) = -1 := by decide
  have c4 : fsub 16777218 1 = 16777216 := by decide
  have c5 : fsub 0 1 = -1 := by decide
  have c6 : fsub 2 1 = 1 := by decide
  have c7 : round_f32 (to_int32 16777218) = 16777218 := by decide
  have hA : translate_inner_f32 ⟨1, 1⟩ (n + 1 + 1)
      { shiftX := 0, shiftY := 0, v1 := ⟨0, 0⟩, v2 := ⟨0, 16777218⟩, v3 := ⟨2, 0⟩,
        results := [] } = some
      { shiftX := 0, shiftY := -1 - ((8388607 : Nat) : Int), v1 := ⟨0, 0⟩,
        v2 := ⟨0, 16777216 - ((8388607 : Nat) : Int)⟩,
        v3 := ⟨2, -1 - ((8388607 : Nat) : Int)⟩,
        results := ⟨0, 0⟩ ::
          (List.range 8388607).map fun (k : Nat) => (⟨0, -1 - (k : Int)⟩ : Point) } := by
    rw [translate_inner_f32]
    simp only [t0, if_true, c2, c3, c4, c5, List.nil_append]
    exact hrun
  simp only [translate_fuel_f32]
  rw [translate_outer_f32]
  simp only [t0, if_true, c1, hA]
  simp only [c3, c5, c6, c7]
  simp only [translate_outer_f32, t1, Bool.false_eq_true, if_false, Option.map_some']

/-- C7, as stated, fails: for the dimension `(2, 16777218)` the `float` decrement `v2.y--`
of the inner loop takes 16777218 to 16777216 (16777217 is no `float` value), the hypotenuse
test then fails one step early, and `translate` returns the offsets
`(0, 0), (0, -1), ..., (0, -8388607)` only: the offset `(0, -8388608)` is missing although
it satisfies the containment inequality (with equality) and all four corners of the unit
square lie in the closed triangle with right-angle vertex `(0, -8388608)`. -/
theorem translate_f32_misses_offset :
    ((2 : Int) ≤ 2 ∧ (2 : Int) ≤ 16777218) ∧
    (∀ fuel : Nat, 8388610 ≤ fuel →
      translate_fuel_f32 fuel ⟨2, 16777218⟩ = some (translate_f32 ⟨2, 16777218⟩)) ∧
    (⟨0, -8388608⟩ : Point) ∉ translate_f32 ⟨2, 16777218⟩ ∧
    ((0 : Int) ≤ 0 ∧ (-8388608 : Int) ≤ 0 ∧
      (1 - (0 : Int)) * 16777218 + (1 - (-8388608)) * 2 ≤ 2 * 16777218) ∧
    unit_square_in_closed_triangle 0 0
      ⟨⟨0, -8388608⟩, ⟨0 + 2, -8388608⟩, ⟨0, -8388608 + 16777218⟩⟩ := by
  have e : translate_f32 ⟨2, 16777218⟩ = ⟨0, 0⟩ ::
      (List.range 8388607).map fun (k : Nat) => (⟨0, -1 - (k : Int)⟩ : Point) := by
    unfold translate_f32
    rw [translate_fuel_f32_tall _ (by decide)]
    rfl
  refine ⟨by decide, ?_, ?_, by decide, ?_⟩
  · intro fuel hf
    rw [e]
    exact translate_fuel_f32_tall fuel hf
  · rw [e]
    simp only [List.mem_cons, Point.mk.injEq, List.mem_map, List.mem_range, not_or, not_exists,
      not_and]
    refine ⟨by decide, ?_⟩
    intro k hk _
    omega
  · rw [← unit_square_inside_iff_closed 0 0 _
      (upright_not_collinear 0 (-8388608) 2 16777218 (by decide) (by decide))]
    unfold unit_square_inside
    decide

/-! ## The rotated vertex triples in machine arithmetic -/

theorem vertices_f32_eq (X Y : Int) (dim off : Point) (hX : within 4194304 X)
    (hY : within 4194304 Y) (hdx : within 4194304 dim.x) (hdy : within 4194304 dim.y)
    (hox : within 4194304 off.x) (hoy : within 4194304 off.y) :
    upright_vertices_f32 X Y dim off = upright_vertices X Y dim off ∧
    right_vertices_f32 X Y dim off = right_vertices X Y dim off ∧
    down_vertices_f32 X Y dim off = down_vertices X Y dim off ∧
    left_vertices_f32 X Y dim off = left_vertices X Y dim off := by
  unfold within at hX hY hdx hdy hox hoy
  obtain ⟨x1, x2⟩ := hX
  obtain ⟨y1, y2⟩ := hY
  obtain ⟨a1, a2⟩ := hdx
  obtain ⟨b1, b2⟩ := hdy
  obtain ⟨c1, c2⟩ := hox
  obtain ⟨d1, d2⟩ := hoy
  have rX : round_f32 X = X := round_f32_exact _ (by omega) (by omega)
  have rY : round_f32 Y = Y := round_f32_exact _ (by omega) (by omega)
  have ex : ∀ v : Int, -12582914 ≤ v → v ≤ 12582914 → to_int32 (round_f32 v) = v := by
    intro v h1 h2
    rw [round_f32_exact v (by omega) (by omega), to_int32_id v (by omega) (by omega)]
  have ex2 : ∀ v : Int, -12582914 ≤ v → v ≤ 12582914 → round_f32 v = v := by
    intro v h1 h2
    exact round_f32_exact v (by omega) (by omega)
  have hax : (0 : Int) ≤ abs_coord off.x ∧ abs_coord off.x ≤ 4194304 := by
    unfold abs_coord; omega
  have hay : (0 : Int) ≤ abs_coord off.y ∧ abs_coord off.y ≤ 4194304 := by
    unfold abs_coord; omega
  unfold upright_vertices_f32 upright_vertices right_vertices_f32 right_vertices
    down_vertices_f32 down_vertices left_vertices_f32 left_vertices fadd fsub
  simp only [rX, rY]
  generalize abs_coord off.x = ax at hax ⊢
  generalize abs_coord off.y = ay at hay ⊢
  refine ⟨?_, ?_, ?_, ?_⟩
  · rw [ex (X + off.x) (by omega) (by omega), ex (Y + off.y) (by omega) (by omega),
      ex2 (X + off.x) (by omega) (by omega), ex2 (Y + off.y) (by omega) (by omega),
      ex (X + off.x + dim.x) (by omega) (by omega),
      ex (Y + off.y + dim.y) (by omega) (by omega)]
  · rw [ex (X + off.y) (by omega) (by omega), ex2 (Y + ax) (by omega) (by omega),
      ex (Y + ax + 1) (by omega) (by omega), ex2 (X + off.y) (by omega) (by omega),
      ex2 (Y + ax + 1) (by omega) (by omega),
      ex (Y + ax + 1 - dim.x) (by omega) (by omega),
      ex (X + off.y + dim.y) (by omega) (by omega)]
  · rw [ex2 (X + ax) (by omega) (by omega), ex2 (Y + ay) (by omega) (by omega),
      ex (X + ax + 1) (by omega) (by omega), ex (Y + ay + 1) (by omega) (by omega),
      ex2 (X + ax + 1) (by omega) (by omega), ex2 (Y + ay + 1) (by omega) (by omega),
      ex (X + ax + 1 - dim.x) (by omega) (by omega),
      ex (Y + ay + 1 - dim.y) (by omega) (by omega)]
  · rw [ex2 (X + ay) (by omega) (by omega), ex (X + ay + 1) (by omega) (by omega),
      ex (Y + off.x) (by omega) (by omega), ex2 (X + ay + 1) (by omega) (by omega),
      ex2 (Y + off.x) (by omega) (by omega),
      ex (Y + off.x + dim.x) (by omega) (by omega),
      ex (X + ay + 1 - dim.y) (by omega) (by omega)]

/-- C21, as stated, fails: for the anchor `(16777217, 0)`, the dimension `(2, 2)` and the
offset `(0, 0)`, `make_combinations` computes `X + 0` in `float`, which rounds the anchor
to 16777216: the upright triple starts at `(16777216, 0)` and the right triple at
`(16777216, 1)`, while the quarter turn clockwise about the centre `(16777217.5, 0.5)`
takes `(16777216, 0)` to `(16777217, 2)`. -/
theorem rotated_vertices_f32_not_rotations :
    ((0 : Int) ≤ 0 ∧ (0 : Int) ≤ 0) ∧
    (upright_vertices_f32 16777217 0 ⟨2, 2⟩ ⟨0, 0⟩).a = ⟨16777216, 0⟩ ∧
    (right_vertices_f32 16777217 0 ⟨2, 2⟩ ⟨0, 0⟩).a = ⟨16777216, 1⟩ ∧
    rotate_about (square_centre 16777217 0) 0 (-1)
      (upright_vertices_f32 16777217 0 ⟨2, 2⟩ ⟨0, 0⟩).a.toRPoint = ⟨16777217, 2⟩ ∧
    (right_vertices_f32 16777217 0 ⟨2, 2⟩ ⟨0, 0⟩).a.toRPoint ≠
      rotate_about (square_centre 16777217 0) 0 (-1)
        (upright_vertices_f32 16777217 0 ⟨2, 2⟩ ⟨0, 0⟩).a.toRPoint := by
  have hu : (upright_vertices_f32 16777217 0 ⟨2, 2⟩ ⟨0, 0⟩).a = ⟨16777216, 0⟩ := by decide
  have hr : (right_vertices_f32 16777217 0 ⟨2, 2⟩ ⟨0, 0⟩).a = ⟨16777216, 1⟩ := by decide
  have hrot : rotate_about (square_centre 16777217 0) 0 (-1)
      (upright_vertices_f32 16777217 0 ⟨2, 2⟩ ⟨0, 0⟩).a.toRPoint = ⟨16777217, 2⟩ := by
    rw [hu]
    simp only [rotate_about, square_centre, Point.toRPoint, RPoint.mk.injEq]
    constructor <;> norm_num
  refine ⟨by decide, hu, hr, hrot, ?_⟩
  rw [hrot, hr]
  simp only [Point.toRPoint, ne_eq, RPoint.mk.injEq, not_and]
  intro h
  norm_num at h

/-- C21, amended: for an anchor, a dimension and an offset whose coordinates all have
magnitude at most `2 ^ 22 = 4194304`, with `sx ≤ 0` and `sy ≤ 0`, the vertex triples
`make_combinations` computes for the right, down and left orientations, before the bounds
test, are the images, vertex by vertex, of the upright triple under the rotation about the
centre `(X + 1/2, Y + 1/2)` of the cell's unit square by 90 degrees clockwise, by 180
degrees and by 90 degrees counter-clockwise. -/
theorem rotated_vertices_f32_are_rotations (X Y : Int) (dim off : Point)
    (hX : within 4194304 X) (hY : within 4194304 Y) (hdx : within 4194304 dim.x)
    (hdy : within 4194304 dim.y) (hox : within 4194304 off.x) (hoy : within 4194304 off.y)
    (hsx : off.x ≤ 0) (hsy : off.y ≤ 0) :
    ((right_vertices_f32 X Y dim off).a.toRPoint =
        rotate_about (square_centre X Y) 0 (-1) (upright_vertices_f32 X Y dim off).a.toRPoint ∧
      (right_vertices_f32 X Y dim off).b.toRPoint =
        rotate_about (square_centre X Y) 0 (-1) (upright_vertices_f32 X Y dim off).b.toRPoint ∧
      (right_vertices_f32 X Y dim off).c.toRPoint =
        rotate_about (square_centre X Y) 0 (-1)
          (upright_vertices_f32 X Y dim off).c.toRPoint) ∧
    ((down_vertices_f32 X Y dim off).a.toRPoint =
        rotate_about (square_centre X Y) (-1) 0 (upright_vertices_f32 X Y dim off).a.toRPoint ∧
      (down_vertices_f32 X Y dim off).b.toRPoint =
        rotate_about (square_centre X Y) (-1) 0 (upright_vertices_f32 X Y dim off).b.toRPoint ∧
      (down_vertices_f32 X Y dim off).c.toRPoint =
        rotate_about (square_centre X Y) (-1) 0
          (upright_vertices_f32 X Y dim off).c.toRPoint) ∧
    ((left_vertices_f32 X Y dim off).a.toRPoint =
        rotate_about (square_centre X Y) 0 1 (upright_vertices_f32 X Y dim off).a.toRPoint ∧
      (left_vertices_f32 X Y dim off).b.toRPoint =
        rotate_about (square_centre X Y) 0 1 (upright_vertices_f32 X Y dim off).b.toRPoint ∧
      (left_vertices_f32 X Y dim off).c.toRPoint =
        rotate_about (square_centre X Y) 0 1 (upright_vertices_f32 X Y dim off).c.toRPoint) := by
  obtain ⟨e1, e2, e3, e4⟩ := vertices_f32_eq X Y dim off hX hY hdx hdy hox hoy
  rw [e1, e2, e3, e4]
  exact rotated_vertices_are_rotations X Y dim off hsx hsy

/-- Witness for C21, amended: the cell anchored at (5, 5), dimension (4, 3), offset
(-1, 0). -/
theorem rotated_vertices_f32_are_rotations_witness :
    (within 4194304 5 ∧ within 4194304 4 ∧ within 4194304 3 ∧ within 4194304 (-1) ∧
      within 4194304 0 ∧ (-1 : Int) ≤ 0 ∧ (0 : Int) ≤ 0) ∧
    (((right_vertices_f32 5 5 ⟨4, 3⟩ ⟨-1, 0⟩).a.toRPoint =
        rotate_about (square_centre 5 5) 0 (-1)
          (upright_vertices_f32 5 5 ⟨4, 3⟩ ⟨-1, 0⟩).a.toRPoint ∧
      (right_vertices_f32 5 5 ⟨4, 3⟩ ⟨-1, 0⟩).b.toRPoint =
        rotate_about (square_centre 5 5) 0 (-1)
          (upright_vertices_f32 5 5 ⟨4, 3⟩ ⟨-1, 0⟩).b.toRPoint ∧
      (right_vertices_f32 5 5 ⟨4, 3⟩ ⟨-1, 0⟩).c.toRPoint =
        rotate_about (square_centre 5 5) 0 (-1)
          (upright_vertices_f32 5 5 ⟨4, 3⟩ ⟨-1, 0⟩).c.toRPoint) ∧
    ((down_vertices_f32 5 5 ⟨4, 3⟩ ⟨-1, 0⟩).a.toRPoint =
        rotate_about (square_centre 5 5) (-1) 0
          (upright_vertices_f32 5 5 ⟨4, 3⟩ ⟨-1, 0⟩).a.toRPoint ∧
      (down_vertices_f32 5 5 ⟨4, 3⟩ ⟨-1, 0⟩).b.toRPoint =
        rotate_about (square_centre 5 5) (-1) 0
          (upright_vertices_f32 5 5 ⟨4, 3⟩ ⟨-1, 0⟩).b.toRPoint ∧
      (down_vertices_f32 5 5 ⟨4, 3⟩ ⟨-1, 0⟩).c.toRPoint =
        rotate_about (square_centre 5 5) (-1) 0
          (upright_vertices_f32 5 5 ⟨4, 3⟩ ⟨-1, 0⟩).c.toRPoint) ∧
    ((left_vertices_f32 5 5 ⟨4, 3⟩ ⟨-1, 0⟩).a.toRPoint =
        rotate_about (square_centre 5 5) 0 1
          (upright_vertices_f32 5 5 ⟨4, 3⟩ ⟨-1, 0⟩).a.toRPoint ∧
      (left_vertices_f32 5 5 ⟨4, 3⟩ ⟨-1, 0⟩).b.toRPoint =
        rotate_about (square_centre 5 5) 0 1
          (upright_vertices_f32 5 5 ⟨4, 3⟩ ⟨-1, 0⟩).b.toRPoint ∧
      (left_vertices_f32 5 5 ⟨4, 3⟩ ⟨-1, 0⟩).c.toRPoint =
        rotate_about (square_centre 5 5) 0 1
          (upright_vertices_f32 5 5 ⟨4, 3⟩ ⟨-1, 0⟩).c.toRPoint)) ∧
    (right_vertices_f32 5 5 ⟨4, 3⟩ ⟨-1, 0⟩ = ⟨⟨5, 7⟩, ⟨5, 3⟩, ⟨8, 7⟩⟩ ∧
      upright_vertices_f32 5 5 ⟨4, 3⟩ ⟨-1, 0⟩ = ⟨⟨4, 5⟩, ⟨8, 5⟩, ⟨4, 8⟩⟩) :=
  ⟨by unfold within; decide,
    rotated_vertices_f32_are_rotations 5 5 ⟨4, 3⟩ ⟨-1, 0⟩ (by unfold within; decide)
      (by unfold within; decide) (by unfold within; decide) (by unfold within; decide)
      (by unfold within; decide) (by unfold within; decide) (by decide) (by decide),
    by decide⟩

/-! ## The dimensions of a cell in machine arithmetic -/

theorem create_dimensions_loop_f32_eq (E : Int) :
    ∀ (n : Nat) (base : Int) (acc : List valid_translations),
      create_dimensions_loop_f32 E n base acc =
        acc ++ (((List.range n).map fun j : Nat => base + (j : Int)).filter
          fun b => decide (b < E) && decide (E % b = 0)).map
            fun b => ⟨fpoint b (E / b), translate_f32 (fpoint b (E / b))⟩ := by
  intro n
  induction n with
  | zero => intro base acc; simp [create_dimensions_loop_f32]
  | succ n ih =>
    intro base acc
    have hshift : (List.map (fun j : Nat => base + (j : Int)) (List.range (n + 1))) =
        base :: List.map (fun j : Nat => base + 1 + (j : Int)) (List.range n) := by
      rw [List.range_succ_eq_map, List.map_cons, List.map_map]
      simp only [Nat.cast_zero, add_zero, List.cons.injEq, true_and]
      apply List.map_congr_left
      intro j _
      simp only [Function.comp, Nat.succ_eq_add_one, Nat.cast_add, Nat.cast_one]
      ring
    rw [hshift, List.filter_cons]
    unfold create_dimensions_loop_f32
    by_cases h1 : base < E
    · by_cases h2 : E % base = 0
      · simp only [h1, h2, if_true, decide_True, Bool.and_self, List.map_cons]
        rw [ih, List.append_assoc]
        rfl
      · simp only [h1, h2, if_true, if_false, decide_True, decide_False, Bool.and_false,
          Bool.false_eq_true]
        rw [ih]
    · simp only [h1, if_false, decide_False, Bool.false_and, Bool.false_eq_true]
      have hnil : (List.map (fun j : Nat => base + 1 + (j : Int)) (List.range n)).filter
          (fun b => decide (b < E) && decide (E % b = 0)) = [] := by
        rw [List.filter_eq_nil_iff]
        intro b hb
        simp only [List.mem_map, List.mem_range] at hb
        obtain ⟨j, -, rfl⟩ := hb
        have : ¬ (base + 1 + (j : Int) < E) := by omega
        simp [this]
      rw [hnil]
      simp

theorem create_dimensions_f32_eq (A : Int) (h1 : -1073741824 ≤ A) (h2 : A < 1073741824) :
    create_dimensions_f32 A [] =
      (((List.range (2 * A - 2).toNat).map fun j : Nat => (2 : Int) + (j : Int)).filter
        fun b => decide (b ∣ 2 * A)).map
          fun b => ⟨fpoint b (2 * A / b), translate_f32 (fpoint b (2 * A / b))⟩ := by
  unfold create_dimensions_f32
  simp only [wrap32_id (2 * A) (by omega) (by omega), create_dimensions_loop_f32_eq,
    List.nil_append]
  congr 1
  apply List.filter_congr
  intro b hb
  simp only [List.mem_map, List.mem_range] at hb
  obtain ⟨j, hj, rfl⟩ := hb
  have h1 : (2 : Int) + (j : Int) < 2 * A := by omega
  simp only [h1, decide_True, Bool.true_and, Int.dvd_iff_emod_eq_zero]

theorem divisor_pair_bounds (A b : Int) (hb1 : 2 ≤ b) (hb2 : b < 2 * A) (hd : b ∣ 2 * A) :
    b * (2 * A / b) = 2 * A ∧ 2 ≤ 2 * A / b ∧ b ≤ A ∧ 2 * A / b ≤ A := by
  have hmul := Int.mul_ediv_cancel' hd
  have hh : 2 ≤ 2 * A / b := by
    by_contra hlt
    push_neg at hlt
    have : b * (2 * A / b) ≤ b * 1 := mul_le_mul_of_nonneg_left (by omega) (by omega)
    omega
  refine ⟨hmul, hh, ?_, ?_⟩
  · have : b * 2 ≤ b * (2 * A / b) := mul_le_mul_of_nonneg_left hh (by omega)
    omega
  · have : 2 * (2 * A / b) ≤ b * (2 * A / b) := mul_le_mul_of_nonneg_right hb1 (by omega)
    omega

theorem create_dimensions_f32_eq_exact (A : Int) (h1 : 1 ≤ A) (h2 : A ≤ 16777216) :
    create_dimensions_f32 A [] =
      (((List.range (2 * A - 2).toNat).map fun j : Nat => (2 : Int) + (j : Int)).filter
        fun b => decide (b ∣ 2 * A)).map
          fun b => ⟨⟨b, 2 * A / b⟩, translate_f32 ⟨b, 2 * A / b⟩⟩ := by
  rw [create_dimensions_f32_eq A (by omega) (by omega)]
  apply List.map_congr_left
  intro b hb
  simp only [List.mem_filter, List.mem_map, List.mem_range, decide_eq_true_eq] at hb
  obtain ⟨⟨j, hj, rfl⟩, hd⟩ := hb
  obtain ⟨-, k1, k2, k3⟩ := divisor_pair_bounds A (2 + (j : Int)) (by omega) (by omega) hd
  have e : fpoint (2 + (j : Int)) (2 * A / (2 + (j : Int))) =
      ⟨2 + (j : Int), 2 * A / (2 + (j : Int))⟩ := by
    unfold fpoint
    rw [round_f32_exact _ (by omega) (by omega), round_f32_exact _ (by omega) (by omega)]
  rw [e]

/-- C8, as stated, fails: for the area `A = 16777217` the first dimension the loop of
`create_dimensions` stores is `Point(2, 16777217)`, whose `float` coordinates are
`(2, 16777216)`: the product of base and height is `2 * A - 2`. For `A = 2 ^ 30` the `int`
product `2 * area` wraps to a negative value and the list is empty, although
`2, 4, 8, ...` divide `2 * A`. -/
theorem create_dimensions_f32_wrong_product :
    ((1 : Int) ≤ 16777217 ∧
      ∃ c ∈ create_dimensions_f32 16777217 [], c._dimensions = ⟨2, 16777216⟩ ∧
        c._dimensions.x * c._dimensions.y ≠ 2 * 16777217) ∧
    ((1 : Int) ≤ 1073741824 ∧ create_dimensions_f32 1073741824 [] = [] ∧
      (2 : Int) ∣ 2 * 1073741824) := by
  refine ⟨⟨by decide, ?_⟩, by decide, ?_, by decide⟩
  · rw [create_dimensions_f32_eq 16777217 (by decide) (by decide)]
    refine ⟨_, List.mem_map.mpr ⟨2, List.mem_filter.mpr ⟨List.mem_map.mpr
      ⟨0, List.mem_range.mpr (by decide), by decide⟩, by decide⟩, rfl⟩, ?_, ?_⟩
    · show fpoint 2 (2 * 16777217 / 2) = ⟨2, 16777216⟩
      decide
    · show (fpoint 2 (2 * 16777217 / 2)).x * (fpoint 2 (2 * 16777217 / 2)).y ≠ 2 * 16777217
      decide
  · have e : wrap32 (2 * 1073741824) = -2147483648 := by decide
    unfold create_dimensions_f32
    simp only [e]
    rfl

/-- C8, amended: for every area `A` with `1 ≤ A ≤ 2 ^ 24 = 16777216`, the dimension list
built by `create_dimensions` is exactly the list of the pairs `(b, 2 * A / b)`, each with
its offsets `translate (b, 2 * A / b)`, over the integers `b` in `2 .. 2 * A - 1` that divide
`2 * A`, by ascending `b`; every generated dimension has `base * height = 2 * A`,
`base ≥ 2` and `height ≥ 2`. -/
theorem create_dimensions_f32_exact (A : Int) (h1 : 1 ≤ A) (h2 : A ≤ 16777216) :
    create_dimensions_f32 A [] =
      (((List.range (2 * A - 2).toNat).map fun j : Nat => (2 : Int) + (j : Int)).filter
        fun b => decide (b ∣ 2 * A)).map
          (fun b => ⟨⟨b, 2 * A / b⟩, translate_f32 ⟨b, 2 * A / b⟩⟩) ∧
    ((create_dimensions_f32 A []).map fun c => c._dimensions.x).Pairwise (· < ·) ∧
    ∀ c ∈ create_dimensions_f32 A [],
      c._dimensions.x * c._dimensions.y = 2 * A ∧ 2 ≤ c._dimensions.x ∧
        2 ≤ c._dimensions.y := by
  refine ⟨create_dimensions_f32_eq_exact A h1 h2, ?_, ?_⟩
  · rw [create_dimensions_f32_eq_exact A h1 h2, List.map_map]
    have hid : ((fun c : valid_translations => c._dimensions.x) ∘
        fun b : Int => (⟨⟨b, 2 * A / b⟩, translate_f32 ⟨b, 2 * A / b⟩⟩ :
          valid_translations)) = id := by
      funext b; rfl
    rw [hid, List.map_id]
    apply List.Pairwise.filter
    rw [List.pairwise_map]
    refine (List.pairwise_lt_range _).imp ?_
    intro i j hij
    omega
  · intro c hc
    rw [create_dimensions_f32_eq_exact A h1 h2] at hc
    simp only [List.mem_map, List.mem_filter, List.mem_range, decide_eq_true_eq] at hc
    obtain ⟨b, ⟨⟨j, hj, rfl⟩, hdvd⟩, rfl⟩ := hc
    obtain ⟨k0, k1, -, -⟩ := divisor_pair_bounds A (2 + (j : Int)) (by omega) (by omega) hdvd
    exact ⟨k0, by simp only; omega, k1⟩

/-- Witness for C8, amended, at area 6. -/
theorem create_dimensions_f32_exact_witness :
    ((1 : Int) ≤ 6 ∧ (6 : Int) ≤ 16777216) ∧
    (create_dimensions_f32 6 [] =
      (((List.range (2 * (6 : Int) - 2).toNat).map fun j : Nat => (2 : Int) + (j : Int)).filter
        fun b => decide (b ∣ 2 * 6)).map
          (fun b => ⟨⟨b, 2 * 6 / b⟩, translate_f32 ⟨b, 2 * 6 / b⟩⟩) ∧
    ((create_dimensions_f32 6 []).map fun c => c._dimensions.x).Pairwise (· < ·) ∧
    ∀ c ∈ create_dimensions_f32 6 [],
      c._dimensions.x * c._dimensions.y = 2 * 6 ∧ 2 ≤ c._dimensions.x ∧
        2 ≤ c._dimensions.y) :=
  ⟨by decide, create_dimensions_f32_exact 6 (by decide) (by decide)⟩

/-! ## The segment test and the point-in-triangle test in machine arithmetic -/

/-- C10, as stated, fails: for the integer points `p1 = (17750, 8997)`, `q1 = (2763, 18780)`,
`p2 = (17678, 9044)`, `q2 = (11385, 5783)` the segments cross transversally (non-zero cross
product of the directions, a common point that is an endpoint of neither), yet
`do_intersect`, computing in `float`, returns false: the orientation value of
`(p1, q1, p2)` is 13 in exact arithmetic and 0 after rounding. -/
theorem do_intersect_f32_misses_crossing :
    do_intersect_f32 ⟨17750, 8997⟩ ⟨2763, 18780⟩ ⟨17678, 9044⟩ ⟨11385, 5783⟩ = false ∧
    orientation_val ⟨17750, 8997⟩ ⟨2763, 18780⟩ ⟨17678, 9044⟩ = 13 ∧
    orientation_f32 ⟨17750, 8997⟩ ⟨2763, 18780⟩ ⟨17678, 9044⟩ = 0 ∧
    dir_cross ⟨17750, 8997⟩ ⟨2763, 18780⟩ ⟨17678, 9044⟩ ⟨11385, 5783⟩ ≠ 0 ∧
    share_inner_point ⟨17750, 8997⟩ ⟨2763, 18780⟩ ⟨17678, 9044⟩ ⟨11385, 5783⟩ := by
  refine ⟨by decide, by decide, by decide, by decide, ?_⟩
  exact ((do_intersect_iff_transversal ⟨17750, 8997⟩ ⟨2763, 18780⟩ ⟨17678, 9044⟩
    ⟨11385, 5783⟩).1.mp (by decide)).2

/-- C10, amended: for points with integer coordinates of magnitude at most 2047,
`do_intersect` is true exactly when the segments cross transversally: the direction vectors
have non-zero cross product and the segments share a point that is an endpoint of neither.
It is false whenever an endpoint of one segment lies on the line through the other segment
(T-junction, collinear overlap), whenever the segments have an endpoint in common, and
whenever one of the segments is a single point. -/
theorem do_intersect_f32_iff_transversal (p1 q1 p2 q2 : Point) (h1 : small_point p1)
    (h2 : small_point q1) (h3 : small_point p2) (h4 : small_point q2) :
    (do_intersect_f32 p1 q1 p2 q2 = true ↔
      dir_cross p1 q1 p2 q2 ≠ 0 ∧ share_inner_point p1 q1 p2 q2) ∧
    (orientation_val p1 q1 p2 = 0 ∨ orientation_val p1 q1 q2 = 0 ∨
      orientation_val p2 q2 p1 = 0 ∨ orientation_val p2 q2 q1 = 0 →
        do_intersect_f32 p1 q1 p2 q2 = false) ∧
    (p1 = p2 ∨ p1 = q2 ∨ q1 = p2 ∨ q1 = q2 → do_intersect_f32 p1 q1 p2 q2 = false) ∧
    (p1 = q1 ∨ p2 = q2 → do_intersect_f32 p1 q1 p2 q2 = false) := by
  rw [do_intersect_f32_eq p1 q1 p2 q2 h1 h2 h3 h4]
  have hfalse : orientation_val p1 q1 p2 = 0 ∨ orientation_val p1 q1 q2 = 0 ∨
      orientation_val p2 q2 p1 = 0 ∨ orientation_val p2 q2 q1 = 0 →
        do_intersect p1 q1 p2 q2 = false := by
    intro h
    rw [Bool.eq_false_iff]
    intro ht
    obtain ⟨a1, a2⟩ := (do_intersect_eq_true_iff p1 q1 p2 q2).mp ht
    rcases h with h | h | h | h <;>
      first
      | (rw [h] at a1; simp at a1)
      | (rw [h] at a2; simp at a2)
  refine ⟨(do_intersect_iff_transversal p1 q1 p2 q2).1, hfalse, ?_, ?_⟩
  · intro h
    apply hfalse
    rcases h with h | h | h | h
    · right; right; left; rw [h]; unfold orientation_val; ring
    · right; right; left; rw [h]; unfold orientation_val; ring
    · left; rw [h]; unfold orientation_val; ring
    · right; left; rw [h]; unfold orientation_val; ring
  · intro h
    apply hfalse
    rcases h with h | h
    · left; rw [h]; unfold orientation_val; ring
    · right; right; left; rw [h]; unfold orientation_val; ring

/-- Witness for C10, amended: the diagonals of the square with corners (0,0) and (4,4). -/
theorem do_intersect_f32_iff_transversal_witness :
    (small_point ⟨0, 0⟩ ∧ small_point ⟨4, 4⟩ ∧ small_point ⟨0, 4⟩ ∧ small_point ⟨4, 0⟩) ∧
    do_intersect_f32 ⟨0, 0⟩ ⟨4, 4⟩ ⟨0, 4⟩ ⟨4, 0⟩ = true ∧
    ((do_intersect_f32 ⟨0, 0⟩ ⟨4, 4⟩ ⟨0, 4⟩ ⟨4, 0⟩ = true ↔
      dir_cross ⟨0, 0⟩ ⟨4, 4⟩ ⟨0, 4⟩ ⟨4, 0⟩ ≠ 0 ∧
        share_inner_point ⟨0, 0⟩ ⟨4, 4⟩ ⟨0, 4⟩ ⟨4, 0⟩) ∧
    (orientation_val ⟨0, 0⟩ ⟨4, 4⟩ ⟨0, 4⟩ = 0 ∨ orientation_val ⟨0, 0⟩ ⟨4, 4⟩ ⟨4, 0⟩ = 0 ∨
      orientation_val ⟨0, 4⟩ ⟨4, 0⟩ ⟨0, 0⟩ = 0 ∨ orientation_val ⟨0, 4⟩ ⟨4, 0⟩ ⟨4, 4⟩ = 0 →
        do_intersect_f32 ⟨0, 0⟩ ⟨4, 4⟩ ⟨0, 4⟩ ⟨4, 0⟩ = false) ∧
    ((⟨0, 0⟩ : Point) = ⟨0, 4⟩ ∨ (⟨0, 0⟩ : Point) = ⟨4, 0⟩ ∨ (⟨4, 4⟩ : Point) = ⟨0, 4⟩ ∨
      (⟨4, 4⟩ : Point) = ⟨4, 0⟩ → do_intersect_f32 ⟨0, 0⟩ ⟨4, 4⟩ ⟨0, 4⟩ ⟨4, 0⟩ = false) ∧
    ((⟨0, 0⟩ : Point) = ⟨4, 4⟩ ∨ (⟨0, 4⟩ : Point) = ⟨4, 0⟩ →
      do_intersect_f32 ⟨0, 0⟩ ⟨4, 4⟩ ⟨0, 4⟩ ⟨4, 0⟩ = false)) :=
  ⟨by unfold small_point; decide, by decide,
    do_intersect_f32_iff_transversal ⟨0, 0⟩ ⟨4, 4⟩ ⟨0, 4⟩ ⟨4, 0⟩
      (by unfold small_point; decide) (by unfold small_point; decide)
      (by unfold small_point; decide) (by unfold small_point; decide)⟩

/-- C11, as stated, fails: for `p1 = (17750, 8997)`, `q1 = (2763, 18780)`,
`p2 = (17678, 9044)`, `q2 = (11385, 5783)`, `do_intersect(p1, q1, p2, q2)` is false while
`do_intersect(q1, p1, p2, q2)`, the same segments with the endpoints of the first one
exchanged, is true. -/
theorem do_intersect_f32_not_symmetric :
    do_intersect_f32 ⟨17750, 8997⟩ ⟨2763, 18780⟩ ⟨17678, 9044⟩ ⟨11385, 5783⟩ = false ∧
    do_intersect_f32 ⟨2763, 18780⟩ ⟨17750, 8997⟩ ⟨17678, 9044⟩ ⟨11385, 5783⟩ = true := by
  decide

/-- C11, amended: for points with integer coordinates of magnitude at most 2047,
`do_intersect` is symmetric under swapping the two segments and under swapping the endpoints
within either segment. -/
theorem do_intersect_f32_symmetric (p1 q1 p2 q2 : Point) (h1 : small_point p1)
    (h2 : small_point q1) (h3 : small_point p2) (h4 : small_point q2) :
    do_intersect_f32 p1 q1 p2 q2 = do_intersect_f32 p2 q2 p1 q1 ∧
      do_intersect_f32 p2 q2 p1 q1 = do_intersect_f32 q1 p1 p2 q2 ∧
      do_intersect_f32 q1 p1 p2 q2 = do_intersect_f32 p1 q1 q2 p2 := by
  rw [do_intersect_f32_eq p1 q1 p2 q2 h1 h2 h3 h4, do_intersect_f32_eq p2 q2 p1 q1 h3 h4 h1 h2,
    do_intersect_f32_eq q1 p1 p2 q2 h2 h1 h3 h4, do_intersect_f32_eq p1 q1 q2 p2 h1 h2 h4 h3,
    do_intersect_swap_segments p1 q1 p2 q2, do_intersect_swap_first p1 q1 p2 q2,
    do_intersect_swap_second p1 q1 p2 q2]
  exact ⟨rfl, rfl, rfl⟩

/-- Witness for C11, amended: a crossing pair of segments on the board. -/
theorem do_intersect_f32_symmetric_witness :
    (small_point ⟨0, 0⟩ ∧ small_point ⟨5, 3⟩ ∧ small_point ⟨1, 4⟩ ∧ small_point ⟨3, 0⟩) ∧
    do_intersect_f32 ⟨0, 0⟩ ⟨5, 3⟩ ⟨1, 4⟩ ⟨3, 0⟩ = true ∧
    (do_intersect_f32 ⟨0, 0⟩ ⟨5, 3⟩ ⟨1, 4⟩ ⟨3, 0⟩ = do_intersect_f32 ⟨1, 4⟩ ⟨3, 0⟩ ⟨0, 0⟩ ⟨5, 3⟩ ∧
      do_intersect_f32 ⟨1, 4⟩ ⟨3, 0⟩ ⟨0, 0⟩ ⟨5, 3⟩ =
        do_intersect_f32 ⟨5, 3⟩ ⟨0, 0⟩ ⟨1, 4⟩ ⟨3, 0⟩ ∧
      do_intersect_f32 ⟨5, 3⟩ ⟨0, 0⟩ ⟨1, 4⟩ ⟨3, 0⟩ =
        do_intersect_f32 ⟨0, 0⟩ ⟨5, 3⟩ ⟨3, 0⟩ ⟨1, 4⟩) :=
  ⟨by unfold small_point; decide, by decide,
    do_intersect_f32_symmetric ⟨0, 0⟩ ⟨5, 3⟩ ⟨1, 4⟩ ⟨3, 0⟩
      (by unfold small_point; decide) (by unfold small_point; decide)
      (by unfold small_point; decide) (by unfold small_point; decide)⟩

/-- C12, as stated, fails: for `pt = (4097, 4098)` and the vertices `(4096, 4097)`, `(0, 0)`,
`(3624, 3625)`, `is_inside_triangle`, computing in `float`, is true for the vertex order
`v1, v2, v3` and false for the order `v1, v3, v2`. -/
theorem is_inside_triangle_f32_depends_on_order :
    is_inside_triangle_f32 ⟨4097, 4098⟩ ⟨4096, 4097⟩ ⟨0, 0⟩ ⟨3624, 3625⟩ = true ∧
    is_inside_triangle_f32 ⟨4097, 4098⟩ ⟨4096, 4097⟩ ⟨3624, 3625⟩ ⟨0, 0⟩ = false := by
  decide

/-- C12, amended: for a point and vertices with integer coordinates of magnitude at most
2047, `is_inside_triangle` has the same value for all six orderings of the vertices. -/
theorem is_inside_triangle_f32_vertex_order (pt v1 v2 v3 : Point) (h0 : small_point pt)
    (h1 : small_point v1) (h2 : small_point v2) (h3 : small_point v3) :
    is_inside_triangle_f32 pt v1 v3 v2 = is_inside_triangle_f32 pt v1 v2 v3 ∧
      is_inside_triangle_f32 pt v2 v1 v3 = is_inside_triangle_f32 pt v1 v2 v3 ∧
      is_inside_triangle_f32 pt v2 v3 v1 = is_inside_triangle_f32 pt v1 v2 v3 ∧
      is_inside_triangle_f32 pt v3 v1 v2 = is_inside_triangle_f32 pt v1 v2 v3 ∧
      is_inside_triangle_f32 pt v3 v2 v1 = is_inside_triangle_f32 pt v1 v2 v3 := by
  rw [is_inside_triangle_f32_eq pt v1 v3 v2 h0 h1 h3 h2,
    is_inside_triangle_f32_eq pt v2 v1 v3 h0 h2 h1 h3,
    is_inside_triangle_f32_eq pt v2 v3 v1 h0 h2 h3 h1,
    is_inside_triangle_f32_eq pt v3 v1 v2 h0 h3 h1 h2,
    is_inside_triangle_f32_eq pt v3 v2 v1 h0 h3 h2 h1,
    is_inside_triangle_f32_eq pt v1 v2 v3 h0 h1 h2 h3]
  exact (is_inside_triangle_vertex_order pt.toRPoint v1.toRPoint v2.toRPoint v3.toRPoint
    pt v1 v2 v3).2

/-- Witness for C12, amended: the point (1, 1) and the triangle (0,0), (4,0), (0,3). -/
theorem is_inside_triangle_f32_vertex_order_witness :
    (small_point ⟨1, 1⟩ ∧ small_point ⟨0, 0⟩ ∧ small_point ⟨4, 0⟩ ∧ small_point ⟨0, 3⟩) ∧
    is_inside_triangle_f32 ⟨1, 1⟩ ⟨0, 0⟩ ⟨4, 0⟩ ⟨0, 3⟩ = true ∧
    (is_inside_triangle_f32 ⟨1, 1⟩ ⟨0, 0⟩ ⟨0, 3⟩ ⟨4, 0⟩ =
        is_inside_triangle_f32 ⟨1, 1⟩ ⟨0, 0⟩ ⟨4, 0⟩ ⟨0, 3⟩ ∧
      is_inside_triangle_f32 ⟨1, 1⟩ ⟨4, 0⟩ ⟨0, 0⟩ ⟨0, 3⟩ =
        is_inside_triangle_f32 ⟨1, 1⟩ ⟨0, 0⟩ ⟨4, 0⟩ ⟨0, 3⟩ ∧
      is_inside_triangle_f32 ⟨1, 1⟩ ⟨4, 0⟩ ⟨0, 3⟩ ⟨0, 0⟩ =
        is_inside_triangle_f32 ⟨1, 1⟩ ⟨0, 0⟩ ⟨4, 0⟩ ⟨0, 3⟩ ∧
      is_inside_triangle_f32 ⟨1, 1⟩ ⟨0, 3⟩ ⟨0, 0⟩ ⟨4, 0⟩ =
        is_inside_triangle_f32 ⟨1, 1⟩ ⟨0, 0⟩ ⟨4, 0⟩ ⟨0, 3⟩ ∧
      is_inside_triangle_f32 ⟨1, 1⟩ ⟨0, 3⟩ ⟨4, 0⟩ ⟨0, 0⟩ =
        is_inside_triangle_f32 ⟨1, 1⟩ ⟨0, 0⟩ ⟨4, 0⟩ ⟨0, 3⟩) :=
  ⟨by unfold small_point; decide, by decide,
    is_inside_triangle_f32_vertex_order ⟨1, 1⟩ ⟨0, 0⟩ ⟨4, 0⟩ ⟨0, 3⟩
      (by unfold small_point; decide) (by unfold small_point; decide)
      (by unfold small_point; decide) (by unfold small_point; decide)⟩

/-- C19, as stated, fails: the triangle `(4096, 4097)`, `(0, 0)`, `(3624, 3625)` is not
degenerate and the point `(4097, 4098)` lies outside it (it is no convex combination of the
vertices), yet `is_inside_triangle`, computing in `float`, returns true. -/
theorem is_inside_triangle_f32_accepts_outside_point :
    is_inside_triangle_f32 ⟨4097, 4098⟩ ⟨4096, 4097⟩ ⟨0, 0⟩ ⟨3624, 3625⟩ = true ∧
    ¬ collinear (Point.toRPoint ⟨4096, 4097⟩) (Point.toRPoint ⟨0, 0⟩)
      (Point.toRPoint ⟨3624, 3625⟩) ∧
    ¬ in_closed_triangle (Point.toRPoint ⟨4097, 4098⟩) (Point.toRPoint ⟨4096, 4097⟩)
      (Point.toRPoint ⟨0, 0⟩) (Point.toRPoint ⟨3624, 3625⟩) := by
  have hnd : ¬ collinear (Point.toRPoint ⟨4096, 4097⟩) (Point.toRPoint ⟨0, 0⟩)
      (Point.toRPoint ⟨3624, 3625⟩) := by
    simp only [collinear, Point.toRPoint]
    norm_num
  refine ⟨by decide, hnd, ?_⟩
  intro hin
  have h := ((is_inside_triangle_iff_closed_triangle _ _ _ _ hnd).2 ⟨4097, 4098⟩
    ⟨4096, 4097⟩ ⟨0, 0⟩ ⟨3624, 3625⟩ rfl rfl rfl rfl).mpr hin
  revert h
  decide

/-- C19, amended: for a point and a non-degenerate triangle with integer coordinates of
magnitude at most 2047, `is_inside_triangle` is true exactly when the point lies in the
closed triangle, that is when it is a convex combination of the three vertices (points on
an edge or at a vertex included). -/
theorem is_inside_triangle_f32_iff_closed_triangle (pt v1 v2 v3 : Point)
    (h0 : small_point pt) (h1 : small_point v1) (h2 : small_point v2) (h3 : small_point v3)
    (hnd : ¬ collinear v1.toRPoint v2.toRPoint v3.toRPoint) :
    is_inside_triangle_f32 pt v1 v2 v3 = true ↔
      in_closed_triangle pt.toRPoint v1.toRPoint v2.toRPoint v3.toRPoint := by
  rw [is_inside_triangle_f32_eq pt v1 v2 v3 h0 h1 h2 h3]
  exact (is_inside_triangle_iff_closed_triangle _ _ _ _ hnd).2 pt v1 v2 v3 rfl rfl rfl rfl

/-- Witness for C19, amended: the triangle (0,0), (4,0), (0,4) with the boundary point
(2,2). -/
theorem is_inside_triangle_f32_iff_closed_triangle_witness :
    (small_point ⟨2, 2⟩ ∧ small_point ⟨0, 0⟩ ∧ small_point ⟨4, 0⟩ ∧ small_point ⟨0, 4⟩ ∧
      ¬ collinear (Point.toRPoint ⟨0, 0⟩) (Point.toRPoint ⟨4, 0⟩) (Point.toRPoint ⟨0, 4⟩)) ∧
    is_inside_triangle_f32 ⟨2, 2⟩ ⟨0, 0⟩ ⟨4, 0⟩ ⟨0, 4⟩ = true ∧
    (is_inside_triangle_f32 ⟨2, 2⟩ ⟨0, 0⟩ ⟨4, 0⟩ ⟨0, 4⟩ = true ↔
      in_closed_triangle (Point.toRPoint ⟨2, 2⟩) (Point.toRPoint ⟨0, 0⟩)
        (Point.toRPoint ⟨4, 0⟩) (Point.toRPoint ⟨0, 4⟩)) :=
  ⟨⟨by unfold small_point; decide, by unfold small_point; decide,
      by unfold small_point; decide, by unfold small_point; decide,
      by simp [collinear, Point.toRPoint]⟩,
    by decide,
    is_inside_triangle_f32_iff_closed_triangle ⟨2, 2⟩ ⟨0, 0⟩ ⟨4, 0⟩ ⟨0, 4⟩
      (by unfold small_point; decide) (by unfold small_point; decide)
      (by unfold small_point; decide) (by unfold small_point; decide)
      (by simp [collinear, Point.toRPoint])⟩

/-! ## The 18-term test of the preprocessing in machine arithmetic -/

theorem first_test_false (b h : Int) (h1 : ¬ (2 ≤ b ∧ 1 ≤ h)) (h2 : ¬ (b = 0 ∧ h = 0)) :
    is_inside_triangle ⟨1, 1⟩ ⟨0, 0⟩ ⟨0, h⟩ ⟨b, 0⟩ = false := by
  rw [Bool.eq_false_iff]
  intro ht
  rw [is_inside_triangle_eq_true_iff] at ht
  simp only [sign] at ht
  rcases ht with ⟨a1, a2, a3⟩ | ⟨a1, a2, a3⟩
  · have hb : b ≤ 0 := by linarith
    have hh : h ≤ 0 := by linarith
    have hbh : 0 ≤ b * h := mul_nonneg_of_nonpos_of_nonpos hb hh
    apply h2
    constructor <;> nlinarith
  · have hb : 0 ≤ b := by linarith
    have hh : 0 ≤ h := by linarith
    have hc : b = 0 ∨ b = 1 ∨ (2 ≤ b ∧ h = 0) := by omega
    rcases hc with rfl | rfl | ⟨hb2, rfl⟩
    · apply h2
      exact ⟨rfl, by linarith⟩
    · linarith
    · linarith

theorem translate_fuel_total (dimensions : Point) (fuel : Nat)
    (hf : (dimensions.x + dimensions.y).toNat + 2 ≤ fuel) :
    translate_fuel fuel dimensions = some (TriTri.translate dimensions) := by
  obtain ⟨b, h⟩ := dimensions
  simp only at hf
  by_cases h1 : 2 ≤ b ∧ 1 ≤ h
  · rw [translate_eq b h h1.1 h1.2]
    exact translate_fuel_eq b h h1.1 h1.2 fuel (by omega)
  · by_cases h2 : b = 0 ∧ h = 0
    · obtain ⟨rfl, rfl⟩ := h2
      obtain ⟨n, rfl⟩ : ∃ n, fuel = n + 1 + 1 := ⟨fuel - 2, by omega⟩
      have e : TriTri.translate ⟨0, 0⟩ = [⟨0, 0⟩] := by decide
      have t0 : is_inside_triangle ⟨1, 1⟩ ⟨0, 0⟩ ⟨0, 0⟩ ⟨0, 0⟩ = true := by decide
      have t1 : is_inside_triangle ⟨1, 1⟩ ⟨0, 0⟩ ⟨0, 0 - 1⟩ ⟨0, 0 - 1⟩ = false := by decide
      have t2 : is_inside_triangle ⟨1, 1⟩ ⟨0, 0⟩ ⟨0 - 1, 0⟩ ⟨0 - 1, 0⟩ = false := by decide
      rw [e]
      simp only [translate_fuel, translate_outer, translate_inner, t0, t1, t2, if_true,
        Bool.false_eq_true, if_false, Option.map_some', List.nil_append]
    · obtain ⟨n, rfl⟩ : ∃ n, fuel = n + 1 := ⟨fuel - 1, by omega⟩
      have t0 := first_test_false b h h1 h2
      have e : TriTri.translate ⟨b, h⟩ = [] := by
        unfold TriTri.translate
        simp only [translate_fuel, translate_outer, t0, Bool.false_eq_true, if_false,
          Option.map_some', Option.getD_some]
      rw [e]
      simp only [translate_fuel, translate_outer, t0, Bool.false_eq_true, if_false,
        Option.map_some']

end TriTri
